import Mathlib

/-!
# SoftHost: the active-plugin chain of `IconMenu`

A shallow embedding of `Source/IconMenu.cpp`: the settings store that keeps the
chain (`plugin-order-`, `plugin-bypass-`, `plugin-state-` entries), the resolver
(`getNextPluginOlderThanTime`, `getTimeSortedList`), the graph builder
(`loadActivePlugins`), the state persistence (`savePluginStates`,
`deletePluginStates`) and the branches of `menuInvocationCallback`.

JUCE itself is not part of the repository.  What the embedding takes from it is
written down next to each definition: `String`, `PropertySet`, `KnownPluginList`,
`AudioProcessorGraph`.
-/

namespace SoftHost

/-! ## JUCE strings -/

/-- JUCE `String::toLowerCase`, on the ASCII letters. -/
def toLowerCase (s : String) : String := String.mk (s.data.map Char.toLower)

/-- JUCE `String::equalsIgnoreCase`: the two texts are compared character by
character after upper-casing (ASCII letters here). -/
def equalsIgnoreCase (a b : String) : Bool :=
  a.data.map Char.toUpper == b.data.map Char.toUpper

/-! ## Plugin descriptions -/

/-- The fields of JUCE `PluginDescription` that the chain manager reads.
`name`, `version` and `pluginFormatName` make the settings key; `fileOrIdentifier`
and `uniqueId` are what `KnownPluginList` compares (`isDuplicateOf`). -/
structure PluginDescription where
  name : String
  version : String
  pluginFormatName : String
  fileOrIdentifier : String
  uniqueId : Int
  deriving DecidableEq, Repr

/-- The value of `PluginDescription()`: what `getNextPluginOlderThanTime` returns
when its loop selects nothing. -/
def PluginDescription.empty : PluginDescription :=
  { name := "", version := "", pluginFormatName := "", fileOrIdentifier := "", uniqueId := 0 }

instance : Inhabited PluginDescription := ⟨PluginDescription.empty⟩

/-- JUCE `PluginDescription::isDuplicateOf`: same file and same uid. -/
def isDuplicateOf (a b : PluginDescription) : Bool :=
  a.fileOrIdentifier == b.fileOrIdentifier && a.uniqueId == b.uniqueId

/-- `IconMenu::getKey`. -/
def getKey (type : String) (plugin : PluginDescription) : String :=
  "plugin-" ++ toLowerCase type ++ "-" ++ plugin.name ++ plugin.version ++ plugin.pluginFormatName

/-! ## The settings store (`getAppProperties().getUserSettings()`) -/

/-- Bytes of a plugin state (`MemoryBlock`). -/
abbrev MemoryBlock := List Nat

/-- A stored value.  `PropertySet` keeps text; the embedding keeps the value that
`setValue` was given (an `int`, a `bool`, or the base64 text of a memory block)
and the getters below read it back as the text would be read. -/
inductive Var where
  | int (n : Int)
  | bool (b : Bool)
  | blob (b : MemoryBlock)
  deriving DecidableEq, Repr

/-- The user settings: key names are case sensitive (`PropertiesFile::Options`
is left at its default in `HostStartup.cpp`). -/
abbrev PropertySet := String → Option Var

/-- `PropertySet::setValue`. -/
def setValue (s : PropertySet) (key : String) (v : Var) : PropertySet :=
  fun k => if k = key then some v else s k

/-- `PropertySet::removeValue`. -/
def removeValue (s : PropertySet) (key : String) : PropertySet :=
  fun k => if k = key then none else s k

/-- The expression `getValue(key).getIntValue()`: a missing key reads as the empty
text, whose integer value is 0; a stored `bool` is the text "1" or "0"; the
base64 text of a block starts with its byte count. -/
def getIntValue (s : PropertySet) (key : String) : Int :=
  match s key with
  | some (Var.int n) => n
  | some (Var.bool b) => if b then 1 else 0
  | some (Var.blob b) => b.length
  | none => 0

/-- `PropertySet::getBoolValue(key, false)`: the integer value of the text is not 0. -/
def getBoolValue (s : PropertySet) (key : String) : Bool :=
  decide (getIntValue s key ≠ 0)

/-- The block that `MemoryBlock::fromBase64Encoding(getValue(key))` leaves: the
stored block, or an empty block when the text is missing or is not base64. -/
def getStateValue (s : PropertySet) (key : String) : MemoryBlock :=
  match s key with
  | some (Var.blob b) => b
  | _ => []

/-! ## The resolver -/

/-- `INT_MAX` of `<limits.h>` for a 32-bit `int`. -/
def INT_MAX : Int := 2147483647

/-- Local variables of `getNextPluginOlderThanTime` that its loop updates. -/
structure NextState where
  diff : Int
  closest : PluginDescription
  time : Int
  deriving DecidableEq, Repr

/-- Body of the `for` loop of `getNextPluginOlderThanTime` for one element of
`activePluginList`. -/
def nextStep (s : PropertySet) (timeStatic : Int) (st : NextState)
    (plugin : PluginDescription) : NextState :=
  let pluginTime := getIntValue s (getKey "order" plugin)
  if pluginTime > timeStatic ∧ |timeStatic - pluginTime| < st.diff then
    { diff := |timeStatic - pluginTime|, closest := plugin, time := pluginTime }
  else st

/-- `IconMenu::getNextPluginOlderThanTime(int &time)`: the returned description
and the value left in `time`.  The callers pass `time ≥ 0` and stored positions
are `int`s, so `timeStatic - pluginTime` does not overflow where it is used. -/
def getNextPluginOlderThanTime (s : PropertySet) (types : List PluginDescription)
    (time : Int) : PluginDescription × Int :=
  let st := types.foldl (nextStep s time) { diff := INT_MAX, closest := default, time := time }
  (st.closest, st.time)

/-- The loop of `getTimeSortedList`: `count` calls of `getNextPluginOlderThanTime`
that share the running `time`. -/
def timeSortedLoop (s : PropertySet) (types : List PluginDescription) :
    Nat → Int → List PluginDescription
  | 0, _ => []
  | count + 1, time =>
    let r := getNextPluginOlderThanTime s types time
    r.1 :: timeSortedLoop s types count r.2

/-- `IconMenu::getTimeSortedList`. -/
def getTimeSortedList (s : PropertySet) (types : List PluginDescription) :
    List PluginDescription :=
  timeSortedLoop s types types.length 0

/-! ## The processor graph -/

/-- What a graph node runs: one of the two I/O processors, or a plugin instance
with the description it was created from and the state that
`getStateInformation` returns (an instance is taken to return the block last
given to `setStateInformation`, and the state it started with otherwise). -/
inductive Processor where
  | audioInputNode
  | audioOutputNode
  | plugin (description : PluginDescription) (state : MemoryBlock)
  deriving DecidableEq, Repr

/-- `AudioProcessor::getStateInformation`; the I/O processors have no state. -/
def Processor.getStateInformation : Processor → MemoryBlock
  | Processor.plugin _ state => state
  | _ => []

/-- A graph node: its `NodeID` and its processor. -/
structure Node where
  nodeID : Nat
  processor : Processor
  deriving DecidableEq, Repr

/-- An `AudioProcessorGraph::Connection`: (source node, channel) to (destination node, channel). -/
structure Connection where
  srcNode : Nat
  srcChannel : Nat
  dstNode : Nat
  dstChannel : Nat
  deriving DecidableEq, Repr

/-- The part of `AudioProcessorGraph` the chain manager builds. -/
structure AudioProcessorGraph where
  nodes : List Node
  connections : List Connection
  deriving DecidableEq, Repr

/-- The graph after `graph.clear()`. -/
def AudioProcessorGraph.clear : AudioProcessorGraph := { nodes := [], connections := [] }

/-- `AudioProcessorGraph::addNode`: a node id already in use is refused. -/
def AudioProcessorGraph.addNode (g : AudioProcessorGraph) (p : Processor) (nodeID : Nat) :
    AudioProcessorGraph :=
  if g.nodes.any (fun n => n.nodeID == nodeID) then g
  else { g with nodes := g.nodes ++ [{ nodeID := nodeID, processor := p }] }

/-- `AudioProcessorGraph::getNodeForId`. -/
def AudioProcessorGraph.getNodeForId (g : AudioProcessorGraph) (nodeID : Nat) : Option Node :=
  g.nodes.find? (fun n => n.nodeID == nodeID)

/-- `AudioProcessorGraph::addConnection`, recorded as requested: every connection
`loadActivePlugins` asks for joins two nodes it has just added, on channels 0 and 1
(instances are taken to be stereo, which `removePluginsLackingInputOutput` is there
to ensure). -/
def AudioProcessorGraph.addConnection (g : AudioProcessorGraph) (c : Connection) :
    AudioProcessorGraph :=
  { g with connections := g.connections ++ [c] }

/-- `NodeID INPUT(1000000)` of `loadActivePlugins`. -/
def INPUT : Nat := 1000000
/-- `NodeID OUTPUT(1000001)` of `loadActivePlugins`. -/
def OUTPUT : Nat := 1000001
/-- `CHANNEL_ONE` of `loadActivePlugins`. -/
def CHANNEL_ONE : Nat := 0
/-- `CHANNEL_TWO` of `loadActivePlugins`. -/
def CHANNEL_TWO : Nat := 1

/-- The two `addConnection` calls that `loadActivePlugins` always issues together. -/
def connectBoth (g : AudioProcessorGraph) (src dst : Nat) : AudioProcessorGraph :=
  (g.addConnection ⟨src, CHANNEL_ONE, dst, CHANNEL_ONE⟩).addConnection
    ⟨src, CHANNEL_TWO, dst, CHANNEL_TWO⟩

/-- The plugin-instantiation collaborator, `formatManager.createPluginInstance`:
for the `i`-th request of a rebuild and a description, either no instance (`none`)
or an instance, given by the state it starts with. -/
abbrev CreatePluginInstance := Nat → PluginDescription → Option MemoryBlock

/-- Local variables of `loadActivePlugins` that its loop updates, with the graph.
`lastId = 0` is the default `NodeID()`. -/
structure LoadState where
  pluginTime : Int
  lastId : Nat
  hasInputConnected : Bool
  graph : AudioProcessorGraph
  deriving DecidableEq, Repr

/-- Body of the `for (int i = 1; ...)` loop of `loadActivePlugins`. -/
def loadStep (create : CreatePluginInstance) (s : PropertySet)
    (types : List PluginDescription) (st : LoadState) (i : Nat) : LoadState :=
  let r := getNextPluginOlderThanTime s types st.pluginTime
  let plugin := r.1
  let st := { st with pluginTime := r.2 }
  match create i plugin with
  | none => st
  | some fresh =>
    -- restore plugin state
    let savedPluginBinary := getStateValue s (getKey "state" plugin)
    let state := if savedPluginBinary.length > 0 then savedPluginBinary else fresh
    let nodeId := i
    let st := { st with graph := st.graph.addNode (Processor.plugin plugin state) nodeId }
    let bypass := getBoolValue s (getKey "bypass" plugin)
    let st :=
      if !st.hasInputConnected && !bypass then
        { st with graph := connectBoth st.graph INPUT nodeId, hasInputConnected := true }
      else if !bypass && st.lastId != 0 then
        { st with graph := connectBoth st.graph st.lastId nodeId }
      else st
    if !bypass then { st with lastId := nodeId } else st

/-- `IconMenu::loadActivePlugins`: the graph it leaves. -/
def loadActivePlugins (create : CreatePluginInstance) (s : PropertySet)
    (types : List PluginDescription) : AudioProcessorGraph :=
  let graph := (AudioProcessorGraph.clear.addNode Processor.audioInputNode INPUT).addNode
    Processor.audioOutputNode OUTPUT
  if types.length = 0 then
    connectBoth graph INPUT OUTPUT
  else
    let st := (List.range' 1 types.length).foldl (loadStep create s types)
      { pluginTime := 0, lastId := 0, hasInputConnected := false, graph := graph }
    if st.lastId != 0 then connectBoth st.graph st.lastId OUTPUT
    else connectBoth st.graph INPUT OUTPUT

/-! ## State persistence -/

/-- Body of the loop of `savePluginStates` for index `i` and `list[i]`. -/
def saveStep (graph : AudioProcessorGraph) (s : PropertySet) (i : Nat)
    (plugin : PluginDescription) : PropertySet :=
  match graph.getNodeForId (i + 1) with
  | none => s
  | some node =>
    let savedStateBinary := node.processor.getStateInformation
    if savedStateBinary.length > 0 then
      setValue s (getKey "state" plugin) (Var.blob savedStateBinary)
    else s

/-- The loop of `savePluginStates` from index `i` over the rest of `list`. -/
def saveLoop (graph : AudioProcessorGraph) : Nat → List PluginDescription → PropertySet → PropertySet
  | _, [], s => s
  | i, plugin :: rest, s => saveLoop graph (i + 1) rest (saveStep graph s i plugin)

/-- `IconMenu::savePluginStates`: the settings it leaves. -/
def savePluginStates (graph : AudioProcessorGraph) (s : PropertySet)
    (types : List PluginDescription) : PropertySet :=
  saveLoop graph 0 (getTimeSortedList s types) s

/-- `IconMenu::deletePluginStates`: the settings it leaves. -/
def deletePluginStates (s : PropertySet) (types : List PluginDescription) : PropertySet :=
  (getTimeSortedList s types).foldl (fun acc plugin => removeValue acc (getKey "state" plugin)) s

/-! ## `KnownPluginList` -/

/-- The loop of `KnownPluginList::addType` that looks for a listed duplicate of
`t` and overwrites the first one it meets (`desc = type`). -/
def replaceDuplicate : List PluginDescription → PluginDescription → List PluginDescription
  | [], _ => []
  | d :: rest, t => if isDuplicateOf d t then t :: rest else d :: replaceDuplicate rest t

/-- `KnownPluginList::addType`: a description that duplicates a listed one replaces
it, any other is inserted at index 0. -/
def addType (types : List PluginDescription) (t : PluginDescription) : List PluginDescription :=
  if types.any (fun d => isDuplicateOf d t) then replaceDuplicate types t else t :: types

/-- `KnownPluginList::removeType`: every listed duplicate of the description goes. -/
def removeType (types : List PluginDescription) (t : PluginDescription) : List PluginDescription :=
  types.filter (fun d => !isDuplicateOf d t)

/-! ## The chain mutator: `menuInvocationCallback` -/

/-- The members of `IconMenu` that the chain operations read and write. -/
structure IconMenu where
  knownPluginList : List PluginDescription
  activePluginList : List PluginDescription
  settings : PropertySet
  graph : AudioProcessorGraph
  menuIconLeftClicked : Bool

/-- `IconMenu::getTimeSortedList` on the members. -/
def IconMenu.getTimeSortedList (im : IconMenu) : List PluginDescription :=
  SoftHost.getTimeSortedList im.settings im.activePluginList

/-- The call `im->savePluginStates()`. -/
def IconMenu.savePluginStates (im : IconMenu) : IconMenu :=
  { im with settings := SoftHost.savePluginStates im.graph im.settings im.activePluginList }

/-- The call `im->deletePluginStates()`. -/
def IconMenu.deletePluginStates (im : IconMenu) : IconMenu :=
  { im with settings := SoftHost.deletePluginStates im.settings im.activePluginList }

/-- The call `im->loadActivePlugins()`. -/
def IconMenu.loadActivePlugins (create : CreatePluginInstance) (im : IconMenu) : IconMenu :=
  { im with graph := SoftHost.loadActivePlugins create im.settings im.activePluginList }

/-- The menu id bases set by the constructor of `IconMenu`. -/
def INDEX_EDIT : Int := 1000000
/-- Base of the "Bypass" menu ids. -/
def INDEX_BYPASS : Int := 2000000
/-- Base of the "Delete" menu ids. -/
def INDEX_DELETE : Int := 3000000
/-- Base of the "Move Up" menu ids. -/
def INDEX_MOVE_UP : Int := 4000000
/-- Base of the "Move Down" menu ids. -/
def INDEX_MOVE_DOWN : Int := 5000000

/-- The search loop of the delete branch: the first index `i` whose order key equals
`key` ignoring case, and 0 (the initial `unsortedIndex`) when there is none. -/
def findUnsortedIndex (key : String) : Nat → List PluginDescription → Nat
  | _, [] => 0
  | i, current :: rest =>
    if equalsIgnoreCase key (getKey "order" current) then i
    else findUnsortedIndex key (i + 1) rest

/-- The delete branch of `menuInvocationCallback`, `index = id - INDEX_DELETE`
(an index into `timeSorted`; the source reads `timeSorted[index]` unchecked, the
embedding reads an empty description when it is out of range). -/
def deletePlugin (create : CreatePluginInstance) (index : Nat) (im : IconMenu) : IconMenu :=
  let im := im.deletePluginStates
  let timeSorted := im.getTimeSortedList
  let target := timeSorted.getD index default
  let key := getKey "order" target
  let unsortedIndex := findUnsortedIndex key 0 im.activePluginList
  -- remove plugin data
  let s := removeValue im.settings key
  let s := removeValue s (getKey "bypass" target)
  let s := removeValue s (getKey "state" target)
  -- remove plugin from list
  let pd := im.activePluginList.getD unsortedIndex default
  let im := { im with settings := s, activePluginList := removeType im.activePluginList pd }
  let im := im.savePluginStates
  im.loadActivePlugins create

/-- The add branch of `menuInvocationCallback`, `index = id - 3000`;
`now` is the value of `static_cast<int>(time(nullptr))`. -/
def addPlugin (create : CreatePluginInstance) (now : Int) (index : Nat) (im : IconMenu) :
    IconMenu :=
  if index < im.knownPluginList.length then
    let plugin := im.knownPluginList.getD index default
    let key := getKey "order" plugin
    let t := now
    let im := { im with settings := setValue im.settings key (Var.int t),
                        activePluginList := addType im.activePluginList plugin }
    let im := im.savePluginStates
    im.loadActivePlugins create
  else im

/-- The bypass branch of `menuInvocationCallback`, `index = id - INDEX_BYPASS`. -/
def toggleBypass (create : CreatePluginInstance) (index : Nat) (im : IconMenu) : IconMenu :=
  let timeSorted := im.getTimeSortedList
  let key := getKey "bypass" (timeSorted.getD index default)
  -- toggle bypass flag
  let bypassed := getBoolValue im.settings key
  let im := { im with settings := setValue im.settings key (Var.bool (!bypassed)) }
  let im := im.savePluginStates
  im.loadActivePlugins create

/-- The renumbering loop of the move-up branch, at index `i` with the elements
`timeSorted[i], timeSorted[i+1], ...` still to visit. -/
def moveUpLoop (timeSorted : List PluginDescription) (toMove : PluginDescription) :
    Nat → List PluginDescription → PropertySet → PropertySet
  | _, [], s => s
  | i, current :: rest, s =>
    let move := equalsIgnoreCase (getKey "move" toMove) (getKey "move" current)
    let s := setValue s (getKey "order" current) (Var.int (if move then (i : Int) else i + 1))
    let s :=
      if move && decide (i > 0) then
        setValue s (getKey "order" (timeSorted.getD (i - 1) default)) (Var.int (i + 1))
      else s
    moveUpLoop timeSorted toMove (i + 1) rest s

/-- The move-up branch of `menuInvocationCallback`, `index = id - INDEX_MOVE_UP`. -/
def moveUp (create : CreatePluginInstance) (index : Nat) (im : IconMenu) : IconMenu :=
  let im := im.savePluginStates
  let timeSorted := im.getTimeSortedList
  let toMove := timeSorted.getD index default
  let im := { im with settings := moveUpLoop timeSorted toMove 0 timeSorted im.settings }
  im.loadActivePlugins create

/-- The renumbering loop of the move-down branch, at index `i` with the elements
`timeSorted[i], timeSorted[i+1], ...` still to visit; after the moved entry the
loop also writes its successor and steps over it (`i++`). -/
def moveDownLoop (toMove : PluginDescription) :
    Nat → List PluginDescription → PropertySet → PropertySet
  | _, [], s => s
  | i, [current], s =>
    let move := equalsIgnoreCase (getKey "move" toMove) (getKey "move" current)
    setValue s (getKey "order" current) (Var.int (if move then (i : Int) + 2 else i + 1))
  | i, current :: next :: rest, s =>
    let move := equalsIgnoreCase (getKey "move" toMove) (getKey "move" current)
    let s := setValue s (getKey "order" current) (Var.int (if move then (i : Int) + 2 else i + 1))
    if move then
      moveDownLoop toMove (i + 2) rest (setValue s (getKey "order" next) (Var.int (i + 1)))
    else
      moveDownLoop toMove (i + 1) (next :: rest) s

/-- The move-down branch of `menuInvocationCallback`, `index = id - INDEX_MOVE_DOWN`. -/
def moveDown (create : CreatePluginInstance) (index : Nat) (im : IconMenu) : IconMenu :=
  let im := im.savePluginStates
  let timeSorted := im.getTimeSortedList
  let toMove := timeSorted.getD index default
  let im := { im with settings := moveDownLoop toMove 0 timeSorted im.settings }
  im.loadActivePlugins create

/-- `IconMenu::menuInvocationCallback(id, im)`, for what it does to the chain
(settings, active list, graph).  Quitting, the icon colour, the settings dialog,
the plugin list window, the editor windows and the menu timer leave the chain as
it is. -/
def menuInvocationCallback (create : CreatePluginInstance) (now : Int) (id : Int)
    (im : IconMenu) : IconMenu :=
  -- right click menu
  if !im.menuIconLeftClicked && decide (id = 1) then im.savePluginStates
  else if !im.menuIconLeftClicked && decide (id = 2) then
    im.deletePluginStates.loadActivePlugins create
  else if !im.menuIconLeftClicked && decide (id = 3) then im
  else if id > 2 then
    if id ≥ INDEX_DELETE ∧ id < INDEX_DELETE + 1000000 then
      deletePlugin create (id - INDEX_DELETE).toNat im
    else if id ≥ 3000 ∧ id < 3000 + im.knownPluginList.length then
      addPlugin create now (id - 3000).toNat im
    else if id ≥ INDEX_BYPASS ∧ id < INDEX_BYPASS + 1000000 then
      toggleBypass create (id - INDEX_BYPASS).toNat im
    else if id ≥ INDEX_EDIT ∧ id < INDEX_EDIT + 1000000 then im
    else if id ≥ INDEX_MOVE_UP ∧ id < INDEX_MOVE_UP + 1000000 then
      moveUp create (id - INDEX_MOVE_UP).toNat im
    else if id ≥ INDEX_MOVE_DOWN ∧ id < INDEX_MOVE_DOWN + 1000000 then
      moveDown create (id - INDEX_MOVE_DOWN).toNat im
    else im
  else im


/-! ## Wiring of the rebuilt graph, as the specification words it -/

/-- The two connections, one per channel, from node `src` to node `dst`. -/
def link (src dst : Nat) : List Connection :=
  [⟨src, CHANNEL_ONE, dst, CHANNEL_ONE⟩, ⟨src, CHANNEL_TWO, dst, CHANNEL_TWO⟩]

/-- The linear wiring `src -> n1 -> n2 -> ... -> nk -> OUTPUT`, both channels at
each hop; with no node it is `src -> OUTPUT`. -/
def wireChain (src : Nat) : List Nat → List Connection
  | [] => link src OUTPUT
  | n :: rest => link src n ++ wireChain n rest

/-- Node ids of the entries of a resolved chain that instantiate and are not
bypassed, the entry at 0-based rank `r` of `resolved` being request (and node)
`i + r`. -/
def wiredNodes (create : CreatePluginInstance) (s : PropertySet) :
    Nat → List PluginDescription → List Nat
  | _, [] => []
  | i, plugin :: rest =>
    if (create i plugin).isSome && !getBoolValue s (getKey "bypass" plugin) then
      i :: wiredNodes create s (i + 1) rest
    else wiredNodes create s (i + 1) rest

/-- A directed path of connections on one channel from node `a` to node `b`. -/
inductive Path (connections : List Connection) (channel : Nat) : Nat → Nat → Prop where
  | here (a : Nat) : Path connections channel a a
  | hop {a b c : Nat} (h : (⟨a, channel, b, channel⟩ : Connection) ∈ connections)
      (rest : Path connections channel b c) : Path connections channel a c

/-- The node the next wired plugin is connected from. -/
def LoadState.src (st : LoadState) : Nat := if st.lastId != 0 then st.lastId else INPUT

/-- The connections once the code after the loop of `loadActivePlugins` has run. -/
def LoadState.finish (st : LoadState) : List Connection :=
  (if st.lastId != 0 then connectBoth st.graph st.lastId OUTPUT
   else connectBoth st.graph INPUT OUTPUT).connections

/-! ## Chains the claims are about -/

/-- The part of every settings key that identifies the plugin: name, version and
format name, concatenated. -/
def stableKey (p : PluginDescription) : String := p.name ++ p.version ++ p.pluginFormatName

/-- The stored position of a plugin: the integer read from its `plugin-order-` entry. -/
def position (s : PropertySet) (p : PluginDescription) : Int := getIntValue s (getKey "order" p)

/-- The keys of the entries are pairwise distinct as texts. -/
def DistinctKeyTexts (types : List PluginDescription) : Prop :=
  types.Pairwise (fun a b => getKey "order" a ≠ getKey "order" b)

/-- The keys of the entries are pairwise distinct even when letter case is ignored
(the comparison `menuInvocationCallback` applies to keys). -/
def DistinctKeys (types : List PluginDescription) : Prop :=
  types.Pairwise (fun a b => equalsIgnoreCase (getKey "order" a) (getKey "order" b) = false)

/-- The stored positions of the entries are pairwise distinct. -/
def DistinctPositions (s : PropertySet) (types : List PluginDescription) : Prop :=
  types.Pairwise (fun a b => position s a ≠ position s b)

/-- The stored positions of the entries are positive values of a 32-bit `int`. -/
def PositivePositions (s : PropertySet) (types : List PluginDescription) : Prop :=
  ∀ p ∈ types, 0 < position s p ∧ position s p ≤ INT_MAX

/-- A chain with pairwise distinct keys (ignoring case) and pairwise distinct
positive positions.  Its length is below `INT_MAX`, so that the `int` values
`i + 1` and `i + 2` the renumbering loops store do not overflow. -/
def WellFormedChain (s : PropertySet) (types : List PluginDescription) : Prop :=
  DistinctKeys types ∧ DistinctPositions s types ∧ PositivePositions s types ∧
    (types.length : Int) < INT_MAX

/-- No two entries of the list are duplicates of each other: what `addType`
maintains for every `KnownPluginList`. -/
def NoDuplicates (types : List PluginDescription) : Prop :=
  types.Pairwise (fun a b => isDuplicateOf a b = false)

instance (types : List PluginDescription) : Decidable (DistinctKeyTexts types) := by
  unfold DistinctKeyTexts; infer_instance

instance (types : List PluginDescription) : Decidable (DistinctKeys types) := by
  unfold DistinctKeys; infer_instance

instance (s : PropertySet) (types : List PluginDescription) :
    Decidable (DistinctPositions s types) := by
  unfold DistinctPositions; infer_instance

instance (s : PropertySet) (types : List PluginDescription) :
    Decidable (PositivePositions s types) := by
  unfold PositivePositions; infer_instance

instance (s : PropertySet) (types : List PluginDescription) :
    Decidable (WellFormedChain s types) := by
  unfold WellFormedChain; infer_instance

instance (types : List PluginDescription) : Decidable (NoDuplicates types) := by
  unfold NoDuplicates; infer_instance

/-- The entries of `l` hold the consecutive positions `i, i + 1, ...` in list order. -/
def NumberedFrom (f : PluginDescription → Int) : Int → List PluginDescription → Prop
  | _, [] => True
  | i, p :: rest => f p = i ∧ NumberedFrom f (i + 1) rest

/-- The writes of a stretch of a renumbering loop that holds no moved entry:
`timeSorted[i] := i + 1` for each element in turn. -/
def seqWrite : Nat → List PluginDescription → PropertySet → PropertySet
  | _, [], s => s
  | i, p :: rest, s => seqWrite (i + 1) rest (setValue s (getKey "order" p) (Var.int ((i : Int) + 1)))

/-! ## Concrete chains for the examples -/

/-- A description named `name`, version 1, VST, with its own file and uid. -/
def exPlugin (name : String) (uid : Int) : PluginDescription :=
  { name := name, version := "1", pluginFormatName := "VST",
    fileOrIdentifier := name ++ ".dll", uniqueId := uid }

/-- Plugin "A". -/
def exA : PluginDescription := exPlugin "A" 1
/-- Plugin "B". -/
def exB : PluginDescription := exPlugin "B" 2
/-- Plugin "C". -/
def exC : PluginDescription := exPlugin "C" 3
/-- Plugin "a": its name differs from that of `exA` in letter case only. -/
def exLowerA : PluginDescription := exPlugin "a" 4

/-- An instantiation collaborator under which every request succeeds; a fresh plugin
starts with the one-byte state `[uniqueId]`. -/
def exCreate : CreatePluginInstance := fun _ p => some [p.uniqueId.toNat]

/-- The empty settings store. -/
def emptySettings : PropertySet := fun _ => none

/-- A store holding the given positions. -/
def exPositions : List (PluginDescription × Int) → PropertySet
  | [] => emptySettings
  | (p, t) :: rest => setValue (exPositions rest) (getKey "order" p) (Var.int t)

/-- A menu (left click) with the given active list and settings, whose graph is
the one `loadActivePlugins` builds from them; A, B, C and a are the known plugins. -/
def exMenu (types : List PluginDescription) (s : PropertySet) : IconMenu :=
  { knownPluginList := [exA, exB, exC, exLowerA], activePluginList := types, settings := s,
    graph := loadActivePlugins exCreate s types, menuIconLeftClicked := true }

/-- A menu with nothing active and an empty store. -/
def exEmptyMenu : IconMenu :=
  exMenu [] emptySettings

/-- The chain A (position 10), B (20), C (35), kept in the list as C, A, B. -/
def exChainABC : IconMenu :=
  exMenu [exC, exA, exB] (exPositions [(exA, 10), (exB, 20), (exC, 35)])

/-- The chain a (position 1), B (2), A (3): two keys differ in letter case only. -/
def exChainCase : IconMenu :=
  exMenu [exA, exB, exLowerA] (exPositions [(exLowerA, 1), (exB, 2), (exA, 3)])

/-- The chain a (position 1), A (2), kept in the list as A, a. -/
def exChainCase2 : IconMenu :=
  exMenu [exA, exLowerA] (exPositions [(exLowerA, 1), (exA, 2)])

/-- The chain a (position 1), A (2), C (3). -/
def exChainCase3 : IconMenu :=
  exMenu [exC, exA, exLowerA] (exPositions [(exLowerA, 1), (exA, 2), (exC, 3)])

/-- A description named "Comp1" with an empty version. -/
def exComp1 : PluginDescription :=
  { name := "Comp1", version := "", pluginFormatName := "VST",
    fileOrIdentifier := "comp1.dll", uniqueId := 11 }

/-- Another description named "Comp" with version "1". -/
def exComp : PluginDescription :=
  { name := "Comp", version := "1", pluginFormatName := "VST",
    fileOrIdentifier := "comp.dll", uniqueId := 12 }

/-- A consistent chain: the stored positions of the members are pairwise distinct and
the resolved order lists every member once, so that a resolved index denotes a member. -/
def ConsistentChain (s : PropertySet) (types : List PluginDescription) : Prop :=
  DistinctPositions s types ∧ (getTimeSortedList s types).Perm types

instance (s : PropertySet) (types : List PluginDescription) :
    Decidable (ConsistentChain s types) := by
  unfold ConsistentChain; infer_instance

/-- The chain A (position 0), B (position 3). -/
def exChainZero : IconMenu :=
  exMenu [exA, exB] (exPositions [(exA, 0), (exB, 3)])

/-- The chain B (position 1), a (2), A (3). -/
def exChainCase4 : IconMenu :=
  exMenu [exA, exLowerA, exB] (exPositions [(exB, 1), (exLowerA, 2), (exA, 3)])

/-- The first member, in the iteration order of the list, whose stored position is `t`. -/
def firstWithPosition (s : PropertySet) (types : List PluginDescription) (t : Int) :
    Option PluginDescription :=
  types.find? (fun y => decide (position s y = t))

/-- The member `e` has a positive position and no member before it in the list has
the same position. -/
def isFirstPositive (s : PropertySet) (types : List PluginDescription)
    (e : PluginDescription) : Bool :=
  decide (0 < position s e) && (firstWithPosition s types (position s e) == some e)

/-- The chain A, B with the same position 5 for both, kept in the list as A, B. -/
def exChainTie : IconMenu :=
  exMenu [exA, exB] (exPositions [(exA, 5), (exB, 5)])

/-- The active list B, A where only A has an order entry (position 5). -/
def exChainOrphan : IconMenu :=
  exMenu [exB, exA] (exPositions [(exA, 5)])

/-- The state `loadActivePlugins` leaves in a new instance of `plugin`: the block
stored under its `plugin-state-` key when that block is not empty, the state the
instance started with otherwise. -/
def restoredState (s : PropertySet) (plugin : PluginDescription) (fresh : MemoryBlock) :
    MemoryBlock :=
  if (getStateValue s (getKey "state" plugin)).length > 0 then
    getStateValue s (getKey "state" plugin)
  else fresh

/-- A change of the live state of the plugin node `nodeID` (the user edits the
plugin's settings while it runs); the other nodes and the I/O nodes stay as they are. -/
def AudioProcessorGraph.setLiveState (g : AudioProcessorGraph) (nodeID : Nat)
    (state : MemoryBlock) : AudioProcessorGraph :=
  { g with nodes := g.nodes.map (fun n =>
      match n.processor with
      | Processor.plugin description _ =>
        if n.nodeID == nodeID then { n with processor := Processor.plugin description state }
        else n
      | _ => n) }

/-- The description a plugin instance was created from; the I/O processors have none. -/
def Processor.description : Processor → Option PluginDescription
  | Processor.plugin description _ => some description
  | _ => none

/-- The graph is a live graph of the resolved order `resolved`: a node with id
`i + 1`, when there is one, runs an instance created from the entry at resolved
index `i`. -/
def LiveNodesOf (g : AudioProcessorGraph) (resolved : List PluginDescription) : Prop :=
  ∀ i, i < resolved.length →
    g.getNodeForId (i + 1) = none ∨
    (g.getNodeForId (i + 1)).bind (fun node => node.processor.description) =
      some (resolved.getD i default)

instance (g : AudioProcessorGraph) (resolved : List PluginDescription) :
    Decidable (LiveNodesOf g resolved) := by
  unfold LiveNodesOf; infer_instance

/-- The one-entry chain A (position 10) whose store holds the state [5] for A. -/
def exChainStale : IconMenu :=
  exMenu [exA] (setValue (exPositions [(exA, 10)]) (getKey "state" exA) (Var.blob [5]))

/-- The chain of one active plugin A (position 10): the plugin Q of the scenario. -/
def exSurvival0 : IconMenu := exMenu [exA] (exPositions [(exA, 10)])
/-- "Add B" at clock value 5: B is the plugin P of the scenario and resolves first. -/
def exSurvival1 : IconMenu := menuInvocationCallback exCreate 5 3001 exSurvival0
/-- The live state of the node of B (node 1) becomes [9]. -/
def exSurvival2 : IconMenu := { exSurvival1 with graph := exSurvival1.graph.setLiveState 1 [9] }
/-- "Delete" of index 1, the plugin A. -/
def exSurvival3 : IconMenu := menuInvocationCallback exCreate 0 3000001 exSurvival2
/-- "Delete" of index 0, the plugin B. -/
def exSurvival4 : IconMenu := menuInvocationCallback exCreate 0 3000000 exSurvival3
/-- "Add B" again, at clock value 200. -/
def exSurvival5 : IconMenu := menuInvocationCallback exCreate 200 3001 exSurvival4
/-! ## The menu -/

/-- An item of a `PopupMenu`, as `addItem (itemResultID, itemText, isEnabled, isTicked)`
adds it; the text is left out. -/
structure MenuItem where
  itemResultID : Int
  isEnabled : Bool
  isTicked : Bool
  deriving DecidableEq, Repr

/-- The sub-menu `options` that `IconMenu::timerCallback` builds for the entry at index
`i` of `timeSorted`: "Edit", "Bypass", "Move Up", "Move Down", "Delete". -/
def pluginOptions (s : PropertySet) (timeSorted : List PluginDescription) (i : Nat) :
    List MenuItem :=
  let key := getKey "bypass" (timeSorted.getD i default)
  let bypass := getBoolValue s key
  [ { itemResultID := INDEX_EDIT + i, isEnabled := true, isTicked := false },
    { itemResultID := INDEX_BYPASS + i, isEnabled := true, isTicked := bypass },
    { itemResultID := INDEX_MOVE_UP + i, isEnabled := decide (i > 0), isTicked := false },
    { itemResultID := INDEX_MOVE_DOWN + i, isEnabled := decide (i < timeSorted.length - 1),
      isTicked := false },
    { itemResultID := INDEX_DELETE + i, isEnabled := true, isTicked := false } ]

/-- The items of the menu that `IconMenu::timerCallback` builds, those of the sub-menus
included (section headers and separators are not items; the right click menu is the
one built where `JUCE_MAC` is not set). -/
def IconMenu.timerCallback (im : IconMenu) : List MenuItem :=
  if im.menuIconLeftClicked then
    let timeSorted := im.getTimeSortedList
    [ { itemResultID := 1, isEnabled := true, isTicked := false },
      { itemResultID := 2, isEnabled := true, isTicked := false } ] ++
    (List.range timeSorted.length).flatMap (pluginOptions im.settings timeSorted) ++
    (List.range im.knownPluginList.length).map
      (fun i => { itemResultID := 3000 + i, isEnabled := true, isTicked := false })
  else
    [ { itemResultID := 1, isEnabled := true, isTicked := false },
      { itemResultID := 2, isEnabled := true, isTicked := false },
      { itemResultID := 3, isEnabled := true, isTicked := false } ]

/-- The call of `menuInvocationCallback` that the menu shown at the end of
`timerCallback` makes (`showMenuAsync`): with the id of the item chosen when the menu
holds an enabled item of that id, and with 0, as for a dismissed menu, otherwise. -/
def selectMenuItem (create : CreatePluginInstance) (now : Int) (chosen : Int)
    (im : IconMenu) : IconMenu :=
  if im.timerCallback.any (fun item => item.itemResultID == chosen && item.isEnabled) then
    menuInvocationCallback create now chosen im
  else
    menuInvocationCallback create now 0 im

/-! ## Proofs: the graph builder -/

theorem addNode_connections (g : AudioProcessorGraph) (p : Processor) (n : Nat) :
    (g.addNode p n).connections = g.connections := by
  unfold AudioProcessorGraph.addNode
  split <;> rfl

theorem connectBoth_connections (g : AudioProcessorGraph) (a b : Nat) :
    (connectBoth g a b).connections = g.connections ++ link a b := by
  simp [connectBoth, AudioProcessorGraph.addConnection, link]

theorem finish_eq (st : LoadState) :
    st.finish = st.graph.connections ++ link st.src OUTPUT := by
  unfold LoadState.finish LoadState.src
  split <;> simp [connectBoth_connections]

theorem loadStep_spec (create : CreatePluginInstance) (s : PropertySet)
    (types : List PluginDescription) (st : LoadState) (i : Nat) (hi : 1 ≤ i)
    (hc : st.hasInputConnected = true ↔ st.lastId ≠ 0) :
    let r := getNextPluginOlderThanTime s types st.pluginTime
    let w := (create i r.1).isSome && !getBoolValue s (getKey "bypass" r.1)
    let st1 := loadStep create s types st i
    st1.pluginTime = r.2 ∧ (st1.hasInputConnected = true ↔ st1.lastId ≠ 0) ∧
    st1.graph.connections = st.graph.connections ++ (if w then link st.src i else []) ∧
    st1.src = if w then i else st.src := by
  intro r w st1
  have hi0 : i ≠ 0 := by omega
  cases hcr : create i r.1 with
  | none =>
    have h1 : st1 = { st with pluginTime := r.2 } := by
      simp only [st1, loadStep]; rw [show create i (getNextPluginOlderThanTime s types st.pluginTime).1 = none from hcr]
    have hw : w = false := by simp [w, hcr]
    simp [h1, hw, hc, LoadState.src]
  | some fresh =>
    cases hb : getBoolValue s (getKey "bypass" r.1) with
    | true =>
      have hw : w = false := by simp [w, hb]
      have h1 : st1.pluginTime = r.2 ∧ st1.lastId = st.lastId ∧
          st1.hasInputConnected = st.hasInputConnected ∧
          st1.graph.connections = st.graph.connections := by
        simp only [st1, loadStep]
        rw [show create i (getNextPluginOlderThanTime s types st.pluginTime).1 = some fresh from hcr]
        simp [show getBoolValue s (getKey "bypass" (getNextPluginOlderThanTime s types st.pluginTime).1) = true from hb, addNode_connections]
      obtain ⟨h1, h2, h3, h4⟩ := h1
      simp [h1, h2, h3, h4, hw, hc, LoadState.src]
    | false =>
      have hw : w = true := by simp [w, hb, hcr]
      cases hh : st.hasInputConnected with
      | false =>
        have hl : st.lastId = 0 := by
          by_contra h
          have := hc.2 h
          simp [hh] at this
        have h1 : st1.pluginTime = r.2 ∧ st1.lastId = i ∧
            st1.hasInputConnected = true ∧
            st1.graph.connections = st.graph.connections ++ link INPUT i := by
          simp only [st1, loadStep]
          rw [show create i (getNextPluginOlderThanTime s types st.pluginTime).1 = some fresh from hcr]
          simp [show getBoolValue s (getKey "bypass" (getNextPluginOlderThanTime s types st.pluginTime).1) = false from hb, addNode_connections, hh, connectBoth_connections]
        obtain ⟨h1, h2, h3, h4⟩ := h1
        simp [h1, h2, h3, h4, hw, LoadState.src, hl, hi0]
      | true =>
        have hl : st.lastId ≠ 0 := hc.1 hh
        have h1 : st1.pluginTime = r.2 ∧ st1.lastId = i ∧
            st1.hasInputConnected = true ∧
            st1.graph.connections = st.graph.connections ++ link st.lastId i := by
          simp only [st1, loadStep]
          rw [show create i (getNextPluginOlderThanTime s types st.pluginTime).1 = some fresh from hcr]
          simp [show getBoolValue s (getKey "bypass" (getNextPluginOlderThanTime s types st.pluginTime).1) = false from hb, addNode_connections, hh, connectBoth_connections, hl]
        obtain ⟨h1, h2, h3, h4⟩ := h1
        simp [h1, h2, h3, h4, hw, LoadState.src, hl, hi0]

theorem loadLoop_connections (create : CreatePluginInstance) (s : PropertySet)
    (types : List PluginDescription) :
    ∀ (k i : Nat) (st : LoadState), 1 ≤ i →
      (st.hasInputConnected = true ↔ st.lastId ≠ 0) →
      ((List.range' i k).foldl (loadStep create s types) st).finish =
        st.graph.connections ++
          wireChain st.src (wiredNodes create s i (timeSortedLoop s types k st.pluginTime)) := by
  intro k
  induction k with
  | zero =>
    intro i st _ _
    simp [timeSortedLoop, wiredNodes, wireChain, finish_eq]
  | succ k ih =>
    intro i st hi hc
    obtain ⟨h1, h2, h3, h4⟩ := loadStep_spec create s types st i hi hc
    rw [List.range'_succ, List.foldl_cons, ih (i + 1) _ (by omega) h2, h1, h3, h4]
    simp only [timeSortedLoop, wiredNodes]
    split <;> simp [wireChain]

/-- The connections `loadActivePlugins` builds are the linear wiring of the wired
nodes of the resolved chain. -/
theorem loadActivePlugins_connections (create : CreatePluginInstance) (s : PropertySet)
    (types : List PluginDescription) :
    (loadActivePlugins create s types).connections =
      wireChain INPUT (wiredNodes create s 1 (getTimeSortedList s types)) := by
  unfold loadActivePlugins
  split
  · rename_i h
    have : types = [] := List.length_eq_zero.mp h
    subst this
    simp [connectBoth_connections, addNode_connections, AudioProcessorGraph.clear,
      getTimeSortedList, timeSortedLoop, wiredNodes, wireChain]
  · have := loadLoop_connections create s types types.length 1
      { pluginTime := 0, lastId := 0, hasInputConnected := false,
        graph := (AudioProcessorGraph.clear.addNode Processor.audioInputNode INPUT).addNode
          Processor.audioOutputNode OUTPUT } (le_refl 1) (by simp)
    simp only [LoadState.finish] at this
    simp only []
    rw [this]
    simp [addNode_connections, AudioProcessorGraph.clear, LoadState.src, getTimeSortedList]

theorem path_mono {conns conns2 : List Connection} {c a b : Nat}
    (h : Path conns c a b) (hs : ∀ x ∈ conns, x ∈ conns2) : Path conns2 c a b := by
  induction h with
  | here a => exact Path.here a
  | hop h _ ih => exact Path.hop (hs _ h) ih

theorem wireChain_path (c : Nat) (hc : c = 0 ∨ c = 1) :
    ∀ (l : List Nat) (src : Nat), Path (wireChain src l) c src OUTPUT := by
  intro l
  induction l with
  | nil =>
    intro src
    refine Path.hop ?_ (Path.here _)
    rcases hc with h | h <;> subst h <;> simp [wireChain, link, CHANNEL_ONE, CHANNEL_TWO]
  | cons n rest ih =>
    intro src
    refine Path.hop ?_ (path_mono (ih n) ?_)
    · rcases hc with h | h <;> subst h <;> simp [wireChain, link, CHANNEL_ONE, CHANNEL_TWO]
    · intro x hx
      simp [wireChain, hx]

/-! ## Proofs: keys and the settings store -/

theorem equalsIgnoreCase_iff (a b : String) :
    equalsIgnoreCase a b = true ↔ a.data.map Char.toUpper = b.data.map Char.toUpper := by
  simp [equalsIgnoreCase]

theorem getKey_data (t : String) (p : PluginDescription) :
    (getKey t p).data = "plugin-".data ++ (toLowerCase t).data ++ "-".data ++ (stableKey p).data := by
  simp [getKey, stableKey, String.data_append]

theorem equalsIgnoreCase_getKey (t : String) (a b : PluginDescription) :
    equalsIgnoreCase (getKey t a) (getKey t b) = equalsIgnoreCase (stableKey a) (stableKey b) := by
  rw [Bool.eq_iff_iff, equalsIgnoreCase_iff, equalsIgnoreCase_iff, getKey_data, getKey_data]
  simp

theorem order_ne_state (a b : PluginDescription) : getKey "state" a ≠ getKey "order" b := by
  intro h
  have := congrArg String.data h
  rw [getKey_data, getKey_data] at this
  simp [toLowerCase] at this

/-! ## Proofs: the resolver -/

theorem nextStep_position (s : PropertySet) (floor : Int) (st : NextState) (p : PluginDescription) :
    nextStep s floor st p =
      if position s p > floor ∧ |floor - position s p| < st.diff then
        { diff := |floor - position s p|, closest := p, time := position s p }
      else st := rfl

/-- Once the lowest entry above the floor is selected, no later entry replaces it. -/
theorem foldl_nextStep_stay (s : PropertySet) (floor : Int) (x : PluginDescription) :
    ∀ l : List PluginDescription,
      (∀ p ∈ l, floor < position s p → position s x ≤ position s p) →
      l.foldl (nextStep s floor) ⟨position s x - floor, x, position s x⟩ =
        ⟨position s x - floor, x, position s x⟩ := by
  intro l
  induction l with
  | nil => intro _; rfl
  | cons p rest ih =>
    intro h
    have hrest : ∀ q ∈ rest, floor < position s q → position s x ≤ position s q :=
      fun q hq => h q (List.mem_cons_of_mem _ hq)
    have hstep : nextStep s floor ⟨position s x - floor, x, position s x⟩ p =
        ⟨position s x - floor, x, position s x⟩ := by
      rw [nextStep_position]
      split
      · rename_i hc
        have h1 := h p (List.mem_cons_self _ _) hc.1
        have h2 := hc.2
        rw [abs_of_neg (by omega)] at h2
        simp only at h2
        omega
      · rfl
    rw [List.foldl_cons, hstep]
    exact ih hrest

/-- The loop of `getNextPluginOlderThanTime` ends on the entry with the lowest
position above the floor, when that entry is in the list, is the only one with
its position and is less than `INT_MAX` above the floor. -/
theorem foldl_nextStep_reach (s : PropertySet) (floor : Int) (x : PluginDescription)
    (hx : floor < position s x) :
    ∀ (l : List PluginDescription) (st : NextState), x ∈ l →
      position s x - floor < st.diff →
      (∀ p ∈ l, floor < position s p → position s x ≤ position s p) →
      (∀ p ∈ l, position s p = position s x → p = x) →
      l.foldl (nextStep s floor) st = ⟨position s x - floor, x, position s x⟩ := by
  intro l
  induction l with
  | nil => intro st hmem; simp at hmem
  | cons p rest ih =>
    intro st hmem hd hmin huniq
    have hrest : ∀ q ∈ rest, floor < position s q → position s x ≤ position s q :=
      fun q hq => hmin q (List.mem_cons_of_mem _ hq)
    rw [List.foldl_cons]
    by_cases hpx : p = x
    · subst hpx
      have hstep : nextStep s floor st p = ⟨position s p - floor, p, position s p⟩ := by
        rw [nextStep_position, abs_of_neg (by omega)]
        simp only [neg_sub]
        rw [if_pos ⟨hx, hd⟩]
      rw [hstep]
      exact foldl_nextStep_stay s floor p rest hrest
    · have hmem2 : x ∈ rest := by
        rcases List.mem_cons.mp hmem with h | h
        · exact absurd h.symm hpx
        · exact h
      apply ih _ hmem2 _ hrest (fun q hq => huniq q (List.mem_cons_of_mem _ hq))
      rw [nextStep_position]
      split
      · rename_i hc
        have h1 := hmin p (List.mem_cons_self _ _) hc.1
        have h2 : position s p ≠ position s x := fun h => hpx (huniq p (List.mem_cons_self _ _) h)
        rw [abs_of_neg (by omega)]
        simp only [neg_sub]
        omega
      · exact hd

theorem getNext_eq (s : PropertySet) (types : List PluginDescription) (floor : Int)
    (x : PluginDescription) (hx : floor < position s x) (hmem : x ∈ types)
    (hd : position s x - floor < INT_MAX)
    (hmin : ∀ p ∈ types, floor < position s p → position s x ≤ position s p)
    (huniq : ∀ p ∈ types, position s p = position s x → p = x) :
    getNextPluginOlderThanTime s types floor = (x, position s x) := by
  unfold getNextPluginOlderThanTime
  simp only []
  rw [foldl_nextStep_reach s floor x hx types _ hmem hd hmin huniq]

/-- The loop of `getTimeSortedList` returns a list `M` when `M` lists, in strictly
ascending order of position, exactly the entries of the active list above the
floor. -/
theorem timeSortedLoop_eq (s : PropertySet) (types : List PluginDescription) :
    ∀ (M : List PluginDescription) (floor : Int), 0 ≤ floor →
      M.Pairwise (fun a b => position s a < position s b) →
      (∀ x ∈ M, x ∈ types ∧ floor < position s x ∧ position s x ≤ INT_MAX) →
      (∀ p ∈ types, floor < position s p → p ∈ M) →
      (floor = 0 → types ≠ [] → ∃ x ∈ types, 0 < position s x ∧ position s x < INT_MAX) →
      timeSortedLoop s types M.length floor = M := by
  intro M
  induction M with
  | nil => intro _ _ _ _ _ _; rfl
  | cons x M ih =>
    intro floor hf hs hM hall h0
    obtain ⟨hx1, hx2⟩ := List.pairwise_cons.mp hs
    obtain ⟨hxt, hxf, hxm⟩ := hM x (List.mem_cons_self _ _)
    have hmin : ∀ p ∈ types, floor < position s p → position s x ≤ position s p := by
      intro p hp hpf
      rcases List.mem_cons.mp (hall p hp hpf) with h | h
      · rw [h]
      · exact le_of_lt (hx1 p h)
    have huniq : ∀ p ∈ types, position s p = position s x → p = x := by
      intro p hp hpe
      rcases List.mem_cons.mp (hall p hp (by omega)) with h | h
      · exact h
      · have := hx1 p h
        omega
    have hd : position s x - floor < INT_MAX := by
      by_cases hz : floor = 0
      · obtain ⟨y, hy, hy0, hy1⟩ := h0 hz (List.ne_nil_of_mem hxt)
        have := hmin y hy (by omega)
        omega
      · omega
    have hnext := getNext_eq s types floor x hxf hxt hd hmin huniq
    simp only [List.length_cons, timeSortedLoop, hnext]
    congr 1
    apply ih (position s x) (by omega) hx2
    · intro y hy
      obtain ⟨h1, _, h3⟩ := hM y (List.mem_cons_of_mem _ hy)
      exact ⟨h1, hx1 y hy, h3⟩
    · intro p hp hpf
      rcases List.mem_cons.mp (hall p hp (by omega)) with h | h
      · subst h; omega
      · exact h
    · intro hz; omega

/-- The resolved order is `M` when `M` is a rearrangement of the active list in
strictly ascending order of position, the positions being positive `int`s of which
one is below `INT_MAX`. -/
theorem getTimeSortedList_eq (s : PropertySet) (types M : List PluginDescription)
    (hperm : M.Perm types)
    (hs : M.Pairwise (fun a b => position s a < position s b))
    (hpos : ∀ p ∈ types, 0 < position s p ∧ position s p ≤ INT_MAX)
    (hlow : types ≠ [] → ∃ x ∈ types, position s x < INT_MAX) :
    getTimeSortedList s types = M := by
  unfold getTimeSortedList
  rw [← hperm.length_eq]
  apply timeSortedLoop_eq s types M 0 (le_refl 0) hs
  · intro x hx
    have hx2 := hperm.subset hx
    exact ⟨hx2, (hpos x hx2).1, (hpos x hx2).2⟩
  · intro p hp _
    exact hperm.symm.subset hp
  · intro _ hn
    obtain ⟨x, hx, hlt⟩ := hlow hn
    exact ⟨x, hx, (hpos x hx).1, hlt⟩

theorem getNext_congr (s s2 : PropertySet) (types : List PluginDescription)
    (h : ∀ p ∈ types, position s p = position s2 p) (floor : Int) :
    getNextPluginOlderThanTime s types floor = getNextPluginOlderThanTime s2 types floor := by
  unfold getNextPluginOlderThanTime
  simp only []
  rw [List.foldl_ext (nextStep s floor) (nextStep s2 floor)]
  intro st p hp
  rw [nextStep_position, nextStep_position, h p hp]

theorem timeSortedLoop_congr (s s2 : PropertySet) (types : List PluginDescription)
    (h : ∀ p ∈ types, position s p = position s2 p) :
    ∀ (count : Nat) (floor : Int),
      timeSortedLoop s types count floor = timeSortedLoop s2 types count floor := by
  intro count
  induction count with
  | zero => intro _; rfl
  | succ n ih =>
    intro floor
    simp only [timeSortedLoop, getNext_congr s s2 types h floor, ih]

/-- The resolved order only depends on the stored positions of the active entries. -/
theorem getTimeSortedList_congr (s s2 : PropertySet) (types : List PluginDescription)
    (h : ∀ p ∈ types, position s p = position s2 p) :
    getTimeSortedList s types = getTimeSortedList s2 types :=
  timeSortedLoop_congr s s2 types h types.length 0

theorem exists_low_of_two (s : PropertySet) (types : List PluginDescription)
    (hd : DistinctPositions s types) (hp : PositivePositions s types)
    (hn : 2 ≤ types.length) : ∃ x ∈ types, position s x < INT_MAX := by
  match types, hn with
  | a :: b :: rest, _ =>
    have hab : position s a ≠ position s b :=
      (List.pairwise_cons.mp hd).1 b (List.mem_cons_self _ _)
    have ha := (hp a (List.mem_cons_self _ _)).2
    have hb := (hp b (List.mem_cons_of_mem _ (List.mem_cons_self _ _))).2
    by_cases h : position s a < INT_MAX
    · exact ⟨a, List.mem_cons_self _ _, h⟩
    · exact ⟨b, List.mem_cons_of_mem _ (List.mem_cons_self _ _), by omega⟩

/-- For distinct positive positions the resolved order is a rearrangement of the
active list in strictly ascending order of position. -/
theorem getTimeSortedList_sorted (s : PropertySet) (types : List PluginDescription)
    (hd : DistinctPositions s types) (hp : PositivePositions s types)
    (hlow : types ≠ [] → ∃ x ∈ types, position s x < INT_MAX) :
    (getTimeSortedList s types).Perm types ∧
      (getTimeSortedList s types).Pairwise (fun a b => position s a < position s b) := by
  let r : PluginDescription → PluginDescription → Prop := fun a b => position s a ≤ position s b
  haveI : DecidableRel r := fun a b => inferInstanceAs (Decidable (position s a ≤ position s b))
  haveI : IsTotal PluginDescription r := ⟨fun a b => le_total (position s a) (position s b)⟩
  haveI : IsTrans PluginDescription r := ⟨fun a b c hab hbc => le_trans hab hbc⟩
  have hperm : (types.insertionSort r).Perm types := List.perm_insertionSort r types
  have hsorted : (types.insertionSort r).Pairwise r := List.sorted_insertionSort r types
  have hne : (types.insertionSort r).Pairwise (fun a b => position s a ≠ position s b) :=
    (hperm.pairwise_iff (fun {a b} (h : position s a ≠ position s b) => h.symm)).mpr hd
  have hlt : (types.insertionSort r).Pairwise (fun a b => position s a < position s b) :=
    (hsorted.and hne).imp (fun {a b} h => lt_of_le_of_ne h.1 h.2)
  have heq := getTimeSortedList_eq s types _ hperm hlt hp hlow
  rw [heq]
  exact ⟨hperm, hlt⟩

/-! ## Proofs: the renumbering loops -/

theorem position_setValue_same (s : PropertySet) (p : PluginDescription) (v : Int) :
    position (setValue s (getKey "order" p) (Var.int v)) p = v := by
  simp [position, getIntValue, setValue]

theorem position_setValue_other (s : PropertySet) (key : String) (v : Var)
    (p : PluginDescription) (h : getKey "order" p ≠ key) :
    position (setValue s key v) p = position s p := by
  simp [position, getIntValue, setValue, h]

theorem position_removeValue_other (s : PropertySet) (key : String)
    (p : PluginDescription) (h : getKey "order" p ≠ key) :
    position (removeValue s key) p = position s p := by
  simp [position, getIntValue, removeValue, h]

theorem equalsIgnoreCase_self (a : String) : equalsIgnoreCase a a = true := by
  simp [equalsIgnoreCase]

theorem equalsIgnoreCase_comm (a b : String) : equalsIgnoreCase a b = equalsIgnoreCase b a := by
  rw [Bool.eq_iff_iff, equalsIgnoreCase_iff, equalsIgnoreCase_iff]
  exact eq_comm

theorem ne_of_equalsIgnoreCase_false {a b : String} (h : equalsIgnoreCase a b = false) : a ≠ b := by
  intro hab
  subst hab
  rw [equalsIgnoreCase_self] at h
  exact Bool.noConfusion h

theorem numbered_congr {f g : PluginDescription → Int} :
    ∀ (l : List PluginDescription) (i : Int), (∀ p ∈ l, f p = g p) →
      NumberedFrom f i l → NumberedFrom g i l := by
  intro l
  induction l with
  | nil => intro _ _ _; trivial
  | cons p rest ih =>
    intro i h hn
    exact ⟨(h p (List.mem_cons_self _ _)) ▸ hn.1,
      ih (i + 1) (fun q hq => h q (List.mem_cons_of_mem _ hq)) hn.2⟩

theorem numbered_append {f : PluginDescription → Int} :
    ∀ (l1 l2 : List PluginDescription) (i : Int),
      NumberedFrom f i (l1 ++ l2) ↔
        NumberedFrom f i l1 ∧ NumberedFrom f (i + l1.length) l2 := by
  intro l1
  induction l1 with
  | nil => intro l2 i; simp [NumberedFrom]
  | cons p rest ih =>
    intro l2 i
    have h := ih l2 (i + 1)
    rw [show i + 1 + (rest.length : Int) = i + ((rest.length : Int) + 1) by ring] at h
    show f p = i ∧ NumberedFrom f (i + 1) (rest ++ l2) ↔ _
    simp only [NumberedFrom, h, List.length_cons, Nat.cast_add, Nat.cast_one]
    tauto

theorem numbered_bounds {f : PluginDescription → Int} :
    ∀ (l : List PluginDescription) (i : Int), NumberedFrom f i l →
      ∀ p ∈ l, i ≤ f p ∧ f p < i + l.length := by
  intro l
  induction l with
  | nil => intro _ _ p hp; simp at hp
  | cons q rest ih =>
    intro i hn p hp
    simp only [List.length_cons, Nat.cast_add, Nat.cast_one]
    rcases List.mem_cons.mp hp with h | h
    · subst h
      have := hn.1
      omega
    · have := ih (i + 1) hn.2 p h
      omega

theorem numbered_pairwise {f : PluginDescription → Int} :
    ∀ (l : List PluginDescription) (i : Int), NumberedFrom f i l →
      l.Pairwise (fun a b => f a < f b) := by
  intro l
  induction l with
  | nil => intro _ _; exact List.Pairwise.nil
  | cons q rest ih =>
    intro i hn
    refine List.pairwise_cons.mpr ⟨?_, ih (i + 1) hn.2⟩
    intro p hp
    have := numbered_bounds rest (i + 1) hn.2 p hp
    have := hn.1
    omega

theorem numbered_getElem {f : PluginDescription → Int} :
    ∀ (l : List PluginDescription) (i : Int), NumberedFrom f i l →
      ∀ (r : Nat) (h : r < l.length), f (l.get ⟨r, h⟩) = i + r := by
  intro l
  induction l with
  | nil => intro _ _ r h; simp at h
  | cons q rest ih =>
    intro i hn r h
    cases r with
    | zero => simpa using hn.1
    | succ r =>
      have := ih (i + 1) hn.2 r (by simpa using h)
      simp only [List.get_cons_succ, Nat.cast_add, Nat.cast_one]
      rw [this]; ring

theorem position_seqWrite_other (p : PluginDescription) :
    ∀ (l : List PluginDescription) (i : Nat) (s : PropertySet),
      (∀ q ∈ l, getKey "order" q ≠ getKey "order" p) →
      position (seqWrite i l s) p = position s p := by
  intro l
  induction l with
  | nil => intro _ _ _; rfl
  | cons q rest ih =>
    intro i s h
    rw [seqWrite, ih (i + 1) _ (fun r hr => h r (List.mem_cons_of_mem _ hr))]
    exact position_setValue_other s _ _ p (h q (List.mem_cons_self _ _)).symm

theorem seqWrite_numbered :
    ∀ (l : List PluginDescription) (i : Nat) (s : PropertySet),
      l.Pairwise (fun a b => getKey "order" a ≠ getKey "order" b) →
      NumberedFrom (position (seqWrite i l s)) ((i : Int) + 1) l := by
  intro l
  induction l with
  | nil => intro _ _ _; trivial
  | cons q rest ih =>
    intro i s h
    obtain ⟨h1, h2⟩ := List.pairwise_cons.mp h
    refine ⟨?_, ?_⟩
    · rw [seqWrite, position_seqWrite_other q rest (i + 1) _ (fun r hr => (h1 r hr).symm)]
      exact position_setValue_same s q _
    · have := ih (i + 1) (setValue s (getKey "order" q) (Var.int ((i : Int) + 1))) h2
      simpa [seqWrite] using this

theorem moveDownLoop_skip (x p : PluginDescription) (l : List PluginDescription) (i : Nat)
    (s : PropertySet)
    (h : equalsIgnoreCase (getKey "move" x) (getKey "move" p) = false) :
    moveDownLoop x i (p :: l) s =
      moveDownLoop x (i + 1) l (setValue s (getKey "order" p) (Var.int ((i : Int) + 1))) := by
  cases l with
  | nil => simp [moveDownLoop, h]
  | cons q rest => simp [moveDownLoop, h]

theorem moveDownLoop_append (x : PluginDescription) :
    ∀ (pre rest : List PluginDescription) (i : Nat) (s : PropertySet),
      (∀ p ∈ pre, equalsIgnoreCase (getKey "move" x) (getKey "move" p) = false) →
      moveDownLoop x i (pre ++ rest) s =
        moveDownLoop x (i + pre.length) rest (seqWrite i pre s) := by
  intro pre
  induction pre with
  | nil => intro _ _ _ _; rfl
  | cons p pre ih =>
    intro rest i s h
    rw [List.cons_append, moveDownLoop_skip x p _ i s (h p (List.mem_cons_self _ _)),
      ih rest (i + 1) _ (fun q hq => h q (List.mem_cons_of_mem _ hq))]
    simp only [List.length_cons, seqWrite]
    rw [show i + 1 + pre.length = i + (pre.length + 1) by omega]

theorem moveUpLoop_append (ts : List PluginDescription) (x : PluginDescription) :
    ∀ (pre rest : List PluginDescription) (i : Nat) (s : PropertySet),
      (∀ p ∈ pre, equalsIgnoreCase (getKey "move" x) (getKey "move" p) = false) →
      moveUpLoop ts x i (pre ++ rest) s =
        moveUpLoop ts x (i + pre.length) rest (seqWrite i pre s) := by
  intro pre
  induction pre with
  | nil => intro _ _ _ _; rfl
  | cons p pre ih =>
    intro rest i s h
    have hp := h p (List.mem_cons_self _ _)
    rw [List.cons_append, moveUpLoop]
    simp only [hp, Bool.false_and, if_false, Bool.false_eq_true]
    rw [ih rest (i + 1) _ (fun q hq => h q (List.mem_cons_of_mem _ hq))]
    simp only [List.length_cons, seqWrite]
    rw [show i + 1 + pre.length = i + (pre.length + 1) by omega]

theorem move_of_order {a b : PluginDescription}
    (h : equalsIgnoreCase (getKey "order" a) (getKey "order" b) = false) :
    equalsIgnoreCase (getKey "move" a) (getKey "move" b) = false := by
  rw [equalsIgnoreCase_getKey] at h ⊢
  exact h

theorem move_self (a : PluginDescription) :
    equalsIgnoreCase (getKey "move" a) (getKey "move" a) = true :=
  equalsIgnoreCase_self _

theorem order_comm {a b : PluginDescription}
    (h : equalsIgnoreCase (getKey "order" a) (getKey "order" b) = false) :
    equalsIgnoreCase (getKey "order" b) (getKey "order" a) = false := by
  rw [equalsIgnoreCase_comm]; exact h

theorem distinctKeys_keys {l : List PluginDescription} (h : DistinctKeys l) :
    l.Pairwise (fun a b => getKey "order" a ≠ getKey "order" b) :=
  List.Pairwise.imp (fun {_ _} hab => ne_of_equalsIgnoreCase_false hab) h

theorem distinctKeys_perm {l l2 : List PluginDescription} (hp : l.Perm l2) (h : DistinctKeys l2) :
    DistinctKeys l :=
  (hp.pairwise_iff (fun {_ _} hab => order_comm hab)).mpr h

/-- What distinct keys give for a list split around one entry `x`. -/
theorem distinctKeys_split {pre post : List PluginDescription} {x : PluginDescription}
    (h : DistinctKeys (pre ++ x :: post)) :
    DistinctKeys pre ∧ DistinctKeys post ∧
    (∀ p ∈ pre, equalsIgnoreCase (getKey "order" x) (getKey "order" p) = false) ∧
    (∀ p ∈ post, equalsIgnoreCase (getKey "order" x) (getKey "order" p) = false) ∧
    (∀ p ∈ pre, ∀ q ∈ post, equalsIgnoreCase (getKey "order" p) (getKey "order" q) = false) := by
  obtain ⟨h1, h2, h3⟩ := List.pairwise_append.mp h
  obtain ⟨h4, h5⟩ := List.pairwise_cons.mp h2
  exact ⟨h1, h5, fun p hp => order_comm (h3 p hp x (List.mem_cons_self _ _)), h4,
    fun p hp q hq => h3 p hp q (List.mem_cons_of_mem _ hq)⟩

theorem moveDownLoop_nil (x : PluginDescription) (i : Nat) (s : PropertySet) :
    moveDownLoop x i [] s = s := rfl

theorem moveUpLoop_nil (ts : List PluginDescription) (x : PluginDescription) (i : Nat)
    (s : PropertySet) : moveUpLoop ts x i [] s = s := rfl

/-- Move down of an entry that has a successor: the store after the loop numbers
the chain with the entry and its successor exchanged 1, 2, 3, ... -/
theorem moveDownLoop_numbered (pre post : List PluginDescription) (x y : PluginDescription)
    (s : PropertySet) (h : DistinctKeys (pre ++ x :: y :: post)) :
    NumberedFrom (position (moveDownLoop x 0 (pre ++ x :: y :: post) s)) 1
      (pre ++ y :: x :: post) := by
  obtain ⟨hpre, hrest, hxpre, hxrest, hprerest⟩ := distinctKeys_split h
  obtain ⟨hxy, hpost⟩ := List.pairwise_cons.mp hrest
  have hxy0 := hxrest y (List.mem_cons_self _ _)
  have hloop : moveDownLoop x 0 (pre ++ x :: y :: post) s =
      seqWrite (pre.length + 2) post
        (setValue (setValue (seqWrite 0 pre s) (getKey "order" x) (Var.int ((pre.length : Int) + 2)))
          (getKey "order" y) (Var.int ((pre.length : Int) + 1))) := by
    rw [moveDownLoop_append x pre _ 0 s (fun p hp => move_of_order (hxpre p hp))]
    simp only [Nat.zero_add, moveDownLoop, move_self, if_true]
    have := moveDownLoop_append x post [] (pre.length + 2)
      (setValue (setValue (seqWrite 0 pre s) (getKey "order" x) (Var.int ((pre.length : Int) + 2)))
          (getKey "order" y) (Var.int ((pre.length : Int) + 1)))
      (fun p hp => move_of_order (hxrest p (List.mem_cons_of_mem _ hp)))
    rw [List.append_nil, moveDownLoop_nil] at this
    exact this
  rw [hloop]
  set s1 := seqWrite 0 pre s with hs1
  set s2 := setValue (setValue s1 (getKey "order" x) (Var.int ((pre.length : Int) + 2)))
      (getKey "order" y) (Var.int ((pre.length : Int) + 1)) with hs2
  have hyx : getKey "order" y ≠ getKey "order" x := (ne_of_equalsIgnoreCase_false hxy0).symm
  rw [numbered_append]
  refine ⟨?_, ?_, ?_, ?_⟩
  · -- the entries before the moved one
    have h1 : NumberedFrom (position s1) 1 pre := by
      have := seqWrite_numbered pre 0 s (distinctKeys_keys hpre)
      simpa using this
    refine numbered_congr pre 1 ?_ h1
    intro p hp
    have hpx : getKey "order" p ≠ getKey "order" x :=
      (ne_of_equalsIgnoreCase_false (hxpre p hp)).symm
    have hpy : getKey "order" p ≠ getKey "order" y :=
      ne_of_equalsIgnoreCase_false (hprerest p hp y (List.mem_cons_self _ _))
    rw [position_seqWrite_other p post _ _ (fun q hq =>
      (ne_of_equalsIgnoreCase_false (hprerest p hp q (List.mem_cons_of_mem _ hq))).symm)]
    rw [hs2, position_setValue_other _ _ _ p hpy, position_setValue_other _ _ _ p hpx]
  · -- the successor
    rw [position_seqWrite_other y post _ _ (fun q hq =>
      (ne_of_equalsIgnoreCase_false (hxy q hq)).symm)]
    rw [hs2, position_setValue_same]
    ring
  · -- the moved entry
    rw [position_seqWrite_other x post _ _ (fun q hq =>
      (ne_of_equalsIgnoreCase_false (hxrest q (List.mem_cons_of_mem _ hq))).symm)]
    rw [hs2, position_setValue_other _ _ _ x hyx.symm, position_setValue_same]
    ring
  · -- the entries after the pair
    have := seqWrite_numbered post (pre.length + 2) s2 (distinctKeys_keys hpost)
    rw [show (1 : Int) + pre.length + 1 + 1 = ((pre.length + 2 : Nat) : Int) + 1 by push_cast; ring]
    exact this

/-- Move down of the last entry: the entries before it are numbered 1, 2, ... and
the entry itself gets its rank plus two. -/
theorem moveDownLoop_last (pre : List PluginDescription) (x : PluginDescription)
    (s : PropertySet) (h : DistinctKeys (pre ++ [x])) :
    NumberedFrom (position (moveDownLoop x 0 (pre ++ [x]) s)) 1 pre ∧
      position (moveDownLoop x 0 (pre ++ [x]) s) x = (pre.length : Int) + 2 := by
  obtain ⟨hpre, _, hxpre, _, _⟩ := distinctKeys_split h
  have hloop : moveDownLoop x 0 (pre ++ [x]) s =
      setValue (seqWrite 0 pre s) (getKey "order" x) (Var.int ((pre.length : Int) + 2)) := by
    rw [moveDownLoop_append x pre _ 0 s (fun p hp => move_of_order (hxpre p hp))]
    simp only [Nat.zero_add, moveDownLoop, move_self, if_true]
  rw [hloop]
  refine ⟨?_, position_setValue_same _ _ _⟩
  have h1 : NumberedFrom (position (seqWrite 0 pre s)) 1 pre := by
    have := seqWrite_numbered pre 0 s (distinctKeys_keys hpre)
    simpa using this
  refine numbered_congr pre 1 ?_ h1
  intro p hp
  rw [position_setValue_other _ _ _ p (ne_of_equalsIgnoreCase_false (hxpre p hp)).symm]

/-- Move up of an entry that has a predecessor: the store after the loop numbers
the chain with the entry and its predecessor exchanged 1, 2, 3, ... -/
theorem moveUpLoop_numbered (pre post : List PluginDescription) (w x : PluginDescription)
    (s : PropertySet) (h : DistinctKeys (pre ++ w :: x :: post)) :
    NumberedFrom
      (position (moveUpLoop (pre ++ w :: x :: post) x 0 (pre ++ w :: x :: post) s)) 1
      (pre ++ x :: w :: post) := by
  obtain ⟨hpre, hrest, hwpre, hwrest, hprerest⟩ := distinctKeys_split h
  obtain ⟨hxpost, hpost⟩ := List.pairwise_cons.mp hrest
  have hwx0 := hwrest x (List.mem_cons_self _ _)
  have hxw : equalsIgnoreCase (getKey "order" x) (getKey "order" w) = false := order_comm hwx0
  have hxpre : ∀ p ∈ pre, equalsIgnoreCase (getKey "order" x) (getKey "order" p) = false :=
    fun p hp => order_comm (hprerest p hp x (List.mem_cons_self _ _))
  have hget : (pre ++ w :: x :: post).getD pre.length default = w := by
    rw [List.getD_eq_getElem?_getD, List.getElem?_append_right (le_refl _)]
    simp
  have hloop : moveUpLoop (pre ++ w :: x :: post) x 0 (pre ++ w :: x :: post) s =
      seqWrite (pre.length + 2) post
        (setValue (setValue (seqWrite 0 (pre ++ [w]) s) (getKey "order" x)
          (Var.int ((pre.length : Int) + 1))) (getKey "order" w) (Var.int ((pre.length : Int) + 2))) := by
    have hsplit : pre ++ w :: x :: post = (pre ++ [w]) ++ x :: post := by simp
    conv_lhs => arg 4; rw [hsplit]
    rw [moveUpLoop_append _ x (pre ++ [w]) _ 0 s (by
      intro p hp
      rcases List.mem_append.mp hp with hp | hp
      · exact move_of_order (hxpre p hp)
      · rw [List.mem_singleton.mp hp]; exact move_of_order hxw)]
    simp only [Nat.zero_add, List.length_append, List.length_singleton, moveUpLoop, move_self,
      if_true, Bool.true_and, Nat.add_sub_cancel, hget, decide_eq_true_eq, Nat.succ_pos,
      Nat.cast_add, Nat.cast_one]
    have := moveUpLoop_append (pre ++ w :: x :: post) x post [] (pre.length + 1 + 1) 
      (setValue (setValue (seqWrite 0 (pre ++ [w]) s) (getKey "order" x)
          (Var.int ((pre.length : Int) + 1))) (getKey "order" w) (Var.int ((pre.length : Int) + 1 + 1)))
      (fun p hp => move_of_order (hxpost p hp))
    rw [List.append_nil, moveUpLoop_nil] at this
    rw [show (pre.length : Int) + 2 = (pre.length : Int) + 1 + 1 by ring]
    exact this
  rw [hloop]
  set s1 := seqWrite 0 (pre ++ [w]) s with hs1
  set s2 := setValue (setValue s1 (getKey "order" x) (Var.int ((pre.length : Int) + 1)))
      (getKey "order" w) (Var.int ((pre.length : Int) + 2)) with hs2
  have hkxw : getKey "order" x ≠ getKey "order" w := ne_of_equalsIgnoreCase_false hxw
  rw [numbered_append]
  refine ⟨?_, ?_, ?_, ?_⟩
  · have h1 : NumberedFrom (position s1) 1 pre := by
      have := seqWrite_numbered (pre ++ [w]) 0 s (distinctKeys_keys (by
        have : DistinctKeys ((pre ++ [w]) ++ x :: post) := by simpa using h
        exact (distinctKeys_split this).1))
      have := (numbered_append pre [w] _).mp this
      simpa using this.1
    refine numbered_congr pre 1 ?_ h1
    intro p hp
    have hpx : getKey "order" p ≠ getKey "order" x :=
      (ne_of_equalsIgnoreCase_false (hxpre p hp)).symm
    have hpw : getKey "order" p ≠ getKey "order" w :=
      (ne_of_equalsIgnoreCase_false (hwpre p hp)).symm
    rw [position_seqWrite_other p post _ _ (fun q hq =>
      (ne_of_equalsIgnoreCase_false (hprerest p hp q (List.mem_cons_of_mem _ hq))).symm)]
    rw [hs2, position_setValue_other _ _ _ p hpw, position_setValue_other _ _ _ p hpx]
  · rw [position_seqWrite_other x post _ _ (fun q hq =>
      (ne_of_equalsIgnoreCase_false (hxpost q hq)).symm)]
    rw [hs2, position_setValue_other _ _ _ x hkxw, position_setValue_same]
    ring
  · rw [position_seqWrite_other w post _ _ (fun q hq =>
      (ne_of_equalsIgnoreCase_false (hwrest q (List.mem_cons_of_mem _ hq))).symm)]
    rw [hs2, position_setValue_same]
    ring
  · have := seqWrite_numbered post (pre.length + 2) s2 (distinctKeys_keys hpost)
    rw [show (1 : Int) + pre.length + 1 + 1 = ((pre.length + 2 : Nat) : Int) + 1 by push_cast; ring]
    exact this

/-! ## Proofs: the operations -/

theorem order_ne_getKey_state (a b : PluginDescription) : getKey "order" a ≠ getKey "state" b :=
  fun h => order_ne_state b a h.symm

theorem position_saveLoop (graph : AudioProcessorGraph) (p : PluginDescription) :
    ∀ (l : List PluginDescription) (i : Nat) (s : PropertySet),
      position (saveLoop graph i l s) p = position s p := by
  intro l
  induction l with
  | nil => intro _ _; rfl
  | cons q rest ih =>
    intro i s
    rw [saveLoop, ih]
    unfold saveStep
    split
    · rfl
    · dsimp only
      split
      · exact position_setValue_other s _ _ p (order_ne_getKey_state p q)
      · rfl

/-- `savePluginStates` leaves every stored position as it is. -/
theorem position_savePluginStates (graph : AudioProcessorGraph) (s : PropertySet)
    (types : List PluginDescription) (p : PluginDescription) :
    position (savePluginStates graph s types) p = position s p :=
  position_saveLoop graph p _ 0 s

theorem getTimeSortedList_savePluginStates (im : IconMenu) :
    im.savePluginStates.getTimeSortedList = im.getTimeSortedList :=
  getTimeSortedList_congr _ _ _ (fun p _ => position_savePluginStates _ _ _ p)

theorem length_timeSortedLoop (s : PropertySet) (types : List PluginDescription) :
    ∀ (count : Nat) (floor : Int), (timeSortedLoop s types count floor).length = count := by
  intro count
  induction count with
  | zero => intro _; rfl
  | succ n ih => intro floor; simp [timeSortedLoop, ih]

/-- The resolved order has as many entries as the active list, whatever the store. -/
theorem length_getTimeSortedList (s : PropertySet) (types : List PluginDescription) :
    (getTimeSortedList s types).length = types.length :=
  length_timeSortedLoop s types _ 0

theorem numbered_lookup {f : PluginDescription → Int} (l : List PluginDescription)
    (h : NumberedFrom f 1 l) (r : Nat) (p : PluginDescription) (hp : l[r]? = some p) :
    f p = (r : Int) + 1 := by
  obtain ⟨hr, hget⟩ := List.getElem?_eq_some.mp hp
  have := numbered_getElem l 1 h r hr
  rw [← hget]
  rw [show l[r] = l.get ⟨r, hr⟩ from rfl, this]
  ring

/-- A store that numbers a rearrangement `M` of the active list 1, 2, 3, ... resolves to `M`. -/
theorem resolved_of_numbered (s : PropertySet) (types M : List PluginDescription)
    (hperm : M.Perm types) (hn : NumberedFrom (position s) 1 M)
    (hlen : (types.length : Int) < INT_MAX) :
    getTimeSortedList s types = M := by
  have hb := numbered_bounds M 1 hn
  have hl : M.length = types.length := hperm.length_eq
  apply getTimeSortedList_eq s types M hperm (numbered_pairwise M 1 hn)
  · intro p hp
    have := hb p (hperm.symm.subset hp)
    constructor <;> omega
  · intro hne
    obtain ⟨x, hx⟩ := List.exists_mem_of_ne_nil types hne
    have := hb x (hperm.symm.subset hx)
    exact ⟨x, hx, by omega⟩

/-- Such a store makes the chain well formed again. -/
theorem wellFormed_of_numbered (s : PropertySet) (types M : List PluginDescription)
    (hperm : M.Perm types) (hn : NumberedFrom (position s) 1 M)
    (hk : DistinctKeys types) (hlen : (types.length : Int) < INT_MAX) :
    WellFormedChain s types := by
  have hb := numbered_bounds M 1 hn
  have hl : M.length = types.length := hperm.length_eq
  refine ⟨hk, ?_, ?_, hlen⟩
  · have : M.Pairwise (fun a b => position s a ≠ position s b) :=
      (numbered_pairwise M 1 hn).imp (fun {a b} h => ne_of_lt h)
    exact (hperm.pairwise_iff (fun {a b} (h : position s a ≠ position s b) => h.symm)).mp this
  · intro p hp
    have := hb p (hperm.symm.subset hp)
    constructor <;> omega

theorem split_at_pair (l : List PluginDescription) (i : Nat) (h : i + 1 < l.length) :
    ∃ pre x y post, l = pre ++ x :: y :: post ∧ pre.length = i := by
  refine ⟨l.take i, l[i], l[i + 1], l.drop (i + 2), ?_, ?_⟩
  · have h1 : l.drop i = l[i] :: l.drop (i + 1) := List.drop_eq_getElem_cons (by omega)
    have h2 : l.drop (i + 1) = l[i + 1] :: l.drop (i + 2) := List.drop_eq_getElem_cons h
    rw [← h2, ← h1, List.take_append_drop]
  · simp; omega

theorem split_at_last (l : List PluginDescription) (h : l ≠ []) :
    ∃ pre x, l = pre ++ [x] ∧ pre.length = l.length - 1 := by
  refine ⟨l.dropLast, l.getLast h, (List.dropLast_append_getLast h).symm, by simp⟩

theorem getD_split (pre post : List PluginDescription) (x : PluginDescription) :
    (pre ++ x :: post).getD pre.length default = x := by
  rw [List.getD_eq_getElem?_getD, List.getElem?_append_right (le_refl _)]
  simp

/-- The resolved order of a well-formed chain. -/
theorem wellFormed_sorted (s : PropertySet) (types : List PluginDescription)
    (h : WellFormedChain s types) (hlow : types ≠ [] → ∃ x ∈ types, position s x < INT_MAX) :
    (getTimeSortedList s types).Perm types ∧
      (getTimeSortedList s types).Pairwise (fun a b => position s a < position s b) :=
  getTimeSortedList_sorted s types h.2.1 h.2.2.1 hlow

/-- Move down of the entry at rank `pre.length`, which has a successor. -/
theorem moveDown_resolved (create : CreatePluginInstance) (im : IconMenu)
    (pre post : List PluginDescription) (x y : PluginDescription)
    (h : WellFormedChain im.settings im.activePluginList)
    (hold : im.getTimeSortedList = pre ++ x :: y :: post) :
    (moveDown create pre.length im).activePluginList = im.activePluginList ∧
    NumberedFrom (position (moveDown create pre.length im).settings) 1 (pre ++ y :: x :: post) ∧
    (moveDown create pre.length im).getTimeSortedList = pre ++ y :: x :: post := by
  have hn : 2 ≤ im.activePluginList.length := by
    have := congrArg List.length hold
    rw [IconMenu.getTimeSortedList, length_getTimeSortedList] at this
    simp at this
    omega
  have hperm := (wellFormed_sorted _ _ h (fun _ => exists_low_of_two _ _ h.2.1 h.2.2.1 hn)).1
  have hperm : (pre ++ x :: y :: post).Perm im.activePluginList := by
    rw [← hold]; exact hperm
  have hkeys : DistinctKeys (pre ++ x :: y :: post) := distinctKeys_perm hperm h.1
  have hsave := getTimeSortedList_savePluginStates im
  have hs : (moveDown create pre.length im).settings =
      moveDownLoop x 0 (pre ++ x :: y :: post) im.savePluginStates.settings := by
    simp only [moveDown, IconMenu.loadActivePlugins, hsave, hold, getD_split]
  have hnum := moveDownLoop_numbered pre post x y im.savePluginStates.settings hkeys
  rw [← hs] at hnum
  have hperm2 : (pre ++ y :: x :: post).Perm im.activePluginList :=
    List.Perm.trans (List.Perm.append_left pre (List.Perm.swap x y post)) hperm
  refine ⟨rfl, hnum, ?_⟩
  exact resolved_of_numbered _ _ _ hperm2 hnum h.2.2.2

/-- Move up of the entry at rank `pre.length + 1`, whose predecessor is `w`. -/
theorem moveUp_resolved (create : CreatePluginInstance) (im : IconMenu)
    (pre post : List PluginDescription) (w x : PluginDescription)
    (h : WellFormedChain im.settings im.activePluginList)
    (hold : im.getTimeSortedList = pre ++ w :: x :: post) :
    (moveUp create (pre.length + 1) im).activePluginList = im.activePluginList ∧
    NumberedFrom (position (moveUp create (pre.length + 1) im).settings) 1
      (pre ++ x :: w :: post) ∧
    (moveUp create (pre.length + 1) im).getTimeSortedList = pre ++ x :: w :: post := by
  have hn : 2 ≤ im.activePluginList.length := by
    have := congrArg List.length hold
    rw [IconMenu.getTimeSortedList, length_getTimeSortedList] at this
    simp at this
    omega
  have hperm := (wellFormed_sorted _ _ h (fun _ => exists_low_of_two _ _ h.2.1 h.2.2.1 hn)).1
  have hperm : (pre ++ w :: x :: post).Perm im.activePluginList := by
    rw [← hold]; exact hperm
  have hkeys : DistinctKeys (pre ++ w :: x :: post) := distinctKeys_perm hperm h.1
  have hsave := getTimeSortedList_savePluginStates im
  have hget : (pre ++ w :: x :: post).getD (pre.length + 1) default = x := by
    have := getD_split (pre ++ [w]) post x
    simpa using this
  have hs : (moveUp create (pre.length + 1) im).settings =
      moveUpLoop (pre ++ w :: x :: post) x 0 (pre ++ w :: x :: post)
        im.savePluginStates.settings := by
    simp only [moveUp, IconMenu.loadActivePlugins, hsave, hold, hget]
  have hnum := moveUpLoop_numbered pre post w x im.savePluginStates.settings hkeys
  rw [← hs] at hnum
  have hperm2 : (pre ++ x :: w :: post).Perm im.activePluginList :=
    List.Perm.trans (List.Perm.append_left pre (List.Perm.swap w x post)) hperm
  refine ⟨rfl, hnum, ?_⟩
  exact resolved_of_numbered _ _ _ hperm2 hnum h.2.2.2

/-- Move down of the last entry. -/
theorem moveDown_last_resolved (create : CreatePluginInstance) (im : IconMenu)
    (pre : List PluginDescription) (x : PluginDescription)
    (h : WellFormedChain im.settings im.activePluginList)
    (hlow : ∃ p ∈ im.activePluginList, position im.settings p < INT_MAX)
    (hold : im.getTimeSortedList = pre ++ [x]) :
    (moveDown create pre.length im).getTimeSortedList = pre ++ [x] := by
  have hlen : im.activePluginList.length = pre.length + 1 := by
    have := congrArg List.length hold
    rw [IconMenu.getTimeSortedList, length_getTimeSortedList] at this
    simpa using this
  have hperm := (wellFormed_sorted _ _ h (fun _ => hlow)).1
  have hperm : (pre ++ [x]).Perm im.activePluginList := by
    rw [← hold]; exact hperm
  have hkeys : DistinctKeys (pre ++ [x]) := distinctKeys_perm hperm h.1
  have hsave := getTimeSortedList_savePluginStates im
  have hs : (moveDown create pre.length im).settings =
      moveDownLoop x 0 (pre ++ [x]) im.savePluginStates.settings := by
    simp only [moveDown, IconMenu.loadActivePlugins, hsave, hold, getD_split]
  obtain ⟨hnum, hx⟩ := moveDownLoop_last pre x im.savePluginStates.settings hkeys
  rw [← hs] at hnum hx
  have hb := numbered_bounds pre 1 hnum
  have hmax := h.2.2.2
  rw [hlen] at hmax
  push_cast at hmax
  have hall : ∀ p ∈ pre ++ [x], 0 < position (moveDown create pre.length im).settings p ∧
      position (moveDown create pre.length im).settings p ≤ INT_MAX ∧
      (pre ≠ [] → position (moveDown create pre.length im).settings p ≤ (pre.length : Int) + 2) := by
    intro p hp
    rcases List.mem_append.mp hp with hp | hp
    · have := hb p hp
      refine ⟨by omega, by omega, fun _ => by omega⟩
    · rw [List.mem_singleton.mp hp, hx]
      refine ⟨by omega, by omega, fun _ => le_refl _⟩
  apply getTimeSortedList_eq _ _ _ hperm
  · rw [List.pairwise_append]
    refine ⟨numbered_pairwise pre 1 hnum, List.pairwise_singleton _ _, ?_⟩
    intro p hp q hq
    rw [List.mem_singleton.mp hq, hx]
    have := hb p hp
    omega
  · intro p hp
    have := hall p (hperm.symm.subset hp)
    exact ⟨this.1, this.2.1⟩
  · intro _
    cases pre with
    | nil =>
      refine ⟨x, hperm.subset (by simp), ?_⟩
      show position (moveDown create 0 im).settings x < INT_MAX
      have : position (moveDown create 0 im).settings x = 2 := by simpa using hx
      rw [this]; decide
    | cons p pre =>
      refine ⟨p, hperm.subset (by simp), ?_⟩
      have := hb p (List.mem_cons_self _ _)
      omega

/-! ## Proofs: deletion -/

theorem order_ne_bypass (a b : PluginDescription) : getKey "order" a ≠ getKey "bypass" b := by
  intro h
  have := congrArg String.data h
  rw [getKey_data, getKey_data] at this
  simp [toLowerCase] at this

theorem state_ne_bypass (a b : PluginDescription) : getKey "state" a ≠ getKey "bypass" b := by
  intro h
  have := congrArg String.data h
  rw [getKey_data, getKey_data] at this
  simp [toLowerCase] at this

theorem state_ne_of_distinct {a b : PluginDescription}
    (h : equalsIgnoreCase (getKey "order" a) (getKey "order" b) = false) :
    getKey "state" a ≠ getKey "state" b := by
  apply ne_of_equalsIgnoreCase_false
  rw [equalsIgnoreCase_getKey] at h ⊢
  exact h

theorem position_deletePluginStates (s : PropertySet) (types : List PluginDescription)
    (p : PluginDescription) : position (deletePluginStates s types) p = position s p := by
  unfold deletePluginStates
  generalize getTimeSortedList s types = l
  induction l generalizing s with
  | nil => rfl
  | cons q rest ih =>
    rw [List.foldl_cons, ih]
    exact position_removeValue_other s _ p (order_ne_getKey_state p q)

theorem saveLoop_other (graph : AudioProcessorGraph) (key : String) :
    ∀ (l : List PluginDescription) (i : Nat) (s : PropertySet),
      (∀ q ∈ l, getKey "state" q ≠ key) → saveLoop graph i l s key = s key := by
  intro l
  induction l with
  | nil => intro _ _ _; rfl
  | cons q rest ih =>
    intro i s h
    rw [saveLoop, ih _ _ (fun r hr => h r (List.mem_cons_of_mem _ hr))]
    unfold saveStep
    cases graph.getNodeForId (i + 1) with
    | none => rfl
    | some node =>
      dsimp only
      split
      · simp [setValue, (h q (List.mem_cons_self _ _)).symm]
      · rfl

/-- The search loop of the delete branch finds the entry itself when no other
entry has the same key ignoring case. -/
theorem findUnsortedIndex_spec (P : PluginDescription) :
    ∀ (l : List PluginDescription) (i : Nat), P ∈ l →
      (∀ q ∈ l, q ≠ P → equalsIgnoreCase (getKey "order" P) (getKey "order" q) = false) →
      ∃ j, findUnsortedIndex (getKey "order" P) i l = i + j ∧ l[j]? = some P := by
  intro l
  induction l with
  | nil => intro _ h; simp at h
  | cons q rest ih =>
    intro i hmem hd
    by_cases hq : q = P
    · subst hq
      exact ⟨0, by simp [findUnsortedIndex, equalsIgnoreCase_self], by simp⟩
    · have hmem2 : P ∈ rest := by
        rcases List.mem_cons.mp hmem with h | h
        · exact absurd h.symm hq
        · exact h
      obtain ⟨j, hj1, hj2⟩ := ih (i + 1) hmem2 (fun r hr => hd r (List.mem_cons_of_mem _ hr))
      refine ⟨j + 1, ?_, by simpa using hj2⟩
      simp only [findUnsortedIndex, hd q (List.mem_cons_self _ _) hq, Bool.false_eq_true, if_false]
      omega

theorem isDuplicateOf_self (a : PluginDescription) : isDuplicateOf a a = true := by
  simp [isDuplicateOf]

theorem isDuplicateOf_comm (a b : PluginDescription) : isDuplicateOf a b = isDuplicateOf b a := by
  simp only [isDuplicateOf]
  rw [Bool.eq_iff_iff]
  simp only [Bool.and_eq_true, beq_iff_eq]
  constructor <;> rintro ⟨h1, h2⟩ <;> exact ⟨h1.symm, h2.symm⟩

theorem mem_removeType (types : List PluginDescription) (P Q : PluginDescription) :
    Q ∈ removeType types P ↔ Q ∈ types ∧ isDuplicateOf Q P = false := by
  simp [removeType, List.mem_filter]

theorem pairwise_forall {R : PluginDescription → PluginDescription → Prop}
    (hsymm : ∀ a b, R a b → R b a) :
    ∀ (l : List PluginDescription), l.Pairwise R → ∀ a ∈ l, ∀ b ∈ l, a ≠ b → R a b := by
  intro l
  induction l with
  | nil => intro _ a ha; simp at ha
  | cons c rest ih =>
    intro h a ha b hb hab
    obtain ⟨h1, h2⟩ := List.pairwise_cons.mp h
    rcases List.mem_cons.mp ha with ha | ha <;> rcases List.mem_cons.mp hb with hb | hb
    · exact absurd (ha.trans hb.symm) hab
    · rw [ha]; exact h1 b hb
    · rw [hb]; exact hsymm _ _ (h1 a ha)
    · exact ih h2 a ha b hb hab

/-- Deletion on a consistent chain. -/
theorem deletePlugin_spec (create : CreatePluginInstance) (im : IconMenu) (i : Nat)
    (h : WellFormedChain im.settings im.activePluginList)
    (hdup : NoDuplicates im.activePluginList)
    (hmax : ∀ p ∈ im.activePluginList, position im.settings p < INT_MAX)
    (hi : i < im.activePluginList.length) :
    im.getTimeSortedList.getD i default ∈ im.activePluginList ∧
    (deletePlugin create i im).settings (getKey "order" (im.getTimeSortedList.getD i default)) = none ∧
    (deletePlugin create i im).settings (getKey "bypass" (im.getTimeSortedList.getD i default)) = none ∧
    (deletePlugin create i im).settings (getKey "state" (im.getTimeSortedList.getD i default)) = none ∧
    im.getTimeSortedList.getD i default ∉ (deletePlugin create i im).activePluginList ∧
    (∀ Q ∈ im.activePluginList, Q ≠ im.getTimeSortedList.getD i default →
      Q ∈ (deletePlugin create i im).activePluginList) ∧
    im.getTimeSortedList.getD i default ∉ (deletePlugin create i im).getTimeSortedList := by
  obtain ⟨hk, hdp, hpp, hlen⟩ := h
  set types := im.activePluginList with htypes
  set s := im.settings with hs
  set s1 := deletePluginStates s types with hs1
  have hlowOf : ∀ l : List PluginDescription, (∀ p ∈ l, p ∈ types) → l ≠ [] →
      ∃ x ∈ l, position s x < INT_MAX := by
    intro l hl hne
    obtain ⟨x, hx⟩ := List.exists_mem_of_ne_nil l hne
    exact ⟨x, hx, hmax x (hl x hx)⟩
  have hold1 : getTimeSortedList s1 types = getTimeSortedList s types :=
    getTimeSortedList_congr _ _ _ (fun p _ => position_deletePluginStates s types p)
  have hperm := (getTimeSortedList_sorted s types hdp hpp (hlowOf types (fun _ hp => hp))).1
  set P := im.getTimeSortedList.getD i default with hP
  have hPold : P ∈ getTimeSortedList s types := by
    have hil : i < (getTimeSortedList s types).length := by
      rw [length_getTimeSortedList]; exact hi
    have : P = (getTimeSortedList s types)[i] := by
      rw [hP, IconMenu.getTimeSortedList, List.getD_eq_getElem?_getD,
        List.getElem?_eq_getElem hil]
      rfl
    rw [this]
    exact List.getElem_mem _
  have hPmem : P ∈ types := hperm.subset hPold
  have hdist : ∀ q ∈ types, q ≠ P →
      equalsIgnoreCase (getKey "order" P) (getKey "order" q) = false :=
    fun q hq hqP => pairwise_forall (fun a b hab => order_comm hab) types hk P hPmem q hq
      (fun hPq => hqP hPq.symm)
  obtain ⟨j, hj1, hj2⟩ := findUnsortedIndex_spec P types 0 hPmem hdist
  have hpd : types.getD (findUnsortedIndex (getKey "order" P) 0 types) default = P := by
    rw [hj1, Nat.zero_add, List.getD_eq_getElem?_getD, hj2]
    rfl
  set types2 := removeType types P with ht2
  set s3 := removeValue (removeValue (removeValue s1 (getKey "order" P)) (getKey "bypass" P))
    (getKey "state" P) with hs3
  have hmem2 : ∀ Q, Q ∈ types2 ↔ Q ∈ types ∧ Q ≠ P := by
    intro Q
    rw [ht2, mem_removeType]
    constructor
    · rintro ⟨hQ, hd⟩
      refine ⟨hQ, ?_⟩
      intro hQP
      rw [hQP, isDuplicateOf_self] at hd
      exact Bool.noConfusion hd
    · rintro ⟨hQ, hQP⟩
      exact ⟨hQ, pairwise_forall (fun a b hab => by rw [isDuplicateOf_comm]; exact hab) types
        hdup Q hQ P hPmem hQP⟩
  have hresult : deletePlugin create i im =
      { im with settings := savePluginStates im.graph s3 types2, activePluginList := types2,
                graph := loadActivePlugins create (savePluginStates im.graph s3 types2) types2 } := by
    simp only [deletePlugin, IconMenu.deletePluginStates, IconMenu.getTimeSortedList,
      IconMenu.savePluginStates, IconMenu.loadActivePlugins]
    rw [← hs, ← htypes, ← hs1, hold1]
    have hP2 : (getTimeSortedList s types).getD i default = P := rfl
    rw [hP2, hpd]
  have hpos3 : ∀ Q ∈ types2, position s3 Q = position s Q := by
    intro Q hQ
    obtain ⟨hQt, hQP⟩ := (hmem2 Q).mp hQ
    rw [hs3, position_removeValue_other _ _ Q (order_ne_getKey_state Q P),
      position_removeValue_other _ _ Q (order_ne_bypass Q P),
      position_removeValue_other _ _ Q
        (ne_of_equalsIgnoreCase_false (hdist Q hQt hQP)).symm,
      hs1, position_deletePluginStates]
  have hsub : types2.Sublist types := List.filter_sublist _
  have hdp2 : DistinctPositions s3 types2 := by
    have : types2.Pairwise (fun a b => position s a ≠ position s b) := hdp.sublist hsub
    exact this.imp_of_mem (fun {a b} ha hb hab => by rw [hpos3 a ha, hpos3 b hb]; exact hab)
  have hpp2 : PositivePositions s3 types2 := by
    intro p hp
    rw [hpos3 p hp]
    exact hpp p (hsub.subset hp)
  have hlow2 : types2 ≠ [] → ∃ x ∈ types2, position s3 x < INT_MAX := by
    intro hne
    obtain ⟨x, hx, hlt⟩ := hlowOf types2 (fun p hp => hsub.subset hp) hne
    exact ⟨x, hx, by rw [hpos3 x hx]; exact hlt⟩
  have hperm2 := (getTimeSortedList_sorted s3 types2 hdp2 hpp2 hlow2).1
  have hPnot : P ∉ types2 := fun hmem => ((hmem2 P).mp hmem).2 rfl
  have hsaved : ∀ key, (∀ q ∈ types2, getKey "state" q ≠ key) →
      savePluginStates im.graph s3 types2 key = s3 key := by
    intro key hkey
    exact saveLoop_other im.graph key _ 0 s3 (fun q hq => hkey q (hperm2.subset hq))
  rw [hresult]
  refine ⟨hPmem, ?_, ?_, ?_, hPnot, fun Q hQ hQP => (hmem2 Q).mpr ⟨hQ, hQP⟩, ?_⟩
  · show savePluginStates im.graph s3 types2 (getKey "order" P) = none
    rw [hsaved _ (fun q _ => (order_ne_getKey_state P q).symm)]
    simp [hs3, removeValue]
  · show savePluginStates im.graph s3 types2 (getKey "bypass" P) = none
    rw [hsaved _ (fun q _ => state_ne_bypass q P)]
    simp [hs3, removeValue]
  · show savePluginStates im.graph s3 types2 (getKey "state" P) = none
    rw [hsaved _ (fun q hq => state_ne_of_distinct
      (order_comm (hdist q ((hmem2 q).mp hq).1 ((hmem2 q).mp hq).2)))]
    simp [hs3, removeValue]
  · show P ∉ getTimeSortedList (savePluginStates im.graph s3 types2) types2
    rw [getTimeSortedList_congr _ s3 types2 (fun p _ => position_savePluginStates _ _ _ p)]
    exact fun hmem => hPnot (hperm2.subset hmem)
/-! ## Keys, resolver, graph and deletion: further lemmas -/

theorem getKey_eq_iff (t : String) (a b : PluginDescription) :
    getKey t a = getKey t b ↔ stableKey a = stableKey b := by
  constructor
  · intro h
    have := congrArg String.data h
    rw [getKey_data, getKey_data] at this
    exact String.ext (List.append_cancel_left this)
  · intro h
    apply String.ext
    rw [getKey_data, getKey_data, h]

theorem getKey_ne_of_position_ne {s : PropertySet} {a b : PluginDescription} (t : String)
    (h : position s a ≠ position s b) : getKey t a ≠ getKey t b := by
  intro hk
  apply h
  have : getKey "order" a = getKey "order" b :=
    (getKey_eq_iff "order" a b).mpr ((getKey_eq_iff t a b).mp hk)
  simp only [position, this]

theorem getD_mem_of_lt (l : List PluginDescription) (i : Nat) (h : i < l.length) :
    l.getD i default ∈ l := by
  rw [List.getD_eq_getElem?_getD, List.getElem?_eq_getElem h]
  exact List.getElem_mem _

theorem savePluginStates_other (graph : AudioProcessorGraph) (s : PropertySet)
    (types : List PluginDescription) (key : String)
    (h : ∀ q : PluginDescription, getKey "state" q ≠ key) :
    savePluginStates graph s types key = s key :=
  saveLoop_other graph key _ 0 s (fun q _ => h q)

/-- What the bypass branch does to the store, for any chain and index. -/
theorem toggleBypass_settings (create : CreatePluginInstance) (im : IconMenu) (i : Nat) :
    (toggleBypass create i im).activePluginList = im.activePluginList ∧
    (∀ Q : PluginDescription,
      (toggleBypass create i im).settings (getKey "order" Q) = im.settings (getKey "order" Q)) ∧
    (toggleBypass create i im).settings (getKey "bypass" (im.getTimeSortedList.getD i default)) =
      some (Var.bool (!getBoolValue im.settings
        (getKey "bypass" (im.getTimeSortedList.getD i default)))) ∧
    (∀ Q : PluginDescription,
      getKey "bypass" Q ≠ getKey "bypass" (im.getTimeSortedList.getD i default) →
      (toggleBypass create i im).settings (getKey "bypass" Q) = im.settings (getKey "bypass" Q)) := by
  refine ⟨rfl, ?_, ?_, ?_⟩
  · intro Q
    show savePluginStates _ _ _ _ = _
    rw [savePluginStates_other _ _ _ _ (fun q => order_ne_state q Q)]
    simp [setValue, order_ne_bypass]
  · show savePluginStates _ _ _ _ = _
    rw [savePluginStates_other _ _ _ _ (fun q => state_ne_bypass q _)]
    simp [setValue, IconMenu.getTimeSortedList]
  · intro Q hQ
    show savePluginStates _ _ _ _ = _
    rw [savePluginStates_other _ _ _ _ (fun q => state_ne_bypass q Q)]
    simp only [setValue]
    rw [if_neg]
    exact hQ

theorem getBoolValue_bool (s : PropertySet) (key : String) (b : Bool)
    (h : s key = some (Var.bool b)) : getBoolValue s key = b := by
  cases b <;> simp [getBoolValue, getIntValue, h]

theorem position_congr_order {s s2 : PropertySet} (Q : PluginDescription)
    (h : s (getKey "order" Q) = s2 (getKey "order" Q)) : position s Q = position s2 Q := by
  simp only [position, getIntValue, h]

theorem distinct_of_sorted_perm {s : PropertySet} {types M : List PluginDescription}
    (hperm : M.Perm types) (hs : M.Pairwise (fun a b => position s a < position s b)) :
    DistinctPositions s types :=
  (hperm.pairwise_iff (fun {a b} (h : position s a ≠ position s b) => h.symm)).mp
    (hs.imp (fun h => ne_of_lt h))

/-- Move up of index 0: the moved entry gets position 0 and the entries after it
2, 3, ... -/
theorem moveUpLoop_first (post : List PluginDescription) (x : PluginDescription)
    (s : PropertySet) (h : DistinctKeys (x :: post)) :
    position (moveUpLoop (x :: post) x 0 (x :: post) s) x = 0 ∧
    NumberedFrom (position (moveUpLoop (x :: post) x 0 (x :: post) s)) 2 post := by
  obtain ⟨hxpost, hpost⟩ := List.pairwise_cons.mp h
  have hloop : moveUpLoop (x :: post) x 0 (x :: post) s =
      seqWrite 1 post (setValue s (getKey "order" x) (Var.int 0)) := by
    have := moveUpLoop_append (x :: post) x post [] 1
      (setValue s (getKey "order" x) (Var.int 0)) (fun p hp => move_of_order (hxpost p hp))
    rw [List.append_nil, moveUpLoop_nil] at this
    rw [← this]
    simp [moveUpLoop, move_self]
  rw [hloop]
  constructor
  · rw [position_seqWrite_other x post _ _ (fun q hq =>
      (ne_of_equalsIgnoreCase_false (hxpost q hq)).symm), position_setValue_same]
  · have := seqWrite_numbered post 1 (setValue s (getKey "order" x) (Var.int 0))
      (distinctKeys_keys hpost)
    simpa using this

theorem split_at_index (l : List PluginDescription) (i : Nat) (h : i < l.length) :
    ∃ pre x post, l = pre ++ x :: post ∧ pre.length = i := by
  refine ⟨l.take i, l[i], l.drop (i + 1), ?_, ?_⟩
  · have h1 : l.drop i = l[i] :: l.drop (i + 1) := List.drop_eq_getElem_cons h
    rw [← h1, List.take_append_drop]
  · simp; omega

/-- After a move at any in-range index the positions of a well-formed chain with a
resolvable lowest entry are pairwise distinct. -/
theorem moves_keep_positions_distinct (create : CreatePluginInstance) (im : IconMenu) (i : Nat)
    (h : WellFormedChain im.settings im.activePluginList)
    (hlow : ∃ p ∈ im.activePluginList, position im.settings p < INT_MAX)
    (hi : i < im.activePluginList.length) :
    DistinctPositions (moveUp create i im).settings im.activePluginList ∧
    DistinctPositions (moveDown create i im).settings im.activePluginList := by
  have hperm := (wellFormed_sorted _ _ h (fun _ => hlow)).1
  have hlen : i < im.getTimeSortedList.length := by
    rw [IconMenu.getTimeSortedList, length_getTimeSortedList]; exact hi
  obtain ⟨pre, x, post, hold, hpre⟩ := split_at_index im.getTimeSortedList i hlen
  have hperm : (pre ++ x :: post).Perm im.activePluginList := by
    rw [← hold]; exact hperm
  have hkeys : DistinctKeys (pre ++ x :: post) := distinctKeys_perm hperm h.1
  have hsave := getTimeSortedList_savePluginStates im
  subst hpre
  constructor
  · -- move up
    rcases List.eq_nil_or_concat pre with hnil | ⟨pre2, w, hpre2⟩
    · subst hnil
      have hs : (moveUp create 0 im).settings =
          moveUpLoop (x :: post) x 0 (x :: post) im.savePluginStates.settings := by
        simp only [moveUp, IconMenu.loadActivePlugins, hsave, hold, List.nil_append,
          List.getD_cons_zero]
      obtain ⟨hx, hnum⟩ := moveUpLoop_first post x im.savePluginStates.settings hkeys
      rw [← hs] at hx hnum
      apply distinct_of_sorted_perm hperm
      rw [List.nil_append, List.pairwise_cons]
      refine ⟨?_, numbered_pairwise post 2 hnum⟩
      intro p hp
      have := numbered_bounds post 2 hnum p hp
      simp only [List.length_nil] at hx ⊢
      omega
    · subst hpre2
      have hold2 : im.getTimeSortedList = pre2 ++ w :: x :: post := by
        rw [hold]; simp
      obtain ⟨_, hnum, _⟩ := moveUp_resolved create im pre2 post w x h hold2
      have hl : (pre2.concat w).length = pre2.length + 1 := by simp
      rw [hl]
      refine distinct_of_sorted_perm ?_ (numbered_pairwise _ 1 hnum)
      refine List.Perm.trans (List.Perm.append_left pre2 (List.Perm.swap w x post)) ?_
      have : pre2 ++ w :: x :: post = pre2.concat w ++ x :: post := by simp
      rw [this]; exact hperm
  · -- move down
    cases post with
    | nil =>
      have hs : (moveDown create pre.length im).settings =
          moveDownLoop x 0 (pre ++ [x]) im.savePluginStates.settings := by
        simp only [moveDown, IconMenu.loadActivePlugins, hsave, hold, getD_split]
      obtain ⟨hnum, hx⟩ := moveDownLoop_last pre x im.savePluginStates.settings hkeys
      rw [← hs] at hnum hx
      apply distinct_of_sorted_perm hperm
      rw [List.pairwise_append]
      refine ⟨numbered_pairwise pre 1 hnum, List.pairwise_singleton _ _, ?_⟩
      intro p hp q hq
      rw [List.mem_singleton.mp hq, hx]
      have := numbered_bounds pre 1 hnum p hp
      omega
    | cons y post =>
      obtain ⟨_, hnum, _⟩ := moveDown_resolved create im pre post x y h hold
      refine distinct_of_sorted_perm ?_ (numbered_pairwise _ 1 hnum)
      exact List.Perm.trans (List.Perm.append_left pre (List.Perm.swap x y post)) hperm

/-! ## Proofs: the resolver on any store -/

theorem nextStep_of_le (s : PropertySet) (floor : Int) (st : NextState) (p : PluginDescription)
    (h : ¬ (floor < position s p ∧ position s p - floor < st.diff)) :
    nextStep s floor st p = st := by
  rw [nextStep_position]
  split
  · rename_i hc
    exfalso
    apply h
    refine ⟨hc.1, ?_⟩
    have h2 := hc.2
    rw [abs_of_neg (by omega)] at h2
    omega
  · rfl

/-- With no entry less than `INT_MAX` above the floor the loop of
`getNextPluginOlderThanTime` selects nothing. -/
theorem getNext_none (s : PropertySet) (types : List PluginDescription) (floor : Int)
    (h : ∀ p ∈ types, ¬ (floor < position s p ∧ position s p - floor < INT_MAX)) :
    getNextPluginOlderThanTime s types floor = (default, floor) := by
  unfold getNextPluginOlderThanTime
  simp only []
  have : ∀ l : List PluginDescription,
      (∀ p ∈ l, ¬ (floor < position s p ∧ position s p - floor < INT_MAX)) →
      l.foldl (nextStep s floor) ⟨INT_MAX, default, floor⟩ = ⟨INT_MAX, default, floor⟩ := by
    intro l
    induction l with
    | nil => intro _; rfl
    | cons p rest ih =>
      intro hl
      rw [List.foldl_cons, nextStep_of_le s floor _ p (hl p (List.mem_cons_self _ _))]
      exact ih (fun q hq => hl q (List.mem_cons_of_mem _ hq))
  rw [this types h]

/-- Once nothing is left above the floor, every further call returns an empty
description. -/
theorem timeSortedLoop_none (s : PropertySet) (types : List PluginDescription) (floor : Int)
    (h : ∀ p ∈ types, ¬ (floor < position s p ∧ position s p - floor < INT_MAX)) :
    ∀ count : Nat, timeSortedLoop s types count floor = List.replicate count default := by
  intro count
  induction count with
  | zero => rfl
  | succ n ih =>
    simp only [timeSortedLoop, getNext_none s types floor h, ih, List.replicate_succ]

theorem firstWithPosition_mem {s : PropertySet} {types : List PluginDescription} {t : Int}
    {x : PluginDescription} (h : firstWithPosition s types t = some x) :
    x ∈ types ∧ position s x = t := by
  unfold firstWithPosition at h
  exact ⟨List.mem_of_find?_eq_some h, by simpa using List.find?_some h⟩

/-- The loop of `getNextPluginOlderThanTime` ends on the first entry, in list order,
that holds the lowest position above the floor. -/
theorem foldl_nextStep_first (s : PropertySet) (floor : Int) (x : PluginDescription)
    (hx : floor < position s x) :
    ∀ (l : List PluginDescription) (st : NextState),
      firstWithPosition s l (position s x) = some x →
      position s x - floor < st.diff →
      (∀ p ∈ l, floor < position s p → position s x ≤ position s p) →
      l.foldl (nextStep s floor) st = ⟨position s x - floor, x, position s x⟩ := by
  intro l
  induction l with
  | nil => intro st hmem; simp [firstWithPosition] at hmem
  | cons p rest ih =>
    intro st hfirst hd hmin
    have hrest : ∀ q ∈ rest, floor < position s q → position s x ≤ position s q :=
      fun q hq => hmin q (List.mem_cons_of_mem _ hq)
    rw [List.foldl_cons]
    by_cases hpp : position s p = position s x
    · have hpx : p = x := by
        simp only [firstWithPosition, List.find?_cons, hpp, decide_True] at hfirst
        exact Option.some.inj hfirst
      subst hpx
      have hstep : nextStep s floor st p = ⟨position s p - floor, p, position s p⟩ := by
        rw [nextStep_position, abs_of_neg (by omega)]
        simp only [neg_sub]
        rw [if_pos ⟨hx, hd⟩]
      rw [hstep]
      exact foldl_nextStep_stay s floor p rest hrest
    · have hfirst2 : firstWithPosition s rest (position s x) = some x := by
        simp only [firstWithPosition, List.find?_cons, hpp, decide_False] at hfirst
        exact hfirst
      apply ih _ hfirst2 _ hrest
      by_cases hc : floor < position s p ∧ position s p - floor < st.diff
      · have h1 := hmin p (List.mem_cons_self _ _) hc.1
        rw [nextStep_position, abs_of_neg (by omega)]
        simp only [neg_sub]
        rw [if_pos ⟨hc.1, hc.2⟩]
        simp only
        omega
      · rw [nextStep_of_le s floor st p hc]
        exact hd

theorem getNext_eq_first (s : PropertySet) (types : List PluginDescription) (floor : Int)
    (x : PluginDescription) (hx : floor < position s x)
    (hfirst : firstWithPosition s types (position s x) = some x)
    (hd : position s x - floor < INT_MAX)
    (hmin : ∀ p ∈ types, floor < position s p → position s x ≤ position s p) :
    getNextPluginOlderThanTime s types floor = (x, position s x) := by
  unfold getNextPluginOlderThanTime
  simp only []
  rw [foldl_nextStep_first s floor x hx types _ hfirst hd hmin]

/-- The loop of `getTimeSortedList`, on any store: when `M` lists in strictly
ascending order of position the first holder of every position above the floor,
`M.length + m` calls return `M` followed by `m` empty descriptions. -/
theorem timeSortedLoop_firsts (s : PropertySet) (types : List PluginDescription) (m : Nat) :
    ∀ (M : List PluginDescription) (floor : Int), 0 ≤ floor →
      M.Pairwise (fun a b => position s a < position s b) →
      (∀ x ∈ M, floor < position s x ∧ position s x ≤ INT_MAX ∧
        firstWithPosition s types (position s x) = some x) →
      (∀ p ∈ types, floor < position s p → ∃ x ∈ M, position s x = position s p) →
      (floor = 0 → M ≠ [] → ∃ y ∈ types, 0 < position s y ∧ position s y < INT_MAX) →
      timeSortedLoop s types (M.length + m) floor = M ++ List.replicate m default := by
  intro M
  induction M with
  | nil =>
    intro floor _ _ _ hall _
    rw [List.length_nil, Nat.zero_add, List.nil_append]
    apply timeSortedLoop_none
    intro p hp hc
    obtain ⟨x, hx, _⟩ := hall p hp hc.1
    simp at hx
  | cons x M ih =>
    intro floor hf hs hM hall h0
    obtain ⟨hx1, hx2⟩ := List.pairwise_cons.mp hs
    obtain ⟨hxf, hxm, hxfirst⟩ := hM x (List.mem_cons_self _ _)
    have hmin : ∀ p ∈ types, floor < position s p → position s x ≤ position s p := by
      intro p hp hpf
      obtain ⟨y, hy, hyp⟩ := hall p hp hpf
      rcases List.mem_cons.mp hy with h | h
      · rw [← hyp, h]
      · rw [← hyp]; exact le_of_lt (hx1 y h)
    have hd : position s x - floor < INT_MAX := by
      by_cases hz : floor = 0
      · obtain ⟨y, hy, hy0, hy1⟩ := h0 hz (List.cons_ne_nil _ _)
        have := hmin y hy (by omega)
        omega
      · omega
    have hnext := getNext_eq_first s types floor x hxf hxfirst hd hmin
    have hlen : (x :: M).length + m = (M.length + m) + 1 := by simp; omega
    rw [hlen]
    simp only [timeSortedLoop, hnext, List.cons_append]
    congr 1
    apply ih (position s x) (by omega) hx2
    · intro y hy
      obtain ⟨_, h2, h3⟩ := hM y (List.mem_cons_of_mem _ hy)
      exact ⟨hx1 y hy, h2, h3⟩
    · intro p hp hpf
      obtain ⟨y, hy, hyp⟩ := hall p hp (by omega)
      rcases List.mem_cons.mp hy with h | h
      · subst h; omega
      · exact ⟨y, h, hyp⟩
    · intro hz; omega

theorem firstWithPosition_of_distinct (s : PropertySet) :
    ∀ (l : List PluginDescription) (x : PluginDescription), DistinctPositions s l → x ∈ l →
      firstWithPosition s l (position s x) = some x := by
  intro l
  induction l with
  | nil => intro x _ hx; simp at hx
  | cons p rest ih =>
    intro x hd hx
    obtain ⟨h1, h2⟩ := List.pairwise_cons.mp hd
    by_cases hpx : p = x
    · subst hpx
      simp [firstWithPosition]
    · have hxr : x ∈ rest := by
        rcases List.mem_cons.mp hx with h | h
        · exact absurd h.symm hpx
        · exact h
      have hne : position s p ≠ position s x := h1 x hxr
      have := ih x h2 hxr
      simp only [firstWithPosition, List.find?_cons, hne, decide_False] at this ⊢
      exact this

theorem firstWithPosition_exists (s : PropertySet) (types : List PluginDescription)
    (p : PluginDescription) (hp : p ∈ types) :
    ∃ x, firstWithPosition s types (position s p) = some x := by
  unfold firstWithPosition
  cases h : types.find? (fun y => decide (position s y = position s p)) with
  | some x => exact ⟨x, rfl⟩
  | none =>
    have := List.find?_eq_none.mp h p hp
    simp at this

theorem mem_filter_isFirstPositive (s : PropertySet) (types : List PluginDescription)
    (x : PluginDescription) :
    x ∈ types.filter (isFirstPositive s types) ↔
      0 < position s x ∧ firstWithPosition s types (position s x) = some x := by
  rw [List.mem_filter]
  constructor
  · rintro ⟨_, h⟩
    simpa [isFirstPositive] using h
  · intro h
    exact ⟨(firstWithPosition_mem h.2).1, by simpa [isFirstPositive] using h⟩

/-- The resolver on any store of `int` positions whose lowest positive one is below
`INT_MAX`: the first holders of the positive positions, in strictly ascending order
of position, followed by empty descriptions up to the length of the active list. -/
theorem getTimeSortedList_firsts (s : PropertySet) (types : List PluginDescription)
    (hnd : types.Nodup) (hle : ∀ p ∈ types, position s p ≤ INT_MAX)
    (hlow : (∃ p ∈ types, 0 < position s p) →
      ∃ y ∈ types, 0 < position s y ∧ position s y < INT_MAX) :
    ∃ M : List PluginDescription, M.Perm (types.filter (isFirstPositive s types)) ∧
      M.Pairwise (fun a b => position s a < position s b) ∧
      getTimeSortedList s types =
        M ++ List.replicate (types.length - M.length) default := by
  let r : PluginDescription → PluginDescription → Prop := fun a b => position s a ≤ position s b
  haveI : DecidableRel r := fun a b => inferInstanceAs (Decidable (position s a ≤ position s b))
  haveI : IsTotal PluginDescription r := ⟨fun a b => le_total (position s a) (position s b)⟩
  haveI : IsTrans PluginDescription r := ⟨fun a b c hab hbc => le_trans hab hbc⟩
  set F := types.filter (isFirstPositive s types) with hF
  have hperm : (F.insertionSort r).Perm F := List.perm_insertionSort r F
  have hsorted : (F.insertionSort r).Pairwise r := List.sorted_insertionSort r F
  have hFne : F.Pairwise (fun a b => position s a ≠ position s b) := by
    have hFnd : F.Pairwise (fun a b => a ≠ b) := hnd.filter _
    refine hFnd.imp_of_mem ?_
    intro a b ha hb hab hpos
    have h1 := ((mem_filter_isFirstPositive s types a).mp ha).2
    have h2 := ((mem_filter_isFirstPositive s types b).mp hb).2
    rw [hpos, h2] at h1
    exact hab (Option.some.inj h1).symm
  have hne : (F.insertionSort r).Pairwise (fun a b => position s a ≠ position s b) :=
    (hperm.pairwise_iff (fun {a b} (h : position s a ≠ position s b) => h.symm)).mpr hFne
  have hlt : (F.insertionSort r).Pairwise (fun a b => position s a < position s b) :=
    (hsorted.and hne).imp (fun {a b} h => lt_of_le_of_ne h.1 h.2)
  have hlen : (F.insertionSort r).length ≤ types.length := by
    rw [hperm.length_eq]; exact List.length_filter_le _ _
  refine ⟨F.insertionSort r, hperm, hlt, ?_⟩
  have hcount : types.length =
      (F.insertionSort r).length + (types.length - (F.insertionSort r).length) := by omega
  unfold getTimeSortedList
  conv_lhs => rw [hcount]
  apply timeSortedLoop_firsts s types _ _ 0 (le_refl 0) hlt
  · intro x hx
    have hxF := (mem_filter_isFirstPositive s types x).mp (hperm.subset hx)
    exact ⟨hxF.1, hle x (firstWithPosition_mem hxF.2).1, hxF.2⟩
  · intro p hp hpos
    obtain ⟨x, hx⟩ := firstWithPosition_exists s types p hp
    have hxp := (firstWithPosition_mem hx).2
    refine ⟨x, hperm.symm.subset ((mem_filter_isFirstPositive s types x).mpr ⟨?_, ?_⟩), hxp⟩
    · rw [hxp]; exact hpos
    · rw [hxp]; exact hx
  · intro _ hne
    obtain ⟨x, hx⟩ := List.exists_mem_of_ne_nil _ hne
    have hxF := (mem_filter_isFirstPositive s types x).mp (hperm.subset hx)
    exact hlow ⟨x, (firstWithPosition_mem hxF.2).1, hxF.1⟩

theorem getNext_time_ge (s : PropertySet) (types : List PluginDescription) (floor : Int) :
    floor ≤ (getNextPluginOlderThanTime s types floor).2 := by
  unfold getNextPluginOlderThanTime
  simp only []
  have : ∀ (l : List PluginDescription) (st : NextState), floor ≤ st.time →
      floor ≤ (l.foldl (nextStep s floor) st).time := by
    intro l
    induction l with
    | nil => intro st h; exact h
    | cons p rest ih =>
      intro st h
      rw [List.foldl_cons]
      apply ih
      rw [nextStep_position]
      split
      · rename_i hc; exact le_of_lt hc.1
      · exact h
  exact this types _ (le_refl floor)

/-- A member whose position is not above the floor has no effect on
`getNextPluginOlderThanTime`. -/
theorem getNext_remove (s : PropertySet) (l1 l2 : List PluginDescription)
    (M : PluginDescription) (floor : Int) (h : position s M ≤ floor) :
    getNextPluginOlderThanTime s (l1 ++ M :: l2) floor =
      getNextPluginOlderThanTime s (l1 ++ l2) floor := by
  unfold getNextPluginOlderThanTime
  simp only [List.foldl_append, List.foldl_cons]
  rw [nextStep_of_le s floor _ M (fun hc => by omega)]

theorem timeSortedLoop_remove (s : PropertySet) (l1 l2 : List PluginDescription)
    (M : PluginDescription) :
    ∀ (count : Nat) (floor : Int), position s M ≤ floor →
      timeSortedLoop s (l1 ++ M :: l2) count floor = timeSortedLoop s (l1 ++ l2) count floor := by
  intro count
  induction count with
  | zero => intro _ _; rfl
  | succ n ih =>
    intro floor h
    simp only [timeSortedLoop, getNext_remove s l1 l2 M floor h]
    congr 1
    apply ih
    exact le_trans h (getNext_time_ge s (l1 ++ l2) floor)

/-- A member without an order entry: the resolved order is that of the list without
the member, followed by one empty description. -/
theorem getTimeSortedList_missing (s : PropertySet) (l1 l2 : List PluginDescription)
    (M : PluginDescription) (hM : s (getKey "order" M) = none)
    (hd : DistinctPositions s (l1 ++ l2)) (hp : PositivePositions s (l1 ++ l2)) :
    getTimeSortedList s (l1 ++ M :: l2) =
      getTimeSortedList s (l1 ++ l2) ++ [PluginDescription.empty] := by
  have hposM : position s M = 0 := by simp [position, getIntValue, hM]
  have hlen : (l1 ++ M :: l2).length = (l1 ++ l2).length + 1 := by simp; omega
  unfold getTimeSortedList
  rw [hlen, timeSortedLoop_remove s l1 l2 M _ 0 (by omega)]
  by_cases hlow : ∃ x ∈ l1 ++ l2, position s x < INT_MAX
  · obtain ⟨hperm, hsorted⟩ := getTimeSortedList_sorted s (l1 ++ l2) hd hp (fun _ => hlow)
    have hres : timeSortedLoop s (l1 ++ l2) (l1 ++ l2).length 0 = getTimeSortedList s (l1 ++ l2) :=
      rfl
    rw [hres, ← hperm.length_eq]
    have := timeSortedLoop_firsts s (l1 ++ l2) 1 (getTimeSortedList s (l1 ++ l2)) 0 (le_refl 0)
      hsorted
      (fun x hx => ⟨(hp x (hperm.subset hx)).1, (hp x (hperm.subset hx)).2,
        firstWithPosition_of_distinct s _ x hd (hperm.subset hx)⟩)
      (fun p hpm _ => ⟨p, hperm.symm.subset hpm, rfl⟩)
      (fun _ _ => by
        obtain ⟨y, hy, hylt⟩ := hlow
        exact ⟨y, hy, (hp y hy).1, hylt⟩)
    exact this
  · have hnone : ∀ p ∈ l1 ++ l2, ¬ ((0 : Int) < position s p ∧ position s p - 0 < INT_MAX) := by
      intro p hpm hc
      exact hlow ⟨p, hpm, by omega⟩
    rw [timeSortedLoop_none s _ 0 hnone, timeSortedLoop_none s _ 0 hnone, List.replicate_succ']
    rfl

/-! ## Proofs: the nodes of the rebuilt graph -/

theorem connectBoth_nodes (g : AudioProcessorGraph) (a b : Nat) :
    (connectBoth g a b).nodes = g.nodes := rfl

theorem getNodeForId_connectBoth (g : AudioProcessorGraph) (a b j : Nat) :
    (connectBoth g a b).getNodeForId j = g.getNodeForId j := rfl

/-- `addNode` with an id that is not in use. -/
theorem getNodeForId_addNode (g : AudioProcessorGraph) (p : Processor) (i j : Nat)
    (hfree : ∀ node ∈ g.nodes, node.nodeID ≠ i) :
    (g.addNode p i).nodes = g.nodes ++ [⟨i, p⟩] ∧
    (g.addNode p i).getNodeForId j =
      if j = i then some ⟨i, p⟩ else g.getNodeForId j := by
  have hany : g.nodes.any (fun n => n.nodeID == i) = false := by
    rw [List.any_eq_false]
    intro n hn
    simpa using hfree n hn
  have hnodes : (g.addNode p i).nodes = g.nodes ++ [⟨i, p⟩] := by
    simp [AudioProcessorGraph.addNode, hany]
  refine ⟨hnodes, ?_⟩
  unfold AudioProcessorGraph.getNodeForId
  rw [hnodes, List.find?_append]
  by_cases hj : j = i
  · subst hj
    have : g.nodes.find? (fun n => n.nodeID == j) = none := by
      rw [List.find?_eq_none]
      intro n hn
      simpa using hfree n hn
    simp [this]
  · have : ([⟨i, p⟩] : List Node).find? (fun n => n.nodeID == j) = none := by
      simp [List.find?_cons, Ne.symm hj]
    rw [this, if_neg hj]
    simp

/-- What one turn of the loop of `loadActivePlugins` does to the nodes. -/
theorem loadStep_nodes (create : CreatePluginInstance) (s : PropertySet)
    (types : List PluginDescription) (st : LoadState) (i : Nat)
    (hfree : ∀ node ∈ st.graph.nodes, node.nodeID ≠ i) :
    let r := getNextPluginOlderThanTime s types st.pluginTime
    let st1 := loadStep create s types st i
    st1.pluginTime = r.2 ∧
    (∀ node ∈ st1.graph.nodes, node ∈ st.graph.nodes ∨ node.nodeID = i) ∧
    ∀ j, st1.graph.getNodeForId j =
      if j = i then
        (create i r.1).map (fun fresh => ⟨i, Processor.plugin r.1 (restoredState s r.1 fresh)⟩)
      else st.graph.getNodeForId j := by
  intro r st1
  cases hcr : create i r.1 with
  | none =>
    have h1 : st1 = { st with pluginTime := r.2 } := by
      simp only [st1, loadStep]
      rw [show create i (getNextPluginOlderThanTime s types st.pluginTime).1 = none from hcr]
    refine ⟨by rw [h1], fun node hn => Or.inl (by rw [h1] at hn; exact hn), ?_⟩
    intro j
    rw [h1]
    by_cases hj : j = i
    · subst hj
      simp only [if_true, Option.map_none']
      unfold AudioProcessorGraph.getNodeForId
      rw [List.find?_eq_none]
      intro n hn
      simpa using hfree n hn
    · rw [if_neg hj]
  | some fresh =>
    have hadd := fun j => getNodeForId_addNode st.graph
      (Processor.plugin r.1 (restoredState s r.1 fresh)) i j hfree
    have h1 : st1.pluginTime = r.2 ∧ st1.graph.nodes =
        (st.graph.addNode (Processor.plugin r.1 (restoredState s r.1 fresh)) i).nodes := by
      simp only [st1, loadStep]
      rw [show create i (getNextPluginOlderThanTime s types st.pluginTime).1 = some fresh from hcr]
      cases hb : getBoolValue s
          (getKey "bypass" (getNextPluginOlderThanTime s types st.pluginTime).1) <;>
        cases hh : st.hasInputConnected <;> cases hl : (st.lastId != 0) <;>
        simp [hh, hl, restoredState, connectBoth_nodes]
    have hget1 : ∀ j, st1.graph.getNodeForId j =
        (st.graph.addNode (Processor.plugin r.1 (restoredState s r.1 fresh)) i).getNodeForId j := by
      intro j
      unfold AudioProcessorGraph.getNodeForId
      rw [h1.2]
    refine ⟨h1.1, ?_, ?_⟩
    · intro node hn
      rw [h1.2, (hadd 0).1] at hn
      rcases List.mem_append.mp hn with h | h
      · exact Or.inl h
      · right
        rw [List.mem_singleton.mp h]
    · intro j
      rw [hget1 j, (hadd j).2]
      by_cases hj : j = i
      · simp [hj]
      · simp [hj]

/-- The nodes the loop of `loadActivePlugins` adds for the requests
`i, ..., i + k - 1`, none of these ids being in use before. -/
theorem loadLoop_nodes (create : CreatePluginInstance) (s : PropertySet)
    (types : List PluginDescription) :
    ∀ (k i : Nat) (st : LoadState),
      (∀ node ∈ st.graph.nodes, node.nodeID < i ∨ i + k ≤ node.nodeID) →
      (∀ j, (j < i ∨ i + k ≤ j) →
        ((List.range' i k).foldl (loadStep create s types) st).graph.getNodeForId j =
          st.graph.getNodeForId j) ∧
      (∀ r, r < k →
        ((List.range' i k).foldl (loadStep create s types) st).graph.getNodeForId (i + r) =
          (create (i + r) ((timeSortedLoop s types k st.pluginTime).getD r default)).map
            (fun fresh => ⟨i + r,
              Processor.plugin ((timeSortedLoop s types k st.pluginTime).getD r default)
                (restoredState s ((timeSortedLoop s types k st.pluginTime).getD r default)
                  fresh)⟩)) := by
  intro k
  induction k with
  | zero =>
    intro i st _
    exact ⟨fun _ _ => rfl, fun r hr => absurd hr (Nat.not_lt_zero r)⟩
  | succ k ih =>
    intro i st hinv
    have hfree : ∀ node ∈ st.graph.nodes, node.nodeID ≠ i := by
      intro node hn
      have := hinv node hn
      omega
    obtain ⟨htime, hnodes, hget⟩ := loadStep_nodes create s types st i hfree
    have hinv1 : ∀ node ∈ (loadStep create s types st i).graph.nodes,
        node.nodeID < i + 1 ∨ i + 1 + k ≤ node.nodeID := by
      intro node hn
      rcases hnodes node hn with h | h
      · have := hinv node h
        omega
      · omega
    obtain ⟨iha, ihb⟩ := ih (i + 1) (loadStep create s types st i) hinv1
    rw [List.range'_succ, List.foldl_cons]
    constructor
    · intro j hj
      rw [iha j (by omega), hget j, if_neg (by omega)]
    · intro r hr
      cases r with
      | zero =>
        have h0 := iha i (by omega)
        rw [hget i, if_pos rfl] at h0
        exact h0
      | succ r =>
        have := ihb r (by omega)
        rw [htime] at this
        rw [show i + (r + 1) = i + 1 + r by omega]
        exact this

theorem getNodeForId_inputOutput (j : Nat) (h1 : j ≠ INPUT) (h2 : j ≠ OUTPUT) :
    ((AudioProcessorGraph.clear.addNode Processor.audioInputNode INPUT).addNode
      Processor.audioOutputNode OUTPUT).getNodeForId j = none := by
  have hn : ((AudioProcessorGraph.clear.addNode Processor.audioInputNode INPUT).addNode
      Processor.audioOutputNode OUTPUT).nodes =
      [⟨INPUT, Processor.audioInputNode⟩, ⟨OUTPUT, Processor.audioOutputNode⟩] := by decide
  unfold AudioProcessorGraph.getNodeForId
  rw [hn]
  simp [List.find?_cons, Ne.symm h1, Ne.symm h2]

/-- The nodes of the rebuilt graph of a chain shorter than the id of INPUT: the
node with id `i + 1` is the instance of the entry at resolved index `i` when that
entry instantiated, there is none when it did not, and no other id below INPUT is
in use. -/
theorem loadActivePlugins_nodes (create : CreatePluginInstance) (s : PropertySet)
    (types : List PluginDescription) (hn : types.length < INPUT) :
    (∀ i, i < types.length →
      (loadActivePlugins create s types).getNodeForId (i + 1) =
        (create (i + 1) ((getTimeSortedList s types).getD i default)).map
          (fun fresh => ⟨i + 1,
            Processor.plugin ((getTimeSortedList s types).getD i default)
              (restoredState s ((getTimeSortedList s types).getD i default) fresh)⟩)) ∧
    (∀ j, (j = 0 ∨ types.length < j) → j < INPUT →
      (loadActivePlugins create s types).getNodeForId j = none) := by
  have hio : ∀ node ∈ ((AudioProcessorGraph.clear.addNode Processor.audioInputNode INPUT).addNode
      Processor.audioOutputNode OUTPUT).nodes, node.nodeID < 1 ∨ 1 + types.length ≤ node.nodeID := by
    intro node hnode
    have hnodes : ((AudioProcessorGraph.clear.addNode Processor.audioInputNode INPUT).addNode
      Processor.audioOutputNode OUTPUT).nodes =
      [⟨INPUT, Processor.audioInputNode⟩, ⟨OUTPUT, Processor.audioOutputNode⟩] := by decide
    rw [hnodes] at hnode
    have hO : OUTPUT = INPUT + 1 := rfl
    simp only [List.mem_cons, List.mem_singleton, List.not_mem_nil, or_false] at hnode
    rcases hnode with h | h <;> rw [h] <;> simp only <;> omega
  obtain ⟨ha, hb⟩ := loadLoop_nodes create s types types.length 1
    { pluginTime := 0, lastId := 0, hasInputConnected := false,
      graph := (AudioProcessorGraph.clear.addNode Processor.audioInputNode INPUT).addNode
        Processor.audioOutputNode OUTPUT } hio
  have hgraph : ∀ j, (loadActivePlugins create s types).getNodeForId j =
      ((List.range' 1 types.length).foldl (loadStep create s types)
        { pluginTime := 0, lastId := 0, hasInputConnected := false,
          graph := (AudioProcessorGraph.clear.addNode Processor.audioInputNode INPUT).addNode
            Processor.audioOutputNode OUTPUT }).graph.getNodeForId j := by
    intro j
    unfold loadActivePlugins
    split
    · rename_i h0
      have : types = [] := List.length_eq_zero.mp h0
      subst this
      rfl
    · simp only []
      split <;> rfl
  constructor
  · intro i hi
    rw [hgraph, show i + 1 = 1 + i by omega, hb i hi]
    rfl
  · intro j hj hjI
    have hO : OUTPUT = INPUT + 1 := rfl
    rw [hgraph, ha j (by omega)]
    exact getNodeForId_inputOutput j (by omega) (by omega)

theorem saveLoop_written (g : AudioProcessorGraph) :
    ∀ (l : List PluginDescription) (i : Nat) (s : PropertySet),
      l.Pairwise (fun a b => getKey "state" a ≠ getKey "state" b) →
      ∀ (r : Nat) (p : PluginDescription) (node : Node), l[r]? = some p →
        g.getNodeForId (i + r + 1) = some node →
        node.processor.getStateInformation ≠ [] →
        saveLoop g i l s (getKey "state" p) =
          some (Var.blob node.processor.getStateInformation) := by
  intro l
  induction l with
  | nil => intro _ _ _ r p _ h; simp at h
  | cons q rest ih =>
    intro i s hpw r p node hp hnode hstate
    obtain ⟨h1, h2⟩ := List.pairwise_cons.mp hpw
    cases r with
    | zero =>
      have hpq : q = p := by simpa using hp
      subst hpq
      rw [saveLoop, saveLoop_other g _ rest _ _ (fun x hx => (h1 x hx).symm)]
      have hlen : node.processor.getStateInformation.length > 0 :=
        List.length_pos.mpr hstate
      simp only [saveStep, Nat.add_zero] at hnode ⊢
      rw [hnode]
      simp [hlen, setValue]
    | succ r =>
      rw [saveLoop]
      apply ih (i + 1) _ h2 r p node (by simpa using hp)
      · rw [show i + 1 + r + 1 = i + (r + 1) + 1 by omega]; exact hnode
      · exact hstate

theorem saveLoop_kept (g : AudioProcessorGraph) :
    ∀ (l : List PluginDescription) (i : Nat) (s : PropertySet),
      l.Pairwise (fun a b => getKey "state" a ≠ getKey "state" b) →
      ∀ (r : Nat) (p : PluginDescription), l[r]? = some p →
        (∀ node, g.getNodeForId (i + r + 1) = some node →
          node.processor.getStateInformation = []) →
        saveLoop g i l s (getKey "state" p) = s (getKey "state" p) := by
  intro l
  induction l with
  | nil => intro _ _ _ r p h; simp at h
  | cons q rest ih =>
    intro i s hpw r p hp hnode
    obtain ⟨h1, h2⟩ := List.pairwise_cons.mp hpw
    cases r with
    | zero =>
      have hpq : q = p := by simpa using hp
      subst hpq
      rw [saveLoop, saveLoop_other g _ rest _ _ (fun x hx => (h1 x hx).symm)]
      simp only [saveStep, Nat.add_zero] at hnode ⊢
      cases hg : g.getNodeForId (i + 1) with
      | none => rfl
      | some node =>
        have := hnode node hg
        simp [this]
    | succ r =>
      have hq : getKey "state" q ≠ getKey "state" p := by
        have hpr : p ∈ rest := by
          have : rest[r]? = some p := by simpa using hp
          exact List.getElem?_mem this
        exact h1 p hpr
      rw [saveLoop, ih (i + 1) _ h2 r p (by simpa using hp)
        (by rw [show i + 1 + r + 1 = i + (r + 1) + 1 by omega]; exact hnode)]
      unfold saveStep
      cases g.getNodeForId (i + 1) with
      | none => rfl
      | some node =>
        dsimp only
        split
        · simp [setValue, hq.symm]
        · rfl

/-- The entries of the resolved order of a chain with distinct positive positions
have pairwise distinct state keys. -/
theorem resolved_state_keys_distinct (s : PropertySet) (types : List PluginDescription)
    (hd : DistinctPositions s types) (hp : PositivePositions s types) :
    (getTimeSortedList s types).Pairwise
      (fun a b => getKey "state" a ≠ getKey "state" b) := by
  by_cases hn : 2 ≤ types.length
  · obtain ⟨hperm, _⟩ := getTimeSortedList_sorted s types hd hp
      (fun _ => exists_low_of_two s types hd hp hn)
    have : (getTimeSortedList s types).Pairwise (fun a b => position s a ≠ position s b) :=
      (hperm.pairwise_iff (fun {a b} (h : position s a ≠ position s b) => h.symm)).mpr hd
    exact this.imp (fun h => getKey_ne_of_position_ne "state" h)
  · have hlen := length_getTimeSortedList s types
    match hres : getTimeSortedList s types with
    | [] => exact List.Pairwise.nil
    | [x] => exact List.pairwise_singleton _ _
    | x :: y :: rest =>
      rw [hres] at hlen
      simp at hlen
      omega

theorem liveNodesOf_loadActivePlugins (create : CreatePluginInstance) (s : PropertySet)
    (types : List PluginDescription) (hn : types.length < INPUT) :
    LiveNodesOf (loadActivePlugins create s types) (getTimeSortedList s types) := by
  intro i hi
  rw [length_getTimeSortedList] at hi
  rw [(loadActivePlugins_nodes create s types hn).1 i hi]
  cases hc : create (i + 1) ((getTimeSortedList s types).getD i default) with
  | none => left; rfl
  | some fresh => right; rfl

/-- What the delete branch leaves of a consistent chain. -/
theorem deletePlugin_shape (create : CreatePluginInstance) (im : IconMenu) (i : Nat)
    (h : WellFormedChain im.settings im.activePluginList)
    (hdup : NoDuplicates im.activePluginList)
    (hmax : ∀ p ∈ im.activePluginList, position im.settings p < INT_MAX)
    (hi : i < im.activePluginList.length) :
    (deletePlugin create i im).knownPluginList = im.knownPluginList ∧
    (deletePlugin create i im).graph = loadActivePlugins create
      (deletePlugin create i im).settings (deletePlugin create i im).activePluginList ∧
    (deletePlugin create i im).activePluginList.Sublist im.activePluginList ∧
    (∀ Q, Q ∈ (deletePlugin create i im).activePluginList ↔
      Q ∈ im.activePluginList ∧ Q ≠ im.getTimeSortedList.getD i default) ∧
    (∀ Q ∈ (deletePlugin create i im).activePluginList,
      position (deletePlugin create i im).settings Q = position im.settings Q) := by
  obtain ⟨hk, hdp, hpp, hlen⟩ := h
  set types := im.activePluginList with htypes
  set s := im.settings with hs
  set s1 := deletePluginStates s types with hs1
  have hold1 : getTimeSortedList s1 types = getTimeSortedList s types :=
    getTimeSortedList_congr _ _ _ (fun p _ => position_deletePluginStates s types p)
  have hperm := (getTimeSortedList_sorted s types hdp hpp (fun hne => by
    obtain ⟨x, hx⟩ := List.exists_mem_of_ne_nil types hne
    exact ⟨x, hx, hmax x hx⟩)).1
  set P := im.getTimeSortedList.getD i default with hP
  have hPmem : P ∈ types :=
    hperm.subset (getD_mem_of_lt (getTimeSortedList s types) i (by
      rw [length_getTimeSortedList]; exact hi))
  have hdist : ∀ q ∈ types, q ≠ P →
      equalsIgnoreCase (getKey "order" P) (getKey "order" q) = false :=
    fun q hq hqP => pairwise_forall (fun a b hab => order_comm hab) types hk P hPmem q hq
      (fun hPq => hqP hPq.symm)
  obtain ⟨j, hj1, hj2⟩ := findUnsortedIndex_spec P types 0 hPmem hdist
  have hpd : types.getD (findUnsortedIndex (getKey "order" P) 0 types) default = P := by
    rw [hj1, Nat.zero_add, List.getD_eq_getElem?_getD, hj2]
    rfl
  set types2 := removeType types P with ht2
  set s3 := removeValue (removeValue (removeValue s1 (getKey "order" P)) (getKey "bypass" P))
    (getKey "state" P) with hs3
  have hmem2 : ∀ Q, Q ∈ types2 ↔ Q ∈ types ∧ Q ≠ P := by
    intro Q
    rw [ht2, mem_removeType]
    constructor
    · rintro ⟨hQ, hd⟩
      refine ⟨hQ, ?_⟩
      intro hQP
      rw [hQP, isDuplicateOf_self] at hd
      exact Bool.noConfusion hd
    · rintro ⟨hQ, hQP⟩
      exact ⟨hQ, pairwise_forall (fun a b hab => by rw [isDuplicateOf_comm]; exact hab) types
        hdup Q hQ P hPmem hQP⟩
  have hresult : deletePlugin create i im =
      { im with settings := savePluginStates im.graph s3 types2, activePluginList := types2,
                graph := loadActivePlugins create (savePluginStates im.graph s3 types2) types2 } := by
    simp only [deletePlugin, IconMenu.deletePluginStates, IconMenu.getTimeSortedList,
      IconMenu.savePluginStates, IconMenu.loadActivePlugins]
    rw [← hs, ← htypes, ← hs1, hold1]
    have hP2 : (getTimeSortedList s types).getD i default = P := rfl
    rw [hP2, hpd]
  have hpos3 : ∀ Q ∈ types2, position s3 Q = position s Q := by
    intro Q hQ
    obtain ⟨hQt, hQP⟩ := (hmem2 Q).mp hQ
    rw [hs3, position_removeValue_other _ _ Q (order_ne_getKey_state Q P),
      position_removeValue_other _ _ Q (order_ne_bypass Q P),
      position_removeValue_other _ _ Q
        (ne_of_equalsIgnoreCase_false (hdist Q hQt hQP)).symm,
      hs1, position_deletePluginStates]
  rw [hresult]
  refine ⟨rfl, rfl, List.filter_sublist _, hmem2, ?_⟩
  intro Q hQ
  show position (savePluginStates im.graph s3 types2) Q = position s Q
  rw [position_savePluginStates, hpos3 Q hQ]

/-- "Delete" of a plugin followed by "Add" of the same plugin, at a clock value
above every stored position: no state entry is left for the plugin and its new
instance keeps the state it starts with. -/
theorem deletePlugin_addPlugin_fresh (create create2 : CreatePluginInstance) (now : Int)
    (im : IconMenu) (i k : Nat)
    (h : WellFormedChain im.settings im.activePluginList)
    (hdup : NoDuplicates im.activePluginList)
    (hmax : ∀ p ∈ im.activePluginList, position im.settings p < INT_MAX)
    (hi : i < im.activePluginList.length)
    (hk : k < im.knownPluginList.length)
    (hP : im.knownPluginList.getD k default = im.getTimeSortedList.getD i default)
    (hnow : ∀ q ∈ im.activePluginList, position im.settings q < now)
    (hnowmax : now < INT_MAX)
    (hn : im.activePluginList.length < INPUT) :
    (deletePlugin create i im).settings
      (getKey "state" (im.getTimeSortedList.getD i default)) = none ∧
    (addPlugin create2 now k (deletePlugin create i im)).settings
      (getKey "state" (im.getTimeSortedList.getD i default)) = none ∧
    (addPlugin create2 now k (deletePlugin create i im)).getTimeSortedList =
      (deletePlugin create i im).getTimeSortedList ++ [im.getTimeSortedList.getD i default] ∧
    (addPlugin create2 now k (deletePlugin create i im)).graph.getNodeForId
        (addPlugin create2 now k (deletePlugin create i im)).activePluginList.length =
      (create2 (addPlugin create2 now k (deletePlugin create i im)).activePluginList.length
        (im.getTimeSortedList.getD i default)).map
        (fun fresh => ⟨(addPlugin create2 now k (deletePlugin create i im)).activePluginList.length,
          Processor.plugin (im.getTimeSortedList.getD i default) fresh⟩) := by
  obtain ⟨hPmem, _, _, hstate, hPnot, _, _⟩ := deletePlugin_spec create im i h hdup hmax hi
  obtain ⟨hknown, hgraph, hsub, hmem, hpos⟩ := deletePlugin_shape create im i h hdup hmax hi
  set P := im.getTimeSortedList.getD i default with hPdef
  set mid := deletePlugin create i im with hmid
  set types2 := mid.activePluginList with ht2
  set s2 := mid.settings with hs2
  have hany : types2.any (fun d => isDuplicateOf d P) = false := by
    rw [List.any_eq_false]
    intro d hd
    have := pairwise_forall (fun a b hab => by rw [isDuplicateOf_comm]; exact hab)
      im.activePluginList hdup d ((hmem d).mp hd).1 P hPmem ((hmem d).mp hd).2
    simp [this]
  have hadd : addType types2 P = P :: types2 := by simp [addType, hany]
  set s5 := setValue s2 (getKey "order" P) (Var.int now) with hs5
  have hfinal : addPlugin create2 now k mid =
      { mid with settings := savePluginStates mid.graph s5 (P :: types2),
                 activePluginList := P :: types2,
                 graph := loadActivePlugins create2
                   (savePluginStates mid.graph s5 (P :: types2)) (P :: types2) } := by
    simp only [addPlugin, hknown, hk, if_true, hP, IconMenu.savePluginStates,
      IconMenu.loadActivePlugins]
    have hadd2 : addType mid.activePluginList P = P :: types2 := hadd
    rw [hadd2]
  have hkeyP : ∀ Q ∈ types2, getKey "order" Q ≠ getKey "order" P := by
    intro Q hQ
    exact ne_of_equalsIgnoreCase_false
      (pairwise_forall (fun a b hab => order_comm hab) im.activePluginList h.1 Q
        ((hmem Q).mp hQ).1 P hPmem ((hmem Q).mp hQ).2)
  have hpos52 : ∀ Q ∈ types2, position s5 Q = position s2 Q :=
    fun Q hQ => position_setValue_other s2 _ _ Q (hkeyP Q hQ)
  have hposP : position s5 P = now := position_setValue_same s2 P now
  have hd2 : DistinctPositions s2 types2 :=
    (h.2.1.sublist hsub).imp_of_mem
      (fun {a b} ha hb hab => by rw [hpos a ha, hpos b hb]; exact hab)
  have hp2 : PositivePositions s2 types2 := by
    intro p hp
    rw [hpos p hp]
    exact h.2.2.1 p (hsub.subset hp)
  obtain ⟨hperm2, hsorted2⟩ := getTimeSortedList_sorted s2 types2 hd2 hp2 (fun hne => by
    obtain ⟨x, hx⟩ := List.exists_mem_of_ne_nil types2 hne
    exact ⟨x, hx, by rw [hpos x hx]; exact hmax x (hsub.subset hx)⟩)
  set R := getTimeSortedList s2 types2 with hR
  have hRlen : R.length = types2.length := length_getTimeSortedList s2 types2
  have hnowpos : 0 < now := lt_trans (h.2.2.1 P hPmem).1 (hnow P hPmem)
  have hperm5 : (R ++ [P]).Perm (P :: types2) :=
    (List.perm_append_singleton P R).trans (hperm2.cons P)
  have hsorted5 : (R ++ [P]).Pairwise (fun a b => position s5 a < position s5 b) := by
    rw [List.pairwise_append]
    refine ⟨hsorted2.imp_of_mem (fun {a b} ha hb hab => by
      rw [hpos52 a (hperm2.subset ha), hpos52 b (hperm2.subset hb)]; exact hab),
      List.pairwise_singleton _ _, ?_⟩
    intro q hq p hp
    rw [List.mem_singleton.mp hp, hposP, hpos52 q (hperm2.subset hq), hpos q (hperm2.subset hq)]
    exact hnow q (hsub.subset (hperm2.subset hq))
  have hres5 : getTimeSortedList s5 (P :: types2) = R ++ [P] := by
    apply getTimeSortedList_eq s5 (P :: types2) (R ++ [P]) hperm5 hsorted5
    · intro p hp
      rcases List.mem_cons.mp hp with hp | hp
      · rw [hp, hposP]; exact ⟨hnowpos, le_of_lt hnowmax⟩
      · rw [hpos52 p hp]; exact hp2 p hp
    · intro _
      exact ⟨P, List.mem_cons_self _ _, by rw [hposP]; exact hnowmax⟩
  have hkeys : (R ++ [P]).Pairwise (fun a b => getKey "state" a ≠ getKey "state" b) :=
    hsorted5.imp (fun hab => getKey_ne_of_position_ne "state" (ne_of_lt hab))
  have hlt : types2.length < im.activePluginList.length := by
    rcases Nat.lt_or_ge types2.length im.activePluginList.length with hl | hl
    · exact hl
    · exfalso
      have heq := List.Sublist.eq_of_length hsub (le_antisymm hsub.length_le hl)
      have heq2 : types2 = im.activePluginList := heq
      exact hPnot (by rw [heq2]; exact hPmem)
  have hnomid : mid.graph.getNodeForId (0 + R.length + 1) = none := by
    rw [hgraph, Nat.zero_add, hRlen]
    exact (loadActivePlugins_nodes create s2 types2 (by omega)).2 (types2.length + 1)
      (Or.inr (by omega)) (by omega)
  have hgetP : (R ++ [P])[R.length]? = some P := by
    rw [List.getElem?_append_right (le_refl _)]; simp
  have hfs : savePluginStates mid.graph s5 (P :: types2) (getKey "state" P) = none := by
    unfold savePluginStates
    rw [hres5, saveLoop_kept mid.graph (R ++ [P]) 0 s5 hkeys R.length P hgetP
      (fun node hnode => by rw [hnomid] at hnode; exact Option.noConfusion hnode)]
    simp only [hs5, setValue, if_neg (order_ne_state P P)]
    exact hstate
  have hresf : getTimeSortedList (savePluginStates mid.graph s5 (P :: types2)) (P :: types2) =
      R ++ [P] := by
    rw [getTimeSortedList_congr _ s5 _ (fun p _ => position_savePluginStates _ _ _ p), hres5]
  rw [hfinal]
  refine ⟨hstate, hfs, hresf, ?_⟩
  show (loadActivePlugins create2 (savePluginStates mid.graph s5 (P :: types2))
    (P :: types2)).getNodeForId (P :: types2).length = _
  have hlen : (P :: types2).length = types2.length + 1 := rfl
  rw [hlen, (loadActivePlugins_nodes create2 _ (P :: types2) (by rw [hlen]; omega)).1
    types2.length (by rw [hlen]; omega), hresf]
  have hgetD : (R ++ [P]).getD types2.length default = P := by
    rw [← hRlen]; exact getD_split R [] P
  rw [hgetD]
  have hrest : ∀ fresh, restoredState (savePluginStates mid.graph s5 (P :: types2)) P fresh
      = fresh := by
    intro fresh
    simp [restoredState, getStateValue, hfs]
  simp only [hrest]

/-- Setting the live state of a node changes no node id. -/
theorem getNodeForId_setLiveState (g : AudioProcessorGraph) (nodeID j : Nat)
    (state : MemoryBlock) :
    (g.setLiveState nodeID state).getNodeForId j =
      (g.getNodeForId j).map (fun n =>
        match n.processor with
        | Processor.plugin description _ =>
            if n.nodeID == nodeID then
              { n with processor := Processor.plugin description state }
            else n
        | _ => n) := by
  unfold AudioProcessorGraph.setLiveState AudioProcessorGraph.getNodeForId
  simp only [List.find?_map]
  congr 1
  congr 1
  funext n
  simp only [Function.comp]
  cases hp : n.processor
  all_goals first | rfl | (simp only []; split <;> rfl)

/-- The entry a resolved list holds at the index of one of its members. -/
theorem getD_indexOf (l : List PluginDescription) (p : PluginDescription) (h : p ∈ l) :
    l.indexOf p < l.length ∧ l.getD (l.indexOf p) default = p := by
  have hlt : l.indexOf p < l.length := List.indexOf_lt_length.mpr h
  refine ⟨hlt, ?_⟩
  rw [List.getD_eq_getElem?_getD, List.getElem?_eq_getElem hlt, List.getElem_indexOf hlt]
  rfl

/-- What the add branch leaves when the description added has no duplicate in the
active list and its order key is used by no active entry. -/
theorem addPlugin_shape (create : CreatePluginInstance) (now : Int) (k : Nat) (im : IconMenu)
    (hk : k < im.knownPluginList.length)
    (hdup : ∀ q ∈ im.activePluginList,
      isDuplicateOf q (im.knownPluginList.getD k default) = false)
    (hkey : ∀ q ∈ im.activePluginList,
      getKey "order" q ≠ getKey "order" (im.knownPluginList.getD k default)) :
    (addPlugin create now k im).knownPluginList = im.knownPluginList ∧
    (addPlugin create now k im).activePluginList =
      im.knownPluginList.getD k default :: im.activePluginList ∧
    (addPlugin create now k im).graph = loadActivePlugins create
      (addPlugin create now k im).settings (addPlugin create now k im).activePluginList ∧
    position (addPlugin create now k im).settings (im.knownPluginList.getD k default) = now ∧
    (∀ q ∈ im.activePluginList,
      position (addPlugin create now k im).settings q = position im.settings q) := by
  have hany : im.activePluginList.any
      (fun d => isDuplicateOf d (im.knownPluginList.getD k default)) = false := by
    rw [List.any_eq_false]
    intro d hd
    rw [hdup d hd]
    exact Bool.false_ne_true
  have hadd : addType im.activePluginList (im.knownPluginList.getD k default) =
      im.knownPluginList.getD k default :: im.activePluginList := by
    simp only [addType, hany, Bool.false_eq_true, if_false]
  simp only [addPlugin, hk, if_true, IconMenu.savePluginStates, IconMenu.loadActivePlugins, hadd]
  refine ⟨trivial, trivial, trivial, ?_, ?_⟩
  · rw [position_savePluginStates, position_setValue_same]
  · intro q hq
    rw [position_savePluginStates, position_setValue_other _ _ _ q (hkey q hq)]
/-! ## Proofs: the menu -/

theorem menuInvocationCallback_zero (create : CreatePluginInstance) (now : Int)
    (im : IconMenu) : menuInvocationCallback create now 0 im = im := by
  unfold menuInvocationCallback
  cases im.menuIconLeftClicked <;> simp

/-- The ids of the enabled items of the menu. -/
theorem enabled_item_ids (im : IconMenu) (item : MenuItem) (hmem : item ∈ im.timerCallback)
    (hen : item.isEnabled = true) :
    item.itemResultID = 1 ∨ item.itemResultID = 2 ∨ item.itemResultID = 3 ∨
    (∃ i : Nat, i < im.activePluginList.length ∧
      (item.itemResultID = INDEX_EDIT + i ∨ item.itemResultID = INDEX_BYPASS + i ∨
        (item.itemResultID = INDEX_MOVE_UP + i ∧ 0 < i) ∨
        (item.itemResultID = INDEX_MOVE_DOWN + i ∧ i + 1 < im.activePluginList.length) ∨
        item.itemResultID = INDEX_DELETE + i)) ∨
    (∃ j : Nat, j < im.knownPluginList.length ∧ item.itemResultID = 3000 + j) := by
  unfold IconMenu.timerCallback at hmem
  have hlen : im.getTimeSortedList.length = im.activePluginList.length :=
    length_getTimeSortedList _ _
  split at hmem
  · simp only [List.mem_append, List.mem_cons, List.mem_singleton, List.not_mem_nil, or_false,
      List.mem_flatMap, List.mem_range, List.mem_map] at hmem
    rcases hmem with ((h | h) | ⟨i, hi, h⟩) | ⟨j, hj, h⟩
    · left; rw [h]
    · right; left; rw [h]
    · right; right; right; left
      rw [hlen] at hi
      refine ⟨i, hi, ?_⟩
      simp only [pluginOptions, List.mem_cons, List.mem_singleton, List.not_mem_nil,
        or_false] at h
      rcases h with h | h | h | h | h
      · left; rw [h]
      · right; left; rw [h]
      · right; right; left
        rw [h] at hen ⊢
        exact ⟨rfl, of_decide_eq_true hen⟩
      · right; right; right; left
        rw [h] at hen ⊢
        have := of_decide_eq_true hen
        rw [hlen] at this
        exact ⟨rfl, by omega⟩
      · right; right; right; right; rw [h]
    · right; right; right; right
      exact ⟨j, hj, by rw [← h]⟩
  · simp only [List.mem_cons, List.mem_singleton, List.not_mem_nil, or_false] at hmem
    rcases hmem with h | h | h
    · left; rw [h]
    · right; left; rw [h]
    · right; right; left; rw [h]

/-- A choice that is the id of no enabled item leaves everything as it is. -/
theorem selectMenuItem_of_not_enabled (create : CreatePluginInstance) (now : Int)
    (chosen : Int) (im : IconMenu)
    (h : ∀ item ∈ im.timerCallback, item.isEnabled = true → item.itemResultID ≠ chosen) :
    selectMenuItem create now chosen im = im := by
  unfold selectMenuItem
  rw [if_neg, menuInvocationCallback_zero]
  rw [List.any_eq_true]
  rintro ⟨item, hmem, hit⟩
  simp only [Bool.and_eq_true, beq_iff_eq] at hit
  exact h item hmem hit.2 hit.1

/-- The "Move Up" and "Move Down" items of the entry at index `i`. -/
theorem move_items_mem (im : IconMenu) (i : Nat) (hleft : im.menuIconLeftClicked = true)
    (hi : i < im.activePluginList.length) :
    ({ itemResultID := INDEX_MOVE_UP + i, isEnabled := decide (i > 0), isTicked := false } :
      MenuItem) ∈ im.timerCallback ∧
    ({ itemResultID := INDEX_MOVE_DOWN + i,
       isEnabled := decide (i < im.activePluginList.length - 1), isTicked := false } :
      MenuItem) ∈ im.timerCallback := by
  have hlen : im.getTimeSortedList.length = im.activePluginList.length :=
    length_getTimeSortedList _ _
  unfold IconMenu.timerCallback
  rw [if_pos hleft]
  constructor
  · apply List.mem_append_left
    apply List.mem_append_right
    rw [List.mem_flatMap]
    refine ⟨i, List.mem_range.mpr (by rw [hlen]; exact hi), ?_⟩
    simp [pluginOptions]
  · apply List.mem_append_left
    apply List.mem_append_right
    rw [List.mem_flatMap]
    refine ⟨i, List.mem_range.mpr (by rw [hlen]; exact hi), ?_⟩
    simp [pluginOptions, hlen]


/-! ## The claims -/

set_option maxRecDepth 100000

/-- C1 (order total-ness), evaluated on the code: from the empty chain, "Add A" and
"Add B" issued through `menuInvocationCallback` within the same clock second leave
both plugins active with the same position, and `getTimeSortedList` returns B and an
empty description: the member A is omitted. -/
theorem add_same_second_omits_member :
    (menuInvocationCallback exCreate 1700000000 3001
      (menuInvocationCallback exCreate 1700000000 3000 exEmptyMenu)).activePluginList
        = [exB, exA] ∧
    (menuInvocationCallback exCreate 1700000000 3001
      (menuInvocationCallback exCreate 1700000000 3000 exEmptyMenu)).getTimeSortedList
        = [exB, PluginDescription.empty] := by
  decide

/-- C2 (passthrough guarantee): for every active list, every store (positions and
bypass flags) and every instantiation outcome, the connections built by
`loadActivePlugins` hold a directed path from INPUT to OUTPUT on channel 0 and on
channel 1. -/
theorem passthrough_guarantee (create : CreatePluginInstance) (s : PropertySet)
    (types : List PluginDescription) :
    Path (loadActivePlugins create s types).connections CHANNEL_ONE INPUT OUTPUT ∧
    Path (loadActivePlugins create s types).connections CHANNEL_TWO INPUT OUTPUT := by
  rw [loadActivePlugins_connections]
  exact ⟨wireChain_path CHANNEL_ONE (Or.inl rfl) _ INPUT,
    wireChain_path CHANNEL_TWO (Or.inr rfl) _ INPUT⟩

/-- C3 (linear wiring): the connections built by `loadActivePlugins` are exactly
INPUT -> n1 -> ... -> nk -> OUTPUT on both channels, n1..nk being the nodes of the
resolved entries that instantiate and are not bypassed (INPUT -> OUTPUT when there is
none); the empty chain gives INPUT -> OUTPUT; the chain A, B, C is wired
INPUT -> 1 -> 2 -> 3 -> OUTPUT and, with B bypassed, INPUT -> 1 -> 3 -> OUTPUT; with
all three bypassed, or none instantiating, it is wired INPUT -> OUTPUT. -/
theorem linear_wiring :
    (∀ (create : CreatePluginInstance) (s : PropertySet) (types : List PluginDescription),
      (loadActivePlugins create s types).connections =
        wireChain INPUT (wiredNodes create s 1 (getTimeSortedList s types))) ∧
    (∀ (create : CreatePluginInstance) (s : PropertySet),
      (loadActivePlugins create s []).connections = link INPUT OUTPUT) ∧
    (loadActivePlugins exCreate exChainABC.settings exChainABC.activePluginList).connections =
      link INPUT 1 ++ link 1 2 ++ link 2 3 ++ link 3 OUTPUT ∧
    (loadActivePlugins exCreate
      (setValue exChainABC.settings (getKey "bypass" exB) (Var.bool true))
      exChainABC.activePluginList).connections =
      link INPUT 1 ++ link 1 3 ++ link 3 OUTPUT ∧
    (loadActivePlugins exCreate
      (setValue (setValue (setValue exChainABC.settings (getKey "bypass" exA) (Var.bool true))
        (getKey "bypass" exB) (Var.bool true)) (getKey "bypass" exC) (Var.bool true))
      exChainABC.activePluginList).connections = link INPUT OUTPUT ∧
    (loadActivePlugins (fun _ _ => none) exChainABC.settings
      exChainABC.activePluginList).connections = link INPUT OUTPUT := by
  refine ⟨loadActivePlugins_connections, ?_, by decide, by decide, by decide, by decide⟩
  intro create s
  rw [loadActivePlugins_connections]
  rfl

/-- C4 (move inverse), evaluated on the code: in the chain a, B, A (positions 1, 2, 3)
the keys are pairwise distinct texts and the positions distinct and positive.  The menu
offers "Move Up" of index 2 and then "Move Down" of index 1 as enabled items; after the
two operations `getTimeSortedList` is A, B and an empty description, not a, B, A.  The
move loop compares keys with `equalsIgnoreCase`, so move up of A treats "a" as the moved
entry too and stores position 0 for it, and the entry leaves the resolved order. -/
theorem moveUp_moveDown_not_inverse_case_variants :
    DistinctKeyTexts exChainCase.activePluginList ∧
    DistinctPositions exChainCase.settings exChainCase.activePluginList ∧
    PositivePositions exChainCase.settings exChainCase.activePluginList ∧
    exChainCase.getTimeSortedList = [exLowerA, exB, exA] ∧
    ({ itemResultID := INDEX_MOVE_UP + 2, isEnabled := true, isTicked := false } : MenuItem)
      ∈ exChainCase.timerCallback ∧
    (selectMenuItem exCreate 0 (INDEX_MOVE_UP + 2) exChainCase).getTimeSortedList
      = [exA, exB, PluginDescription.empty] ∧
    ({ itemResultID := INDEX_MOVE_DOWN + 1, isEnabled := true, isTicked := false } : MenuItem)
      ∈ (selectMenuItem exCreate 0 (INDEX_MOVE_UP + 2) exChainCase).timerCallback ∧
    (selectMenuItem exCreate 0 (INDEX_MOVE_DOWN + 1)
      (selectMenuItem exCreate 0 (INDEX_MOVE_UP + 2) exChainCase)).getTimeSortedList
      = [exA, exB, PluginDescription.empty] ∧
    (moveDown exCreate 1 (moveUp exCreate 2 exChainCase)).getTimeSortedList
      = [exA, exB, PluginDescription.empty] := by
  decide

/-- The move inverse where no two keys differ in letter case only: on a chain whose keys
are pairwise distinct ignoring letter case and whose positions are pairwise distinct
positive `int`s, for 0 < i < n, move up of index i followed by move down of index i - 1
leaves `getTimeSortedList` as it was before the two operations. -/
theorem moveUp_then_moveDown_restores (create create2 : CreatePluginInstance) (im : IconMenu)
    (i : Nat) (h : WellFormedChain im.settings im.activePluginList)
    (hi0 : 0 < i) (hi : i < im.activePluginList.length) :
    (moveDown create2 (i - 1) (moveUp create i im)).getTimeSortedList = im.getTimeSortedList := by
  have hlen : (i - 1) + 1 < im.getTimeSortedList.length := by
    rw [IconMenu.getTimeSortedList, length_getTimeSortedList]; omega
  obtain ⟨pre, w, x, post, hold, hpre⟩ := split_at_pair im.getTimeSortedList (i - 1) hlen
  have hi1 : i = pre.length + 1 := by omega
  obtain ⟨hact, hnum, hres⟩ := moveUp_resolved create im pre post w x h hold
  rw [← hi1] at hact hnum hres
  have hperm : (pre ++ x :: w :: post).Perm (moveUp create i im).activePluginList := by
    have := length_getTimeSortedList im.settings im.activePluginList
    have hp := (wellFormed_sorted _ _ h
      (fun _ => exists_low_of_two _ _ h.2.1 h.2.2.1 (by omega))).1
    rw [hact]
    refine List.Perm.trans (List.Perm.append_left pre (List.Perm.swap w x post)) ?_
    have hold2 : getTimeSortedList im.settings im.activePluginList = pre ++ w :: x :: post := hold
    rw [← hold2]
    exact hp
  have hwf : WellFormedChain (moveUp create i im).settings (moveUp create i im).activePluginList :=
    wellFormed_of_numbered _ _ _ hperm hnum (by rw [hact]; exact h.1) (by rw [hact]; exact h.2.2.2)
  have := (moveDown_resolved create2 (moveUp create i im) pre post x w hwf hres).2.2
  rw [← hpre, this, hold]

/-- The move inverse at work: the chain A, B, C (positions 10, 20, 35), move up of index
1 and then move down of index 0. -/
theorem moveUp_then_moveDown_restores_witness :
    WellFormedChain exChainABC.settings exChainABC.activePluginList ∧
    0 < 1 ∧ 1 < exChainABC.activePluginList.length ∧
    (moveDown exCreate 0 (moveUp exCreate 1 exChainABC)).getTimeSortedList =
      exChainABC.getTimeSortedList :=
  ⟨by decide, by decide, by decide,
    moveUp_then_moveDown_restores exCreate exCreate exChainABC 1 (by decide) (by decide)
      (by decide)⟩

/-- C6 (MoveDown boundary): on every non-empty chain of length n (with at most 997000
known plugins, so that every menu id lies in its own range) the "Move Down" item of
index n - 1 is in the menu and is disabled, no enabled item of the menu has its id, and
the MoveDown operation applied to index n - 1 through the menu leaves the chain, hence
`getTimeSortedList`, as it was; the move-down branch itself leaves `getTimeSortedList`
as it was at that index when the keys are pairwise distinct ignoring letter case and the
positions pairwise distinct positive `int`s, the lowest below `INT_MAX`. -/
theorem moveDown_last_not_offered (create : CreatePluginInstance) (now : Int) (im : IconMenu)
    (hk : im.knownPluginList.length ≤ 997000) :
    (im.menuIconLeftClicked = true → im.activePluginList ≠ [] →
      ({ itemResultID := INDEX_MOVE_DOWN + ((im.activePluginList.length - 1 : Nat) : Int),
         isEnabled := false, isTicked := false } : MenuItem) ∈ im.timerCallback) ∧
    (∀ item ∈ im.timerCallback, item.isEnabled = true →
      item.itemResultID ≠ INDEX_MOVE_DOWN + ((im.activePluginList.length - 1 : Nat) : Int)) ∧
    selectMenuItem create now
      (INDEX_MOVE_DOWN + ((im.activePluginList.length - 1 : Nat) : Int)) im = im ∧
    (selectMenuItem create now
      (INDEX_MOVE_DOWN + ((im.activePluginList.length - 1 : Nat) : Int)) im).getTimeSortedList =
      im.getTimeSortedList ∧
    (WellFormedChain im.settings im.activePluginList →
      (∃ p ∈ im.activePluginList, position im.settings p < INT_MAX) →
      im.activePluginList ≠ [] →
      (moveDown create (im.activePluginList.length - 1) im).getTimeSortedList =
        im.getTimeSortedList) := by
  have hno : ∀ item ∈ im.timerCallback, item.isEnabled = true →
      item.itemResultID ≠
        INDEX_MOVE_DOWN + ((im.activePluginList.length - 1 : Nat) : Int) := by
    intro item hmem hen heq
    have hE : INDEX_EDIT = 1000000 := rfl
    have hB : INDEX_BYPASS = 2000000 := rfl
    have hD : INDEX_DELETE = 3000000 := rfl
    have hU : INDEX_MOVE_UP = 4000000 := rfl
    have hM : INDEX_MOVE_DOWN = 5000000 := rfl
    rw [hM] at heq
    rcases enabled_item_ids im item hmem hen with h | h | h | ⟨i, hi, h | h | ⟨h, h0⟩ | ⟨h, _⟩ | h⟩ |
      ⟨j, hj, h⟩
    all_goals rw [h] at heq
    all_goals first | rw [hE] at heq | rw [hB] at heq | rw [hD] at heq | rw [hU] at heq
                    | rw [hM] at heq | skip
    all_goals omega
  have hsame := selectMenuItem_of_not_enabled create now _ im hno
  refine ⟨?_, hno, hsame, by rw [hsame], ?_⟩
  · intro hleft hne
    have hpos : 0 < im.activePluginList.length := List.length_pos.mpr hne
    have := (move_items_mem im (im.activePluginList.length - 1) hleft (by omega)).2
    simpa using this
  · intro h hlow hne
    have hne2 : im.getTimeSortedList ≠ [] := by
      intro h0
      have := congrArg List.length h0
      rw [IconMenu.getTimeSortedList, length_getTimeSortedList] at this
      exact hne (List.length_eq_zero.mp this)
    obtain ⟨pre, x, hold, hpre⟩ := split_at_last im.getTimeSortedList hne2
    rw [IconMenu.getTimeSortedList, length_getTimeSortedList] at hpre
    rw [← hpre, moveDown_last_resolved create im pre x h hlow hold, hold]

/-- The move-down boundary at work: the chain A, B, C, whose last index is 2. -/
theorem moveDown_last_not_offered_witness :
    exChainABC.knownPluginList.length ≤ 997000 ∧
    ((exChainABC.menuIconLeftClicked = true → exChainABC.activePluginList ≠ [] →
      ({ itemResultID := INDEX_MOVE_DOWN + ((exChainABC.activePluginList.length - 1 : Nat) : Int),
         isEnabled := false, isTicked := false } : MenuItem) ∈ exChainABC.timerCallback) ∧
    (∀ item ∈ exChainABC.timerCallback, item.isEnabled = true →
      item.itemResultID ≠
        INDEX_MOVE_DOWN + ((exChainABC.activePluginList.length - 1 : Nat) : Int)) ∧
    selectMenuItem exCreate 0
      (INDEX_MOVE_DOWN + ((exChainABC.activePluginList.length - 1 : Nat) : Int)) exChainABC
        = exChainABC ∧
    (selectMenuItem exCreate 0
      (INDEX_MOVE_DOWN + ((exChainABC.activePluginList.length - 1 : Nat) : Int))
        exChainABC).getTimeSortedList = exChainABC.getTimeSortedList ∧
    (WellFormedChain exChainABC.settings exChainABC.activePluginList →
      (∃ p ∈ exChainABC.activePluginList, position exChainABC.settings p < INT_MAX) →
      exChainABC.activePluginList ≠ [] →
      (moveDown exCreate (exChainABC.activePluginList.length - 1) exChainABC).getTimeSortedList =
        exChainABC.getTimeSortedList)) ∧
    WellFormedChain exChainABC.settings exChainABC.activePluginList ∧
    (moveDown exCreate 2 exChainABC).getTimeSortedList = [exA, exB, exC] :=
  ⟨by decide, moveDown_last_not_offered exCreate 0 exChainABC (by decide), by decide, by decide⟩

/-- C7 (move down swaps with the successor), evaluated on the code: in the chain a, A, C
(positions 1, 2, 3) the keys are pairwise distinct texts and the positions distinct and
positive.  The menu offers "Move Down" of index 1 (the plugin A) as an enabled item;
after it `getTimeSortedList` is A, a, C, not a, C, A.  The move loop compares keys with
`equalsIgnoreCase`, so it takes the entry "a" of rank 0 for the one to move. -/
theorem moveDown_not_swap_case_variants :
    DistinctKeyTexts exChainCase3.activePluginList ∧
    DistinctPositions exChainCase3.settings exChainCase3.activePluginList ∧
    PositivePositions exChainCase3.settings exChainCase3.activePluginList ∧
    1 + 1 < exChainCase3.activePluginList.length ∧
    exChainCase3.getTimeSortedList = [exLowerA, exA, exC] ∧
    ({ itemResultID := INDEX_MOVE_DOWN + 1, isEnabled := true, isTicked := false } : MenuItem)
      ∈ exChainCase3.timerCallback ∧
    (selectMenuItem exCreate 0 (INDEX_MOVE_DOWN + 1) exChainCase3).getTimeSortedList
      = [exA, exLowerA, exC] ∧
    (moveDown exCreate 1 exChainCase3).getTimeSortedList = [exA, exLowerA, exC] := by
  decide

/-- Move down swaps with the successor where no two keys differ in letter case only: on
a chain whose keys are pairwise distinct ignoring letter case and whose positions are
pairwise distinct positive `int`s, for 0 <= i < n - 1, the resolved order after move
down of index i is the previous one with the entries at ranks i and i + 1 exchanged and
every other entry at its previous rank. -/
theorem moveDown_swaps_successor (create : CreatePluginInstance) (im : IconMenu) (i : Nat)
    (h : WellFormedChain im.settings im.activePluginList)
    (hi : i + 1 < im.activePluginList.length) :
    ∃ pre x y post, pre.length = i ∧
      im.getTimeSortedList = pre ++ x :: y :: post ∧
      (moveDown create i im).getTimeSortedList = pre ++ y :: x :: post := by
  have hlen : i + 1 < im.getTimeSortedList.length := by
    rw [IconMenu.getTimeSortedList, length_getTimeSortedList]; exact hi
  obtain ⟨pre, x, y, post, hold, hpre⟩ := split_at_pair im.getTimeSortedList i hlen
  refine ⟨pre, x, y, post, hpre, hold, ?_⟩
  rw [← hpre]
  exact (moveDown_resolved create im pre post x y h hold).2.2

/-- The move-down swap at work: move down of index 0 on the chain A, B, C, which
resolves to B, A, C. -/
theorem moveDown_swaps_successor_witness :
    WellFormedChain exChainABC.settings exChainABC.activePluginList ∧
    0 + 1 < exChainABC.activePluginList.length ∧
    (∃ pre x y post, pre.length = 0 ∧
      exChainABC.getTimeSortedList = pre ++ x :: y :: post ∧
      (moveDown exCreate 0 exChainABC).getTimeSortedList = pre ++ y :: x :: post) ∧
    (moveDown exCreate 0 exChainABC).getTimeSortedList = [exB, exA, exC] :=
  ⟨by decide, by decide,
    moveDown_swaps_successor exCreate exChainABC 0 (by decide) (by decide), by decide⟩

/-- C8 (move up swaps with the predecessor), evaluated on the code: in the chain
a, B, A (positions 1, 2, 3) the keys are pairwise distinct texts and the positions
distinct and positive.  The menu offers "Move Up" of index 2 (the plugin A) as an
enabled item; after it the entry "a" of rank 0 has the stored position 0 and
`getTimeSortedList` is A, B and an empty description, not a, A, B.  The move loop
compares keys with `equalsIgnoreCase`, so it treats "a" as the moved entry too. -/
theorem moveUp_not_swap_case_variants :
    DistinctKeyTexts exChainCase.activePluginList ∧
    DistinctPositions exChainCase.settings exChainCase.activePluginList ∧
    PositivePositions exChainCase.settings exChainCase.activePluginList ∧
    2 < exChainCase.activePluginList.length ∧
    exChainCase.getTimeSortedList = [exLowerA, exB, exA] ∧
    ({ itemResultID := INDEX_MOVE_UP + 2, isEnabled := true, isTicked := false } : MenuItem)
      ∈ exChainCase.timerCallback ∧
    (selectMenuItem exCreate 0 (INDEX_MOVE_UP + 2) exChainCase).getTimeSortedList
      = [exA, exB, PluginDescription.empty] ∧
    position (selectMenuItem exCreate 0 (INDEX_MOVE_UP + 2) exChainCase).settings exLowerA = 0 ∧
    (moveUp exCreate 2 exChainCase).getTimeSortedList = [exA, exB, PluginDescription.empty] ∧
    position (moveUp exCreate 2 exChainCase).settings exLowerA = 0 := by
  decide

theorem swap_getElem_opt (pre post : List PluginDescription) (a b : PluginDescription) (r : Nat)
    (h1 : r ≠ pre.length) (h2 : r ≠ pre.length + 1) :
    (pre ++ a :: b :: post)[r]? = (pre ++ b :: a :: post)[r]? := by
  by_cases hr : r < pre.length
  · rw [List.getElem?_append_left hr, List.getElem?_append_left hr]
  · rw [List.getElem?_append_right (by omega), List.getElem?_append_right (by omega)]
    obtain ⟨k, hk⟩ : ∃ k, r - pre.length = k + 2 := ⟨r - pre.length - 2, by omega⟩
    rw [hk]
    rfl

/-- Move up swaps with the predecessor where no two keys differ in letter case only: on
a chain whose keys are pairwise distinct ignoring letter case and whose positions are
pairwise distinct positive `int`s, for 0 < i < n, after move up of index i the moved
entry has stored position i, its former predecessor i + 1, every other entry at rank r
has r + 1, and the resolved order is the previous one with the entries at ranks i - 1
and i exchanged. -/
theorem moveUp_swaps_predecessor (create : CreatePluginInstance) (im : IconMenu) (i : Nat)
    (h : WellFormedChain im.settings im.activePluginList)
    (hi0 : 0 < i) (hi : i < im.activePluginList.length) :
    ∃ pre w x post, pre.length + 1 = i ∧
      im.getTimeSortedList = pre ++ w :: x :: post ∧
      (moveUp create i im).getTimeSortedList = pre ++ x :: w :: post ∧
      position (moveUp create i im).settings x = i ∧
      position (moveUp create i im).settings w = (i : Int) + 1 ∧
      ∀ (r : Nat) (p : PluginDescription), r ≠ i - 1 → r ≠ i →
        im.getTimeSortedList[r]? = some p →
        position (moveUp create i im).settings p = (r : Int) + 1 := by
  have hlen : (i - 1) + 1 < im.getTimeSortedList.length := by
    rw [IconMenu.getTimeSortedList, length_getTimeSortedList]; omega
  obtain ⟨pre, w, x, post, hold, hpre⟩ := split_at_pair im.getTimeSortedList (i - 1) hlen
  have hi1 : i = pre.length + 1 := by omega
  obtain ⟨_, hnum, hres⟩ := moveUp_resolved create im pre post w x h hold
  rw [← hi1] at hnum hres
  refine ⟨pre, w, x, post, hi1.symm, hold, hres, ?_, ?_, ?_⟩
  · have := numbered_lookup _ hnum pre.length x (by
      rw [List.getElem?_append_right (le_refl _)]; simp)
    rw [this, hi1]; push_cast; rfl
  · have := numbered_lookup _ hnum (pre.length + 1) w (by
      rw [List.getElem?_append_right (by omega)]; simp)
    rw [this, hi1]
  · intro r p hr1 hr2 hp
    rw [hold, swap_getElem_opt pre post w x r (by omega) (by omega)] at hp
    exact numbered_lookup _ hnum r p hp

/-- The move-up swap at work: the chain A, B, C, move up of index 2. -/
theorem moveUp_swaps_predecessor_witness :
    WellFormedChain exChainABC.settings exChainABC.activePluginList ∧
    0 < 2 ∧ 2 < exChainABC.activePluginList.length ∧
    ∃ pre w x post, pre.length + 1 = 2 ∧
      exChainABC.getTimeSortedList = pre ++ w :: x :: post ∧
      (moveUp exCreate 2 exChainABC).getTimeSortedList = pre ++ x :: w :: post ∧
      position (moveUp exCreate 2 exChainABC).settings x = (2 : Nat) ∧
      position (moveUp exCreate 2 exChainABC).settings w = ((2 : Nat) : Int) + 1 ∧
      ∀ (r : Nat) (p : PluginDescription), r ≠ 2 - 1 → r ≠ 2 →
        exChainABC.getTimeSortedList[r]? = some p →
        position (moveUp exCreate 2 exChainABC).settings p = (r : Int) + 1 :=
  ⟨by decide, by decide, by decide,
    moveUp_swaps_predecessor exCreate exChainABC 2 (by decide) (by decide) (by decide)⟩

/-- C9 (deletion purges metadata), evaluated on the code: the chain a, A (positions 1, 2;
active list A, a) has one order entry per member, distinct key texts and distinct
positive positions.  The menu offers "Delete" of index 0 (the plugin "a") as an enabled
item; after it the order entry of "a" is removed but "a" is still a member of the
active list, the other member "A" is removed from the list while its order entry stays,
and `getTimeSortedList` is one empty description.  The branch looks the list entry up
with `equalsIgnoreCase` on keys and removes the first match, which is "A". -/
theorem delete_removes_other_member_case_variants :
    DistinctKeyTexts exChainCase2.activePluginList ∧
    DistinctPositions exChainCase2.settings exChainCase2.activePluginList ∧
    PositivePositions exChainCase2.settings exChainCase2.activePluginList ∧
    NoDuplicates exChainCase2.activePluginList ∧
    exChainCase2.activePluginList = [exA, exLowerA] ∧
    exChainCase2.getTimeSortedList = [exLowerA, exA] ∧
    ({ itemResultID := INDEX_DELETE + 0, isEnabled := true, isTicked := false } : MenuItem)
      ∈ exChainCase2.timerCallback ∧
    (selectMenuItem exCreate 0 (INDEX_DELETE + 0) exChainCase2).activePluginList = [exLowerA] ∧
    (selectMenuItem exCreate 0 (INDEX_DELETE + 0) exChainCase2).settings
      (getKey "order" exLowerA) = none ∧
    (selectMenuItem exCreate 0 (INDEX_DELETE + 0) exChainCase2).settings
      (getKey "order" exA) = some (Var.int 2) ∧
    (selectMenuItem exCreate 0 (INDEX_DELETE + 0) exChainCase2).getTimeSortedList
      = [PluginDescription.empty] ∧
    (deletePlugin exCreate 0 exChainCase2).activePluginList = [exLowerA] := by
  decide

/-- Deletion purges metadata where no two keys differ in letter case only: on a chain
whose keys are pairwise distinct ignoring letter case, whose positions are pairwise
distinct, positive and below `INT_MAX`, and whose active list holds no two duplicates,
after "Delete" of an in-range index i the store holds no order, bypass or state entry
under the key of the plugin P that was at resolved index i, P is no longer in the
active list, every other member still is, and `getTimeSortedList` does not contain P. -/
theorem delete_purges_metadata (create : CreatePluginInstance) (im : IconMenu) (i : Nat)
    (h : WellFormedChain im.settings im.activePluginList)
    (hdup : NoDuplicates im.activePluginList)
    (hmax : ∀ p ∈ im.activePluginList, position im.settings p < INT_MAX)
    (hi : i < im.activePluginList.length) :
    let P := im.getTimeSortedList.getD i default
    let after := deletePlugin create i im
    P ∈ im.activePluginList ∧
    after.settings (getKey "order" P) = none ∧
    after.settings (getKey "bypass" P) = none ∧
    after.settings (getKey "state" P) = none ∧
    P ∉ after.activePluginList ∧
    (∀ Q ∈ im.activePluginList, Q ≠ P → Q ∈ after.activePluginList) ∧
    P ∉ after.getTimeSortedList :=
  deletePlugin_spec create im i h hdup hmax hi

/-- The deletion property at work: "Delete" of index 1 (plugin B) on the chain
A, B, C. -/
theorem delete_purges_metadata_witness :
    WellFormedChain exChainABC.settings exChainABC.activePluginList ∧
    NoDuplicates exChainABC.activePluginList ∧
    (∀ p ∈ exChainABC.activePluginList, position exChainABC.settings p < INT_MAX) ∧
    1 < exChainABC.activePluginList.length ∧
    (let P := exChainABC.getTimeSortedList.getD 1 default
     let after := deletePlugin exCreate 1 exChainABC
     P ∈ exChainABC.activePluginList ∧
     after.settings (getKey "order" P) = none ∧
     after.settings (getKey "bypass" P) = none ∧
     after.settings (getKey "state" P) = none ∧
     P ∉ after.activePluginList ∧
     (∀ Q ∈ exChainABC.activePluginList, Q ≠ P → Q ∈ after.activePluginList) ∧
     P ∉ after.getTimeSortedList) :=
  ⟨by decide, by decide, by decide, by decide,
    delete_purges_metadata exCreate exChainABC 1 (by decide) (by decide) (by decide)
      (by decide)⟩

/-- C10 (state captured across deletion), evaluated on the code: on the chain A, B, C
whose live nodes 1, 2, 3 hold the states [1], [2], [3], "Delete" of index 0 leaves
under the state key of B the state [1] of the node of A and under the state key of C
the state [2] of the node of B, and the rebuilt node of B starts from [1]. -/
theorem delete_shifts_saved_states :
    exChainABC.getTimeSortedList = [exA, exB, exC] ∧
    exChainABC.graph.getNodeForId 1 = some ⟨1, Processor.plugin exA [1]⟩ ∧
    exChainABC.graph.getNodeForId 2 = some ⟨2, Processor.plugin exB [2]⟩ ∧
    exChainABC.graph.getNodeForId 3 = some ⟨3, Processor.plugin exC [3]⟩ ∧
    (menuInvocationCallback exCreate 0 3000000 exChainABC).getTimeSortedList = [exB, exC] ∧
    getStateValue (menuInvocationCallback exCreate 0 3000000 exChainABC).settings
      (getKey "state" exB) = [1] ∧
    getStateValue (menuInvocationCallback exCreate 0 3000000 exChainABC).settings
      (getKey "state" exC) = [2] ∧
    (menuInvocationCallback exCreate 0 3000000 exChainABC).graph.getNodeForId 1
      = some ⟨1, Processor.plugin exB [1]⟩ := by
  decide
/-- C11 as stated fails: with A active at position 10, "Add B" (clock value 5, so that B
resolves first), live state [9] set on the node of B, "Delete A", "Delete B", "Add B"
(clock value 200).  After "Delete A" the state [9] is stored under the state key of B;
"Delete B" removes that entry, and the instance of B rebuilt by the last "Add B" has the
state [2] it was created with, not [9]. -/
theorem delete_purges_state_before_add :
    exB ∉ exSurvival0.activePluginList ∧
    exA ∈ exSurvival0.activePluginList ∧
    exSurvival1.getTimeSortedList = [exB, exA] ∧
    exSurvival2.graph.getNodeForId 1 = some ⟨1, Processor.plugin exB [9]⟩ ∧
    exSurvival3.getTimeSortedList = [exB] ∧
    exSurvival3.settings (getKey "state" exB) = some (Var.blob [9]) ∧
    exSurvival4.getTimeSortedList = [] ∧
    exSurvival4.settings (getKey "state" exB) = none ∧
    exSurvival5.getTimeSortedList = [exB] ∧
    exSurvival5.graph.getNodeForId 1 = some ⟨1, Processor.plugin exB [2]⟩ ∧
    exSurvival5.settings (getKey "state" exB) = none := by
  decide

/-- C11 (state survival), as amended: let the active entries and a known plugin P that
is not active have keys that are pairwise distinct ignoring letter case, no two of them
duplicates, and let the active entries have pairwise distinct positive positions.  For
every active Q, the sequence Add(P) at a clock value no entry holds, live state set on
the node of P, Delete(Q), Delete(P), Add(P) at a later clock value above every stored
position ends with P in the resolved order, no entry stored under the plugin-state- key
of P, and the rebuilt instance of P holding the state it was created with: Delete(P)
removes the entry, so the live state is not restored. -/
theorem delete_then_add_starts_fresh (c1 c2 c3 c4 : CreatePluginInstance) (now1 now2 : Int)
    (im : IconMenu) (k : Nat) (Q : PluginDescription) (live : MemoryBlock)
    (hk : k < im.knownPluginList.length)
    (hdup : NoDuplicates (im.knownPluginList.getD k default :: im.activePluginList))
    (hkey : DistinctKeys (im.knownPluginList.getD k default :: im.activePluginList))
    (hd : DistinctPositions im.settings im.activePluginList)
    (hp : PositivePositions im.settings im.activePluginList)
    (hQ : Q ∈ im.activePluginList)
    (h1pos : 0 < now1)
    (h1 : ∀ q ∈ im.activePluginList, position im.settings q ≠ now1)
    (h12 : now1 < now2)
    (h2 : ∀ q ∈ im.activePluginList, position im.settings q < now2)
    (h2max : now2 < INT_MAX)
    (hn : im.activePluginList.length + 1 < INPUT) :
    let P := im.knownPluginList.getD k default
    let im1 := addPlugin c1 now1 k im
    let r1 := im1.getTimeSortedList.indexOf P
    let im2 : IconMenu := { im1 with graph := im1.graph.setLiveState (r1 + 1) live }
    let im3 := deletePlugin c2 (im2.getTimeSortedList.indexOf Q) im2
    let im4 := deletePlugin c3 (im3.getTimeSortedList.indexOf P) im3
    let im5 := addPlugin c4 now2 k im4
    let r5 := im5.getTimeSortedList.indexOf P
    im2.graph.getNodeForId (r1 + 1) =
      (c1 (r1 + 1) P).map (fun _ => ⟨r1 + 1, Processor.plugin P live⟩) ∧
    P ∈ im5.getTimeSortedList ∧
    im5.settings (getKey "state" P) = none ∧
    im5.graph.getNodeForId (r5 + 1) =
      (c4 (r5 + 1) P).map (fun fresh => ⟨r5 + 1, Processor.plugin P fresh⟩) := by
  intro P im1 r1 im2 im3 im4 im5 r5
  obtain ⟨hkP, _⟩ := List.pairwise_cons.mp hkey
  obtain ⟨hdP, _⟩ := List.pairwise_cons.mp hdup
  obtain ⟨hknown1, hlist1, hgraph1, hposP1, hpos1⟩ := addPlugin_shape c1 now1 k im hk
    (fun q hq => by rw [isDuplicateOf_comm]; exact hdP q hq)
    (fun q hq => (ne_of_equalsIgnoreCase_false (hkP q hq)).symm)
  have hINPUT : INPUT = 1000000 := rfl
  have hMAX : INT_MAX = 2147483647 := rfl
  have hPmem1 : P ∈ im1.activePluginList := by rw [hlist1]; exact List.mem_cons_self _ _
  -- the chain after the first Add
  have hwf1 : WellFormedChain im1.settings im1.activePluginList := by
    rw [hlist1]
    refine ⟨hkey, List.pairwise_cons.mpr ⟨fun q hq => ?_, hd.imp_of_mem
      (fun {a b} ha hb hab => by rw [hpos1 a ha, hpos1 b hb]; exact hab)⟩, ?_, ?_⟩
    · rw [hposP1, hpos1 q hq]; exact (h1 q hq).symm
    · intro p hp1
      rcases List.mem_cons.mp hp1 with hp1 | hp1
      · rw [hp1, hposP1]; exact ⟨h1pos, le_of_lt (lt_trans h12 h2max)⟩
      · rw [hpos1 p hp1]; exact hp p hp1
    · rw [hMAX]; rw [hINPUT] at hn
      simp only [List.length_cons]; push_cast; omega
  have hdup1 : NoDuplicates im1.activePluginList := by rw [hlist1]; exact hdup
  have hbelow1 : ∀ p ∈ im1.activePluginList, position im1.settings p < now2 := by
    intro p hp1
    rw [hlist1] at hp1
    rcases List.mem_cons.mp hp1 with hp1 | hp1
    · rw [hp1, hposP1]; exact h12
    · rw [hpos1 p hp1]; exact h2 p hp1
  have hmax1 : ∀ p ∈ im1.activePluginList, position im1.settings p < INT_MAX :=
    fun p hp1 => lt_trans (hbelow1 p hp1) h2max
  have hperm1 : im1.getTimeSortedList.Perm im1.activePluginList :=
    (getTimeSortedList_sorted im1.settings im1.activePluginList hwf1.2.1 hwf1.2.2.1
      (fun _ => ⟨P, hPmem1, hmax1 P hPmem1⟩)).1
  have hlen1 : im1.getTimeSortedList.length = im1.activePluginList.length :=
    length_getTimeSortedList _ _
  obtain ⟨hr1, hgetP1⟩ := getD_indexOf im1.getTimeSortedList P (hperm1.mem_iff.mpr hPmem1)
  have hlen1b : im1.activePluginList.length = im.activePluginList.length + 1 := by
    rw [hlist1]; rfl
  -- the live state is on the node of P
  have hpart1 : im2.graph.getNodeForId (r1 + 1) =
      (c1 (r1 + 1) P).map (fun _ => ⟨r1 + 1, Processor.plugin P live⟩) := by
    show (im1.graph.setLiveState (r1 + 1) live).getNodeForId (r1 + 1) = _
    have hnode := (loadActivePlugins_nodes c1 im1.settings im1.activePluginList
      (by rw [hlen1b]; exact hn)).1 r1 (by rw [← hlen1]; exact hr1)
    have hgetP1b : (getTimeSortedList im1.settings im1.activePluginList).getD r1 default = P :=
      hgetP1
    rw [hgetP1b] at hnode
    rw [getNodeForId_setLiveState, hgraph1, hnode]
    cases c1 (r1 + 1) P <;> simp
  -- Delete(Q)
  have hQmem2 : Q ∈ im2.activePluginList := by
    show Q ∈ im1.activePluginList
    rw [hlist1]; exact List.mem_cons_of_mem _ hQ
  obtain ⟨hj, hgetQ⟩ := getD_indexOf im2.getTimeSortedList Q (hperm1.mem_iff.mpr hQmem2)
  obtain ⟨hknown3, _, hsub3, hmem3, hpos3⟩ := deletePlugin_shape c2 im2
    (im2.getTimeSortedList.indexOf Q) hwf1 hdup1 hmax1 (lt_of_lt_of_eq hj hlen1)
  rw [hgetQ] at hmem3
  have hPQ : P ≠ Q := by
    intro e
    have := hdP Q hQ
    rw [← e, isDuplicateOf_self] at this
    exact Bool.noConfusion this
  have hPmem3 : P ∈ im3.activePluginList := (hmem3 P).mpr ⟨hPmem1, hPQ⟩
  have hwf3 : WellFormedChain im3.settings im3.activePluginList :=
    ⟨hwf1.1.sublist hsub3,
     (hwf1.2.1.sublist hsub3).imp_of_mem
       (fun {a b} ha hb hab => by rw [hpos3 a ha, hpos3 b hb]; exact hab),
     fun p hp3 => by rw [hpos3 p hp3]; exact hwf1.2.2.1 p (hsub3.subset hp3),
     lt_of_le_of_lt (by exact_mod_cast hsub3.length_le) hwf1.2.2.2⟩
  have hdup3 : NoDuplicates im3.activePluginList := hdup1.sublist hsub3
  have hbelow3 : ∀ p ∈ im3.activePluginList, position im3.settings p < now2 :=
    fun p hp3 => by rw [hpos3 p hp3]; exact hbelow1 p (hsub3.subset hp3)
  have hmax3 : ∀ p ∈ im3.activePluginList, position im3.settings p < INT_MAX :=
    fun p hp3 => lt_trans (hbelow3 p hp3) h2max
  have hperm3 : im3.getTimeSortedList.Perm im3.activePluginList :=
    (getTimeSortedList_sorted im3.settings im3.activePluginList hwf3.2.1 hwf3.2.2.1
      (fun _ => ⟨P, hPmem3, hmax3 P hPmem3⟩)).1
  have hlen3 : im3.getTimeSortedList.length = im3.activePluginList.length :=
    length_getTimeSortedList _ _
  obtain ⟨hr3, hgetP3⟩ := getD_indexOf im3.getTimeSortedList P (hperm3.mem_iff.mpr hPmem3)
  have hk3 : k < im3.knownPluginList.length := by
    rw [hknown3]
    show k < im1.knownPluginList.length
    rw [hknown1]; exact hk
  have hPeq3 : im3.knownPluginList.getD k default =
      im3.getTimeSortedList.getD (im3.getTimeSortedList.indexOf P) default := by
    rw [hgetP3, hknown3]
    show im1.knownPluginList.getD k default = P
    rw [hknown1]
  have hn3 : im3.activePluginList.length < INPUT :=
    lt_of_le_of_lt hsub3.length_le (by
      show im1.activePluginList.length < INPUT
      rw [hlen1b]; exact hn)
  -- Delete(P), Add(P)
  obtain ⟨_, hstate5, hres5, hnode5⟩ := deletePlugin_addPlugin_fresh c3 c4 now2 im3
    (im3.getTimeSortedList.indexOf P) k hwf3 hdup3 hmax3 (lt_of_lt_of_eq hr3 hlen3) hk3 hPeq3
    hbelow3 h2max hn3
  have hPnot4 := (deletePlugin_spec c3 im3 (im3.getTimeSortedList.indexOf P) hwf3 hdup3 hmax3
    (lt_of_lt_of_eq hr3 hlen3)).2.2.2.2.2.2
  rw [hgetP3] at hstate5 hres5 hnode5 hPnot4
  have hres5b : im5.getTimeSortedList = im4.getTimeSortedList ++ [P] := hres5
  have hlen5 : im5.getTimeSortedList.length = im5.activePluginList.length :=
    length_getTimeSortedList _ _
  have hr5 : r5 + 1 = im5.activePluginList.length := by
    rw [← hlen5]
    show im5.getTimeSortedList.indexOf P + 1 = _
    rw [hres5b, List.indexOf_append_of_not_mem hPnot4]
    simp
  refine ⟨hpart1, ?_, hstate5, ?_⟩
  · rw [hres5b]; simp
  · rw [hr5]; exact hnode5

/-- The amended state survival at work: A active at position 10, B added at clock
value 5, live state [9], "Delete A", "Delete B", B added again at clock value 200. -/
theorem delete_then_add_starts_fresh_witness :
    1 < exSurvival0.knownPluginList.length ∧
    NoDuplicates (exSurvival0.knownPluginList.getD 1 default :: exSurvival0.activePluginList) ∧
    DistinctKeys (exSurvival0.knownPluginList.getD 1 default :: exSurvival0.activePluginList) ∧
    DistinctPositions exSurvival0.settings exSurvival0.activePluginList ∧
    PositivePositions exSurvival0.settings exSurvival0.activePluginList ∧
    exA ∈ exSurvival0.activePluginList ∧
    (∀ q ∈ exSurvival0.activePluginList, position exSurvival0.settings q ≠ 5) ∧
    (∀ q ∈ exSurvival0.activePluginList, position exSurvival0.settings q < 200) ∧
    exSurvival0.activePluginList.length + 1 < INPUT ∧
    (let P := exSurvival0.knownPluginList.getD 1 default
     let im1 := addPlugin exCreate 5 1 exSurvival0
     let r1 := im1.getTimeSortedList.indexOf P
     let im2 : IconMenu := { im1 with graph := im1.graph.setLiveState (r1 + 1) [9] }
     let im3 := deletePlugin exCreate (im2.getTimeSortedList.indexOf exA) im2
     let im4 := deletePlugin exCreate (im3.getTimeSortedList.indexOf P) im3
     let im5 := addPlugin exCreate 200 1 im4
     let r5 := im5.getTimeSortedList.indexOf P
     im2.graph.getNodeForId (r1 + 1) =
       (exCreate (r1 + 1) P).map (fun _ => ⟨r1 + 1, Processor.plugin P [9]⟩) ∧
     P ∈ im5.getTimeSortedList ∧
     im5.settings (getKey "state" P) = none ∧
     im5.graph.getNodeForId (r5 + 1) =
       (exCreate (r5 + 1) P).map (fun fresh => ⟨r5 + 1, Processor.plugin P fresh⟩)) :=
  ⟨by decide, by decide, by decide, by decide, by decide, by decide, by decide, by decide,
    by decide,
    delete_then_add_starts_fresh exCreate exCreate exCreate exCreate 5 200 exSurvival0 1 exA [9]
      (by decide) (by decide) (by decide) (by decide) (by decide) (by decide) (by decide)
      (by decide) (by decide) (by decide) (by decide) (by decide)⟩

/-- C12 as stated fails: "Add A" on the empty chain at clock value 1700000000 stores the
position 1700000000, not 1; on the chain A, B, C, whose highest position is 35, "Add a"
stores 1700000000 at that clock value and 20 at clock value 20, not 36. -/
theorem add_stores_clock_not_maximum :
    exEmptyMenu.activePluginList = [] ∧
    position (menuInvocationCallback exCreate 1700000000 3000 exEmptyMenu).settings exA
      = 1700000000 ∧
    exChainABC.getTimeSortedList = [exA, exB, exC] ∧
    position exChainABC.settings exC = 35 ∧
    exLowerA ∉ exChainABC.activePluginList ∧
    position (menuInvocationCallback exCreate 1700000000 3003 exChainABC).settings exLowerA
      = 1700000000 ∧
    position (menuInvocationCallback exCreate 20 3003 exChainABC).settings exLowerA = 20 := by
  decide

/-- C12 (Add appends), as amended: for every chain and every known plugin index, the Add
operation stores for the added entry the clock value `time(nullptr)` it reads, whatever
positions the active entries hold. -/
theorem add_stores_clock_value (create : CreatePluginInstance) (now : Int) (index : Nat)
    (im : IconMenu) (h : index < im.knownPluginList.length) :
    position (addPlugin create now index im).settings (im.knownPluginList.getD index default)
      = now := by
  simp only [addPlugin, h, if_true, IconMenu.loadActivePlugins, IconMenu.savePluginStates]
  rw [position_savePluginStates, position_setValue_same]

/-- The amended Add at work: "Add a" on the chain A, B, C at clock value 1700000000. -/
theorem add_stores_clock_value_witness :
    3 < exChainABC.knownPluginList.length ∧
    position (addPlugin exCreate 1700000000 3 exChainABC).settings
      (exChainABC.knownPluginList.getD 3 default) = 1700000000 :=
  ⟨by decide, add_stores_clock_value exCreate 1700000000 3 exChainABC (by decide)⟩

/-- C13 (ToggleBypass frame): for every consistent chain and in-range index i, the bypass
operation negates the stored plugin-bypass- flag of the entry P at resolved index i, which
is a member, and leaves unchanged every plugin-order- entry, the bypass entry of every
other member and `activePluginList`; `getTimeSortedList` is the same before and after,
and applying the operation twice restores the original flag. -/
theorem toggleBypass_frame (create create2 : CreatePluginInstance) (im : IconMenu) (i : Nat)
    (h : ConsistentChain im.settings im.activePluginList)
    (hi : i < im.activePluginList.length) :
    let P := im.getTimeSortedList.getD i default
    let after := toggleBypass create i im
    P ∈ im.activePluginList ∧
    getBoolValue after.settings (getKey "bypass" P)
      = !getBoolValue im.settings (getKey "bypass" P) ∧
    (∀ Q : PluginDescription,
      after.settings (getKey "order" Q) = im.settings (getKey "order" Q)) ∧
    (∀ Q ∈ im.activePluginList, Q ≠ P →
      after.settings (getKey "bypass" Q) = im.settings (getKey "bypass" Q)) ∧
    after.activePluginList = im.activePluginList ∧
    after.getTimeSortedList = im.getTimeSortedList ∧
    getBoolValue (toggleBypass create2 i after).settings (getKey "bypass" P)
      = getBoolValue im.settings (getKey "bypass" P) := by
  intro P after
  obtain ⟨hact, hord, hflag, hother⟩ := toggleBypass_settings create im i
  have hperm := h.2
  have hPmem : P ∈ im.activePluginList :=
    hperm.subset (getD_mem_of_lt im.getTimeSortedList i (by
      rw [IconMenu.getTimeSortedList, length_getTimeSortedList]; exact hi))
  have hsame : after.getTimeSortedList = im.getTimeSortedList :=
    getTimeSortedList_congr _ _ _ (fun p _ => position_congr_order p (hord p))
  refine ⟨hPmem, getBoolValue_bool _ _ _ hflag, hord, ?_, hact, hsame, ?_⟩
  · intro Q hQ hQP
    apply hother Q
    exact getKey_ne_of_position_ne "bypass"
      (pairwise_forall (fun a b (hab : position im.settings a ≠ position im.settings b) => hab.symm)
        _ h.1 Q hQ P hPmem hQP)
  · obtain ⟨_, _, hflag2, _⟩ := toggleBypass_settings create2 after i
    have hP2 : after.getTimeSortedList.getD i default = P := by rw [hsame]
    rw [hP2] at hflag2
    rw [getBoolValue_bool _ _ _ hflag2, getBoolValue_bool _ _ _ hflag, Bool.not_not]

/-- The bypass frame at work: the chain A, B, C and index 1. -/
theorem toggleBypass_frame_witness :
    ConsistentChain exChainABC.settings exChainABC.activePluginList ∧
    1 < exChainABC.activePluginList.length ∧
    (let P := exChainABC.getTimeSortedList.getD 1 default
     let after := toggleBypass exCreate 1 exChainABC
     P ∈ exChainABC.activePluginList ∧
     getBoolValue after.settings (getKey "bypass" P)
       = !getBoolValue exChainABC.settings (getKey "bypass" P) ∧
     (∀ Q : PluginDescription,
       after.settings (getKey "order" Q) = exChainABC.settings (getKey "order" Q)) ∧
     (∀ Q ∈ exChainABC.activePluginList, Q ≠ P →
       after.settings (getKey "bypass" Q) = exChainABC.settings (getKey "bypass" Q)) ∧
     after.activePluginList = exChainABC.activePluginList ∧
     after.getTimeSortedList = exChainABC.getTimeSortedList ∧
     getBoolValue (toggleBypass exCreate 1 after).settings (getKey "bypass" P)
       = getBoolValue exChainABC.settings (getKey "bypass" P)) :=
  ⟨by decide, by decide, toggleBypass_frame exCreate exCreate exChainABC 1 (by decide) (by decide)⟩

/-- C14 as stated fails: in the chain A (position 0), B (position 3) the positions are
pairwise distinct, yet `getTimeSortedList` returns B and an empty description: the
floor starts at 0 and only positions above the floor are selected, so A is not returned. -/
theorem resolver_skips_position_zero :
    DistinctPositions exChainZero.settings exChainZero.activePluginList ∧
    exChainZero.activePluginList = [exA, exB] ∧
    position exChainZero.settings exA = 0 ∧
    position exChainZero.settings exB = 3 ∧
    exChainZero.getTimeSortedList = [exB, PluginDescription.empty] := by
  decide

/-- C14 (resolver order), as amended: for every `activePluginList` whose members have
pairwise distinct stored positions that are positive `int`s, the lowest of them below
`INT_MAX`, however sparse they are, `getTimeSortedList` returns all members, each once,
in ascending order of position. -/
theorem resolver_order (s : PropertySet) (types : List PluginDescription)
    (hd : DistinctPositions s types) (hp : PositivePositions s types)
    (hlow : types ≠ [] → ∃ x ∈ types, position s x < INT_MAX) :
    (getTimeSortedList s types).Perm types ∧
      (getTimeSortedList s types).Pairwise (fun a b => position s a < position s b) :=
  getTimeSortedList_sorted s types hd hp hlow

/-- The amended resolver order at work: the list C, A, B with positions 35, 10, 20. -/
theorem resolver_order_witness :
    DistinctPositions exChainABC.settings exChainABC.activePluginList ∧
    PositivePositions exChainABC.settings exChainABC.activePluginList ∧
    (exChainABC.activePluginList ≠ [] →
      ∃ x ∈ exChainABC.activePluginList, position exChainABC.settings x < INT_MAX) ∧
    ((getTimeSortedList exChainABC.settings exChainABC.activePluginList).Perm
        exChainABC.activePluginList ∧
      (getTimeSortedList exChainABC.settings exChainABC.activePluginList).Pairwise
        (fun a b => position exChainABC.settings a < position exChainABC.settings b)) ∧
    getTimeSortedList exChainABC.settings exChainABC.activePluginList = [exA, exB, exC] :=
  ⟨by decide, by decide, by decide,
    resolver_order exChainABC.settings exChainABC.activePluginList (by decide) (by decide)
      (by decide), by decide⟩

/-- C15 as stated fails: in the chain A, B with the position 5 stored for both,
`getTimeSortedList` returns A and an empty description; B is not in the result. -/
theorem tie_loses_second_member :
    exChainTie.activePluginList = [exA, exB] ∧
    position exChainTie.settings exA = 5 ∧
    position exChainTie.settings exB = 5 ∧
    exChainTie.getTimeSortedList = [exA, PluginDescription.empty] ∧
    exB ∉ exChainTie.getTimeSortedList := by
  decide

/-- C15 (duplicate positions), as amended: when a member b shares its positive stored
position with a member a that comes before it in the iteration order of
`activePluginList` (a is the first member with that position), `getTimeSortedList`
contains a, does not contain b, and ends with an empty description in place of the
missing entry. -/
theorem tie_keeps_first_only (s : PropertySet) (types : List PluginDescription)
    (a b : PluginDescription) (hnd : types.Nodup)
    (hle : ∀ p ∈ types, position s p ≤ INT_MAX)
    (hlow : ∃ y ∈ types, 0 < position s y ∧ position s y < INT_MAX)
    (hb : b ∈ types) (hpos : 0 < position s b)
    (hfirst : firstWithPosition s types (position s b) = some a)
    (hab : a ≠ b) (hbe : b ≠ PluginDescription.empty) :
    a ∈ getTimeSortedList s types ∧ b ∉ getTimeSortedList s types ∧
    (getTimeSortedList s types).getLast? = some PluginDescription.empty := by
  obtain ⟨M, hperm, _, hres⟩ := getTimeSortedList_firsts s types hnd hle (fun _ => hlow)
  have hpa : position s a = position s b := (firstWithPosition_mem hfirst).2
  have haF : a ∈ types.filter (isFirstPositive s types) :=
    (mem_filter_isFirstPositive s types a).mpr ⟨by rw [hpa]; exact hpos, by rw [hpa]; exact hfirst⟩
  have hbF : b ∉ types.filter (isFirstPositive s types) := by
    intro h
    have := ((mem_filter_isFirstPositive s types b).mp h).2
    rw [hfirst] at this
    exact hab (Option.some.inj this)
  have hlt : M.length < types.length := by
    rw [hperm.length_eq]
    by_contra hge
    have hlen : (types.filter (isFirstPositive s types)).length = types.length :=
      le_antisymm (List.length_filter_le _ _) (not_lt.mp hge)
    have hall := List.filter_eq_self.mp
      (List.Sublist.eq_of_length (List.filter_sublist types) hlen)
    exact hbF (List.mem_filter.mpr ⟨hb, hall b hb⟩)
  obtain ⟨k, hk⟩ : ∃ k, types.length - M.length = k + 1 :=
    ⟨types.length - M.length - 1, by omega⟩
  rw [hres, hk]
  refine ⟨List.mem_append_left _ (hperm.symm.subset haF), ?_, ?_⟩
  · intro hmem
    rcases List.mem_append.mp hmem with h | h
    · exact hbF (hperm.subset h)
    · exact hbe (List.eq_of_mem_replicate h)
  · rw [List.replicate_succ', ← List.append_assoc, List.getLast?_append]
    rfl

/-- The amended tie behaviour at work: the chain A, B with position 5 for both. -/
theorem tie_keeps_first_only_witness :
    exChainTie.activePluginList.Nodup ∧
    (∀ p ∈ exChainTie.activePluginList, position exChainTie.settings p ≤ INT_MAX) ∧
    (∃ y ∈ exChainTie.activePluginList,
      0 < position exChainTie.settings y ∧ position exChainTie.settings y < INT_MAX) ∧
    exB ∈ exChainTie.activePluginList ∧ 0 < position exChainTie.settings exB ∧
    firstWithPosition exChainTie.settings exChainTie.activePluginList
      (position exChainTie.settings exB) = some exA ∧
    exA ≠ exB ∧ exB ≠ PluginDescription.empty ∧
    exA ∈ getTimeSortedList exChainTie.settings exChainTie.activePluginList ∧
    exB ∉ getTimeSortedList exChainTie.settings exChainTie.activePluginList ∧
    (getTimeSortedList exChainTie.settings exChainTie.activePluginList).getLast?
      = some PluginDescription.empty :=
  ⟨by decide, by decide, by decide, by decide, by decide, by decide, by decide, by decide,
    tie_keeps_first_only exChainTie.settings exChainTie.activePluginList exA exB (by decide)
      (by decide) (by decide) (by decide) (by decide) (by decide) (by decide) (by decide)⟩

/-- C16 (no duplicate positions after a move), evaluated on the code: in the chain
B, a, A (positions 1, 2, 3) the keys are pairwise distinct texts and the positions
distinct and positive.  The menu offers "Move Up" of index 1 (the plugin "a") as an
enabled item; after it the entries B and A both hold position 2.  The move loop compares
keys with `equalsIgnoreCase`, so it treats both "a" and "A" as the moved entry. -/
theorem moveUp_duplicates_position_case_variants :
    DistinctKeyTexts exChainCase4.activePluginList ∧
    DistinctPositions exChainCase4.settings exChainCase4.activePluginList ∧
    PositivePositions exChainCase4.settings exChainCase4.activePluginList ∧
    1 < exChainCase4.activePluginList.length ∧
    exChainCase4.getTimeSortedList = [exB, exLowerA, exA] ∧
    ({ itemResultID := INDEX_MOVE_UP + 1, isEnabled := true, isTicked := false } : MenuItem)
      ∈ exChainCase4.timerCallback ∧
    position (selectMenuItem exCreate 0 (INDEX_MOVE_UP + 1) exChainCase4).settings exB = 2 ∧
    position (selectMenuItem exCreate 0 (INDEX_MOVE_UP + 1) exChainCase4).settings exA = 2 ∧
    ¬ DistinctPositions (selectMenuItem exCreate 0 (INDEX_MOVE_UP + 1) exChainCase4).settings
      (selectMenuItem exCreate 0 (INDEX_MOVE_UP + 1) exChainCase4).activePluginList ∧
    position (moveUp exCreate 1 exChainCase4).settings exB = 2 ∧
    position (moveUp exCreate 1 exChainCase4).settings exA = 2 ∧
    ¬ DistinctPositions (moveUp exCreate 1 exChainCase4).settings
      (moveUp exCreate 1 exChainCase4).activePluginList := by
  decide

/-- No duplicate positions after a move where no two keys differ in letter case only: on
a chain of length n whose keys are pairwise distinct ignoring letter case and whose
positions are pairwise distinct positive `int`s, for every index i with 0 <= i < n,
after move up of index i and likewise after move down of index i the stored positions
of the n active entries are pairwise distinct. -/
theorem no_duplicate_positions_after_move (create : CreatePluginInstance) (im : IconMenu)
    (i : Nat) (h : WellFormedChain im.settings im.activePluginList)
    (hi : i < im.activePluginList.length) :
    DistinctPositions (moveUp create i im).settings (moveUp create i im).activePluginList ∧
    DistinctPositions (moveDown create i im).settings (moveDown create i im).activePluginList := by
  by_cases hn : 2 ≤ im.activePluginList.length
  · exact moves_keep_positions_distinct create im i h
      (exists_low_of_two _ _ h.2.1 h.2.2.1 hn) hi
  · have h1 : im.activePluginList.length = 1 := by omega
    obtain ⟨p, hp⟩ := List.length_eq_one.mp h1
    have hu : (moveUp create i im).activePluginList = [p] := hp
    have hd : (moveDown create i im).activePluginList = [p] := hp
    rw [hu, hd]
    exact ⟨List.pairwise_singleton _ _, List.pairwise_singleton _ _⟩

/-- The invariant at work: the chain A, B, C and index 0. -/
theorem no_duplicate_positions_after_move_witness :
    WellFormedChain exChainABC.settings exChainABC.activePluginList ∧
    0 < exChainABC.activePluginList.length ∧
    DistinctPositions (moveUp exCreate 0 exChainABC).settings
      (moveUp exCreate 0 exChainABC).activePluginList ∧
    DistinctPositions (moveDown exCreate 0 exChainABC).settings
      (moveDown exCreate 0 exChainABC).activePluginList :=
  ⟨by decide, by decide,
    no_duplicate_positions_after_move exCreate exChainABC 0 (by decide) (by decide)⟩

/-- C17 as stated fails: in the list B, A where only A has a plugin-order- entry
(position 5), `getTimeSortedList` returns A and an empty description, while for the list
A alone it returns A: an element is added. -/
theorem missing_order_entry_adds_empty :
    exChainOrphan.activePluginList = [exB, exA] ∧
    exChainOrphan.settings (getKey "order" exB) = none ∧
    position exChainOrphan.settings exA = 5 ∧
    exChainOrphan.getTimeSortedList = [exA, PluginDescription.empty] ∧
    getTimeSortedList exChainOrphan.settings [exA] = [exA] := by
  decide

/-- C17 (inconsistent metadata), as amended: when a member M has no plugin-order- entry
and all other members have pairwise distinct positive positions, `getTimeSortedList`
equals the sequence it returns for the same store and the list with M removed, followed
by one empty description: M is skipped and an empty description is added at the end. -/
theorem missing_order_entry_skipped (s : PropertySet) (l1 l2 : List PluginDescription)
    (M : PluginDescription) (hM : s (getKey "order" M) = none)
    (hd : DistinctPositions s (l1 ++ l2)) (hp : PositivePositions s (l1 ++ l2)) :
    getTimeSortedList s (l1 ++ M :: l2) =
      getTimeSortedList s (l1 ++ l2) ++ [PluginDescription.empty] :=
  getTimeSortedList_missing s l1 l2 M hM hd hp

/-- The amended behaviour at work: the list B, A where B has no order entry. -/
theorem missing_order_entry_skipped_witness :
    exChainOrphan.settings (getKey "order" exB) = none ∧
    DistinctPositions exChainOrphan.settings ([] ++ [exA]) ∧
    PositivePositions exChainOrphan.settings ([] ++ [exA]) ∧
    getTimeSortedList exChainOrphan.settings ([] ++ exB :: [exA]) =
      getTimeSortedList exChainOrphan.settings ([] ++ [exA]) ++ [PluginDescription.empty] :=
  ⟨by decide, by decide, by decide,
    missing_order_entry_skipped exChainOrphan.settings [] [exA] exB (by decide) (by decide)
      (by decide)⟩

/-- C18 as stated fails: the chain holds A alone, with the state [5] stored under its
state key and restored into node 1.  Once the live state of node 1 is empty,
`savePluginStates` leaves [5] under the key: an empty state is not written.  Likewise,
on the chain A, B, C with instances that start with an empty state, nothing is written
under the state key of A. -/
theorem empty_live_state_not_written :
    DistinctPositions exChainStale.settings exChainStale.activePluginList ∧
    PositivePositions exChainStale.settings exChainStale.activePluginList ∧
    exChainStale.graph.getNodeForId 1 = some ⟨1, Processor.plugin exA [5]⟩ ∧
    (exChainStale.graph.setLiveState 1 []).getNodeForId 1 = some ⟨1, Processor.plugin exA []⟩ ∧
    savePluginStates (exChainStale.graph.setLiveState 1 []) exChainStale.settings
      exChainStale.activePluginList (getKey "state" exA) = some (Var.blob [5]) ∧
    (loadActivePlugins (fun _ _ => some []) exChainABC.settings
      exChainABC.activePluginList).getNodeForId 1 = some ⟨1, Processor.plugin exA []⟩ ∧
    savePluginStates (loadActivePlugins (fun _ _ => some []) exChainABC.settings
      exChainABC.activePluginList) exChainABC.settings exChainABC.activePluginList
      (getKey "state" exA) = none := by
  decide

/-- C18 (node id equals rank), as amended: after `loadActivePlugins` on a chain of fewer
than 1000000 entries with pairwise distinct positive positions, for every 0-based
resolved index i the graph holds a node with id i + 1 exactly when the entry at resolved
index i was instantiated, and that node is the instance of that entry, bypassed or not;
and `savePluginStates`, called on a graph whose plugin nodes are those of the resolved
order while that order is unchanged, writes the state of each live node, when it is not
empty, under the plugin-state- key of the plugin the node was created from, and leaves
the entry under that key as it is when the state is empty. -/
theorem node_id_is_rank (create : CreatePluginInstance) (s : PropertySet)
    (types : List PluginDescription) (hd : DistinctPositions s types)
    (hp : PositivePositions s types) (hn : types.length < INPUT) :
    (∀ i, i < types.length →
      (loadActivePlugins create s types).getNodeForId (i + 1) =
        (create (i + 1) ((getTimeSortedList s types).getD i default)).map
          (fun fresh => ⟨i + 1,
            Processor.plugin ((getTimeSortedList s types).getD i default)
              (restoredState s ((getTimeSortedList s types).getD i default) fresh)⟩)) ∧
    LiveNodesOf (loadActivePlugins create s types) (getTimeSortedList s types) ∧
    (∀ (g : AudioProcessorGraph) (s2 : PropertySet) (i : Nat) (node : Node)
        (d : PluginDescription) (state : MemoryBlock),
      LiveNodesOf g (getTimeSortedList s types) →
      getTimeSortedList s2 types = getTimeSortedList s types →
      i < types.length → g.getNodeForId (i + 1) = some node →
      node.processor = Processor.plugin d state →
      d = (getTimeSortedList s types).getD i default ∧
      (state ≠ [] →
        savePluginStates g s2 types (getKey "state" d) = some (Var.blob state)) ∧
      (state = [] →
        savePluginStates g s2 types (getKey "state" d) = s2 (getKey "state" d))) := by
  refine ⟨(loadActivePlugins_nodes create s types hn).1,
    liveNodesOf_loadActivePlugins create s types hn, ?_⟩
  intro g s2 i node d state hlive hsame hi hg hproc
  have hil : i < (getTimeSortedList s types).length := by
    rw [length_getTimeSortedList]; exact hi
  have hdd : d = (getTimeSortedList s types).getD i default := by
    rcases hlive i hil with h0 | h1
    · rw [hg] at h0; exact Option.noConfusion h0
    · rw [hg] at h1
      simp only [Option.some_bind, hproc, Processor.description] at h1
      exact Option.some.inj h1
  have hget : (getTimeSortedList s types)[i]? = some d := by
    rw [hdd, List.getD_eq_getElem?_getD, List.getElem?_eq_getElem hil]
    rfl
  have hkeys := resolved_state_keys_distinct s types hd hp
  have hst : node.processor.getStateInformation = state := by rw [hproc]; rfl
  refine ⟨hdd, ?_, ?_⟩
  · intro hne
    unfold savePluginStates
    rw [hsame]
    have := saveLoop_written g _ 0 s2 hkeys i d node hget (by rw [Nat.zero_add]; exact hg)
      (by rw [hst]; exact hne)
    rw [this, hst]
  · intro he
    unfold savePluginStates
    rw [hsame]
    apply saveLoop_kept g _ 0 s2 hkeys i d hget
    intro node2 hg2
    rw [Nat.zero_add, hg] at hg2
    rw [← Option.some.inj hg2, hst, he]

/-- The amended node numbering at work: the graph rebuilt for the chain A, B, C. -/
theorem node_id_is_rank_witness :
    DistinctPositions exChainABC.settings exChainABC.activePluginList ∧
    PositivePositions exChainABC.settings exChainABC.activePluginList ∧
    exChainABC.activePluginList.length < INPUT ∧
    ((∀ i, i < exChainABC.activePluginList.length →
      (loadActivePlugins exCreate exChainABC.settings exChainABC.activePluginList).getNodeForId
          (i + 1) =
        (exCreate (i + 1) ((getTimeSortedList exChainABC.settings
            exChainABC.activePluginList).getD i default)).map
          (fun fresh => ⟨i + 1,
            Processor.plugin ((getTimeSortedList exChainABC.settings
                exChainABC.activePluginList).getD i default)
              (restoredState exChainABC.settings ((getTimeSortedList exChainABC.settings
                exChainABC.activePluginList).getD i default) fresh)⟩)) ∧
    LiveNodesOf (loadActivePlugins exCreate exChainABC.settings exChainABC.activePluginList)
      (getTimeSortedList exChainABC.settings exChainABC.activePluginList) ∧
    (∀ (g : AudioProcessorGraph) (s2 : PropertySet) (i : Nat) (node : Node)
        (d : PluginDescription) (state : MemoryBlock),
      LiveNodesOf g (getTimeSortedList exChainABC.settings exChainABC.activePluginList) →
      getTimeSortedList s2 exChainABC.activePluginList =
        getTimeSortedList exChainABC.settings exChainABC.activePluginList →
      i < exChainABC.activePluginList.length → g.getNodeForId (i + 1) = some node →
      node.processor = Processor.plugin d state →
      d = (getTimeSortedList exChainABC.settings exChainABC.activePluginList).getD i default ∧
      (state ≠ [] →
        savePluginStates g s2 exChainABC.activePluginList (getKey "state" d) =
          some (Var.blob state)) ∧
      (state = [] →
        savePluginStates g s2 exChainABC.activePluginList (getKey "state" d) =
          s2 (getKey "state" d)))) ∧
    (loadActivePlugins exCreate exChainABC.settings exChainABC.activePluginList).getNodeForId 2
      = some ⟨2, Processor.plugin exB [2]⟩ :=
  ⟨by decide, by decide, by decide,
    node_id_is_rank exCreate exChainABC.settings exChainABC.activePluginList (by decide)
      (by decide) (by decide), by decide⟩

/-- C19 (key collisions exist): `getKey type d` is "plugin-", the lower-cased type, "-",
then the name, version and format of d with no separator; the descriptions "Comp1" with
version "" and "Comp" with version "1" of the same format differ in their (name,
version, format) triples, `getKey` returns the same string for them for every type, and
in every store the two plugins share one order, bypass and state entry. -/
theorem key_collisions_exist :
    (∀ (type : String) (d : PluginDescription),
      getKey type d =
        "plugin-" ++ toLowerCase type ++ "-" ++ d.name ++ d.version ++ d.pluginFormatName) ∧
    (exComp1.name, exComp1.version, exComp1.pluginFormatName) ≠
      (exComp.name, exComp.version, exComp.pluginFormatName) ∧
    (∀ type : String, getKey type exComp1 = getKey type exComp) ∧
    (∀ s : PropertySet,
      s (getKey "order" exComp1) = s (getKey "order" exComp) ∧
      s (getKey "bypass" exComp1) = s (getKey "bypass" exComp) ∧
      s (getKey "state" exComp1) = s (getKey "state" exComp)) := by
  have hk : ∀ type : String, getKey type exComp1 = getKey type exComp := by
    intro type
    rw [getKey_eq_iff]
    decide
  refine ⟨fun _ _ => rfl, by decide, hk, fun s => ?_⟩
  rw [hk "order", hk "bypass", hk "state"]
  exact ⟨rfl, rfl, rfl⟩

end SoftHost
